import Mathlib

/-!
# Verification of the dotpilot core (layered apply / tracking / conflict resolution)

Shallow embedding of the Go sources in `core/conflict.go`, `core/file.go` and the
apply engine (`ApplyConfigurationsWithOptions` / `applyConfigDir`).  The filesystem
is modelled as a finite association list from paths (segment lists) to nodes
(regular file with content and mode, directory, or symbolic link).  Stateful Go
functions become functions `World → Except Err α × World`: the returned world keeps
every mutation performed before an error, mirroring Go's in-place effects.

External collaborators (terminal prompts, `exec.LookPath`, external merge/diff
tools, the editor) are injected as data carried by the `World`: a stdin line
stream, the set of available executables, and a stream of external-tool outcomes.
The process-wide tracking list (`AddTrackingPath` in the configuration module) is
modelled as an explicit `tracking` field; its persistence to `~/.dotpilotrc` is an
external-collaborator concern and is not part of the filesystem model.
-/

deriving instance DecidableEq for Except

namespace Dotpilot

/-- Character-list prefix test (kernel-reducible model of `strings.HasPrefix`). -/
def chPfx : List Char → List Char → Bool
  | [], _ => true
  | _ :: _, [] => false
  | a :: as, b :: bs => decide (a = b) && chPfx as bs

/-- `strings.HasPrefix s pre`. -/
def startsWithB (s pre : String) : Bool := chPfx pre.data s.data

/-- Lexicographic byte order on character lists (the order directory entries
are enumerated in). -/
def chLt : List Char → List Char → Bool
  | _, [] => false
  | [], _ :: _ => true
  | a :: as, b :: bs => decide (a.toNat < b.toNat) || (decide (a = b) && chLt as bs)

/-- Lexicographic order on strings. -/
def strLtB (a b : String) : Bool := chLt a.data b.data

/-- `strings.Split` with a one-character separator. -/
def splitChars (sep : Char) : List Char → List String
  | [] => [""]
  | c :: rest =>
    let r := splitChars sep rest
    if c = sep then "" :: r
    else
      match r with
      | [] => [String.mk [c]]
      | s :: t => (String.mk (c :: s.data)) :: t

/-- ASCII whitespace (the characters `strings.TrimSpace` strips in practice). -/
def isSpaceB (c : Char) : Bool :=
  decide (c = ' ') || decide (c = '\t') || decide (c = '\n') || decide (c = '\r')

/-- `strings.TrimSpace`. -/
def trimB (s : String) : String :=
  String.mk (((s.data.dropWhile isSpaceB).reverse.dropWhile isSpaceB).reverse)

/-- ASCII lower-casing of one character. -/
def lowerChar (c : Char) : Char :=
  match c with
  | 'A' => 'a' | 'B' => 'b' | 'C' => 'c' | 'D' => 'd' | 'E' => 'e' | 'F' => 'f'
  | 'G' => 'g' | 'H' => 'h' | 'I' => 'i' | 'J' => 'j' | 'K' => 'k' | 'L' => 'l'
  | 'M' => 'm' | 'N' => 'n' | 'O' => 'o' | 'P' => 'p' | 'Q' => 'q' | 'R' => 'r'
  | 'S' => 's' | 'T' => 't' | 'U' => 'u' | 'V' => 'v' | 'W' => 'w' | 'X' => 'x'
  | 'Y' => 'y' | 'Z' => 'z'
  | _ => c

/-- `strings.ToLower` (ASCII). -/
def toLowerB (s : String) : String := String.mk (s.data.map lowerChar)

/-- A filesystem path, as a list of segments (no separators inside a segment). -/
abbrev Path := List String

/-- A filesystem node: regular file (content, mode), directory (mode), or symlink. -/
inductive FNode where
  | file (content : String) (mode : Nat)
  | dir (mode : Nat)
  | symlink (target : Path)
deriving DecidableEq, Repr

/-- A filesystem: finite association list from paths to nodes. -/
abbrev FS := List (Path × FNode)

/-- Lookup of a path in the filesystem (`os.Lstat`: no symlink resolution). -/
def lookupFS (fs : FS) (p : Path) : Option FNode :=
  match fs with
  | [] => none
  | (q, n) :: rest => if q = p then some n else lookupFS rest p

/-- Set the node at a path: in-place update when present, append otherwise. -/
def setNode (fs : FS) (p : Path) (n : FNode) : FS :=
  match fs with
  | [] => [(p, n)]
  | (q, m) :: rest => if q = p then (q, n) :: rest else (q, m) :: setNode rest p n

/-- Remove all bindings of a path. -/
def removeNode (fs : FS) (p : Path) : FS :=
  match fs with
  | [] => []
  | (q, m) :: rest => if q = p then removeNode rest p else (q, m) :: removeNode rest p

/-- `pfx a b`: `a` is a (non-strict) leading-segment prefix of `b`. -/
def pfx : Path → Path → Bool
  | [], _ => true
  | _ :: _, [] => false
  | a :: as, b :: bs => decide (a = b) && pfx as bs

/-- Lexicographic order on paths with shorter-prefix-first: the order in which
`filepath.Walk` visits entries (directories before their children, names in
lexical order within a directory). -/
def pathLtB : Path → Path → Bool
  | _, [] => false
  | [], _ :: _ => true
  | a :: as, b :: bs => strLtB a b || (decide (a = b) && pathLtB as bs)

/-- Insert an entry into a path-sorted entry list. -/
def insertByPath (e : Path × FNode) : FS → FS
  | [] => [e]
  | f :: rest => if pathLtB f.1 e.1 then f :: insertByPath e rest else e :: f :: rest

/-- Sort an entry list by path (insertion sort). -/
def sortByPath : FS → FS
  | [] => []
  | e :: rest => insertByPath e (sortByPath rest)

/-- The entries strictly below a root, unordered. -/
def filterUnder (fs : FS) (root : Path) : FS :=
  fs.filter (fun e => pfx root e.1 && !(decide (e.1 = root)))

/-- The entries strictly below a root in `filepath.Walk` visiting order. -/
def entriesUnder (fs : FS) (root : Path) : FS :=
  sortByPath (filterUnder fs root)

/-- Errors surfaced by the core (the Go code uses `error` values; we distinguish
the caller-visible classes the spec names). -/
inductive Err where
  | ioError (msg : String)
  | alreadyExists
  | unknownStrategy (s : String)
  | noMergeTool
deriving DecidableEq, Repr

/-- `ConflictFile` from `core/conflict.go`. -/
structure ConflictFile where
  localPath : Path
  remotePath : Path
  target : Path
  diff : String
deriving DecidableEq, Repr

/-- Process state: the filesystem plus ambient data (home directory, hostname,
current environment), the tracking list, a timestamp counter feeding backup
names, mutation/backup counters, and the injected external collaborators. -/
structure World where
  fs : FS
  tracking : List Path
  clock : Nat
  muts : Nat
  nbackups : Nat
  home : Path
  hostname : String
  env : String
  stdin : List String
  editorEnv : String
  availTools : List String
  toolResults : List (Option String)
deriving DecidableEq, Repr

/-- Mode bits of a node (`FileInfo.Mode()`, permission part). -/
def nodeMode : FNode → Nat
  | .file _ m => m
  | .dir m => m
  | .symlink _ => 511

/-- Whether a node is a directory (`FileInfo.IsDir()`). -/
def nodeIsDir : FNode → Bool
  | .dir _ => true
  | _ => false

/-- Follow symlinks from a path to its final (non-symlink) path, with fuel
against link loops.  Mirrors kernel-side resolution of the last component. -/
def resolveLink (fs : FS) : Nat → Path → Option Path
  | 0, _ => none
  | n + 1, p =>
    match lookupFS fs p with
    | some (.symlink t) => resolveLink fs n t
    | _ => some p

/-- `os.Stat`: resolve symlinks, return the final path and node (or failure). -/
def statFS (fs : FS) (p : Path) : Option (Path × FNode) :=
  match resolveLink fs 40 p with
  | none => none
  | some q =>
    match lookupFS fs q with
    | none => none
    | some n => some (q, n)

/-- Read a file's bytes through symlinks; fails on directories and absent paths. -/
def readFileFS (fs : FS) (p : Path) : Option String :=
  match statFS fs p with
  | some (_, .file c _) => some c
  | _ => none

/-- Write (create/truncate) a file through symlinks, as `os.OpenFile` with
`O_CREATE|O_TRUNC`: an existing file keeps its mode, a new file gets `mode`;
writing a directory fails. -/
def writeFileFS (fs : FS) (p : Path) (content : String) (mode : Nat) : Option FS :=
  match resolveLink fs 40 p with
  | none => none
  | some q =>
    match lookupFS fs q with
    | some (.dir _) => none
    | some (.file _ m) => some (setNode fs q (.file content m))
    | some (.symlink _) => none
    | none => some (setNode fs q (.file content mode))

/-- Sequencing of stateful fallible steps; an error short-circuits but keeps the
world mutated so far (as Go's in-place filesystem effects do). -/
def andThen (r : Except Err Unit × World) (k : World → Except Err Unit × World) :
    Except Err Unit × World :=
  match r with
  | (.ok _, w) => k w
  | (.error e, w) => (.error e, w)

/-- `copyFile` from `core/file.go`: read the source (through symlinks), then
create/truncate the destination (through symlinks) with the given mode. -/
def copyFile (w : World) (source destination : Path) (mode : Nat) :
    Except Err Unit × World :=
  match readFileFS w.fs source with
  | none => (.error (.ioError "open source"), w)
  | some c =>
    match writeFileFS w.fs destination c mode with
    | none => (.error (.ioError "open destination"), w)
    | some fs2 => (.ok (), { w with fs := fs2, muts := w.muts + 1 })

/-- The nonempty leading prefixes of a path, shortest first. -/
def pathInits (p : Path) : List Path :=
  (List.range p.length).map (fun i => p.take (i + 1))

/-- Worker for `os.MkdirAll`: ensure every prefix is a directory, failing on a
non-directory component; already-existing directories are untouched. -/
def mkdirAllGo (mode : Nat) : List Path → World → Except Err Unit × World
  | [], w => (.ok (), w)
  | q :: rest, w =>
    match lookupFS w.fs q with
    | some (.dir _) => mkdirAllGo mode rest w
    | some _ => (.error (.ioError "mkdir: not a directory"), w)
    | none =>
      mkdirAllGo mode rest
        { w with fs := setNode w.fs q (.dir mode), muts := w.muts + 1 }

/-- `os.MkdirAll`. -/
def mkdirAllP (w : World) (p : Path) (mode : Nat) : Except Err Unit × World :=
  mkdirAllGo mode (pathInits p) w

/-- `os.Remove`: delete a file, symlink or empty directory. -/
def removeFile (w : World) (p : Path) : Except Err Unit × World :=
  match lookupFS w.fs p with
  | none => (.error (.ioError "remove: no such file"), w)
  | some (.dir _) =>
    if w.fs.any (fun e => pfx p e.1 && !(decide (e.1 = p))) then
      (.error (.ioError "remove: directory not empty"), w)
    else (.ok (), { w with fs := removeNode w.fs p, muts := w.muts + 1 })
  | some _ => (.ok (), { w with fs := removeNode w.fs p, muts := w.muts + 1 })

/-- `os.Symlink oldname newname`: create `newname → oldname`; fails if
`newname` exists. -/
def symlinkFS (w : World) (oldname newname : Path) : Except Err Unit × World :=
  match lookupFS w.fs newname with
  | some _ => (.error (.ioError "symlink: file exists"), w)
  | none => (.ok (), { w with fs := setNode w.fs newname (.symlink oldname), muts := w.muts + 1 })

/-- `os.Rename`: move a node, replacing any node at the destination. -/
def renameFS (w : World) (src dst : Path) : Except Err Unit × World :=
  match lookupFS w.fs src with
  | none => (.error (.ioError "rename: no such file"), w)
  | some n =>
    (.ok (), { w with fs := setNode (removeNode w.fs src) dst n, muts := w.muts + 1 })

/-- `os.Remove` with the result discarded (the Go code ignores the error). -/
def removeQuiet (w : World) (p : Path) : World :=
  (removeFile w p).2

/-- Append a suffix to the last segment of a path (Go's `path + suffix`). -/
def appendLast (p : Path) (sfx : String) : Path :=
  match p with
  | [] => [sfx]
  | [a] => [a ++ sfx]
  | a :: rest => a :: appendLast rest sfx

/-- Last segment of a path (`filepath.Base`). -/
def lastSeg : Path → String
  | [] => ""
  | [a] => a
  | _ :: rest => lastSeg rest

/-- Parent directory of a path (`filepath.Dir`). -/
def dirname (p : Path) : Path := p.dropLast

/-- `BackupFile` from `core/file.go`: copy `path` to
`path + ".dotpilot.bak." + timestamp`; an absent path yields no backup and no
error.  The timestamp is drawn from the world's clock. -/
def BackupFile (w : World) (p : Path) : Except Err (Option Path) × World :=
  match statFS w.fs p with
  | none => (.ok none, w)
  | some info =>
    match copyFile { w with clock := w.clock + 1 } p
        (appendLast p (".dotpilot.bak." ++ toString w.clock)) (nodeMode info.2) with
    | (.ok _, w2) =>
      (.ok (some (appendLast p (".dotpilot.bak." ++ toString w.clock))),
        { w2 with nbackups := w2.nbackups + 1 })
    | (.error e, w2) => (.error e, w2)

/-- The positional line-by-line comparison inside `FileDiff`. -/
def diffLines : List String → List String → String
  | [], [] => ""
  | [], l2 :: r2 => "+ " ++ l2 ++ "\n" ++ diffLines [] r2
  | l1 :: r1, [] => "- " ++ l1 ++ "\n" ++ diffLines r1 []
  | l1 :: r1, l2 :: r2 =>
    (if l1 = l2 then "" else "- " ++ l1 ++ "\n" ++ "+ " ++ l2 ++ "\n") ++ diffLines r1 r2

/-- `FileDiff` from `core/file.go`: read both files and compare line by line. -/
def FileDiff (fs : FS) (file1 file2 : Path) : Option String :=
  match readFileFS fs file1, readFileFS fs file2 with
  | some c1, some c2 =>
    let d := diffLines (splitChars '\n' c1.data) (splitChars '\n' c2.data)
    some (if d = "" then "Files are identical" else d)
  | _, _ => none

/-- `utils.PromptYesNo`: consume stdin lines until a y/yes or n/no answer;
end of input answers no (the Go code logs the read error and returns false). -/
def promptLoop : List String → Bool × List String
  | [] => (false, [])
  | r :: rest =>
    let resp := toLowerB (trimB r)
    if resp = "y" || resp = "yes" then (true, rest)
    else if resp = "n" || resp = "no" then (false, rest)
    else promptLoop rest

/-- `utils.PromptYesNo` acting on the world's stdin stream. -/
def promptYesNo (w : World) : Bool × World :=
  let r := promptLoop w.stdin
  (r.1, { w with stdin := r.2 })

/-- `AddTrackingPath` from the configuration module: append a home-relative path
to the tracking list unless already present. -/
def AddTrackingPath (w : World) (p : Path) : World :=
  if w.tracking.any (fun q => decide (q = p)) then w
  else { w with tracking := w.tracking ++ [p] }

/-- `filepath.Rel base p` in the only shape the core uses: strip a leading
prefix; a non-prefix base is treated as the error case. -/
def relFrom (base p : Path) : Option Path :=
  if pfx base p then some (p.drop base.length) else none

/-- The reserved-entry skip used by both the apply walk and conflict detection:
`strings.HasPrefix(relPath, ".git") || relPath == "README.md"` on the joined
relative path, i.e. the first segment starts with `.git`, or the relative path
is exactly `README.md`. -/
def skipRel (rel : Path) : Bool :=
  (match rel with
   | s :: _ => startsWithB s ".git"
   | [] => false) || decide (rel = ["README.md"])

/-- Register a live path in the tracking list, as the apply walk does:
`filepath.Rel(home, targetPath)` followed by `AddTrackingPath` (a `Rel` failure
skips the registration). -/
def trackTarget (w : World) (targetPath : Path) : World :=
  match relFrom w.home targetPath with
  | some r => AddTrackingPath w r
  | none => w

/-- The `filepath.Walk` callback body of `applyConfigDir`: skip reserved
entries, create directories, and reconcile each file entry to a symlink with
optional diff prompt and backup-before-overwrite. -/
def applyEntry (configDir : Path) (backup diffPrompt : Bool) (w : World)
    (e : Path × FNode) : Except Err Unit × World :=
  if decide (e.1 = configDir) then (.ok (), w)
  else
    match relFrom configDir e.1 with
    | none => (.error (.ioError "rel"), w)
    | some rel =>
      if skipRel rel then (.ok (), w)
      else
        let targetPath := w.home ++ rel
        if nodeIsDir e.2 then mkdirAllP w targetPath (nodeMode e.2)
        else
          match lookupFS w.fs targetPath with
          | some tinfo =>
            if (match tinfo with
                | .symlink t => decide (t = e.1)
                | _ => false) then (.ok (), w)
            else
              let pw :=
                if diffPrompt then
                  match statFS w.fs targetPath with
                  | some _ =>
                    match FileDiff w.fs targetPath e.1 with
                    | none => (true, w)
                    | some _ => promptYesNo w
                  | none => (true, w)
                else (true, w)
              if pw.1 then
                let w3 := if backup then (BackupFile pw.2 targetPath).2 else pw.2
                andThen (removeFile w3 targetPath) fun w4 =>
                andThen (symlinkFS w4 e.1 targetPath) fun w5 =>
                (.ok (), trackTarget w5 targetPath)
              else (.ok (), pw.2)
          | none =>
            andThen (symlinkFS w e.1 targetPath) fun w5 =>
            (.ok (), trackTarget w5 targetPath)

/-- The `filepath.Walk` loop of `applyConfigDir`: process entries in order,
aborting the walk on the first callback error. -/
def applyWalk (configDir : Path) (backup diffPrompt : Bool) :
    FS → World → Except Err Unit × World
  | [], w => (.ok (), w)
  | e :: rest, w =>
    match applyEntry configDir backup diffPrompt w e with
    | (.ok _, w1) => applyWalk configDir backup diffPrompt rest w1
    | (.error err, w1) => (.error err, w1)

/-- `applyConfigDir`: skip an absent tier root, otherwise walk it. -/
def applyConfigDir (w : World) (configDir : Path) (backup diffPrompt : Bool) :
    Except Err Unit × World :=
  match statFS w.fs configDir with
  | none => (.ok (), w)
  | some _ => applyWalk configDir backup diffPrompt (entriesUnder w.fs configDir) w

/-- `ApplyConfigurationsWithOptions`: apply the common, environment and
machine tiers in that fixed order, propagating the first tier error. -/
def ApplyConfigurationsWithOptions (w : World) (dotpilotDir : Path)
    (environment : String) (backup diffPrompt : Bool) : Except Err Unit × World :=
  andThen (applyConfigDir w (dotpilotDir ++ ["common"]) backup diffPrompt) fun w1 =>
  andThen
    (if environment ≠ "" then
      applyConfigDir w1 (dotpilotDir ++ ["envs", environment]) backup diffPrompt
     else (.ok (), w1)) fun w2 =>
  applyConfigDir w2 (dotpilotDir ++ ["machine", w.hostname]) backup diffPrompt

/-- `ApplyConfigurations`: the default options (backup and diff prompt on). -/
def ApplyConfigurations (w : World) (dotpilotDir : Path) (environment : String) :
    Except Err Unit × World :=
  ApplyConfigurationsWithOptions w dotpilotDir environment true true

/-- Register the tracked source in the tracking list, as `trackSingleFile`
does: `filepath.Rel(HOME, source)` then `AddTrackingPath`. -/
def trackHome (w : World) (source : Path) : World :=
  match relFrom w.home source with
  | some r => AddTrackingPath w r
  | none => w

/-- `trackSingleFile` from `core/file.go`: copy the source into the template
tree, back up (by rename) a pre-existing non-symlink source, then replace the
source with a symlink to the destination and register it. -/
def trackSingleFile (w : World) (source destination : Path) (overwrite : Bool) :
    Except Err Unit × World :=
  match statFS w.fs source with
  | none => (.error (.ioError "stat source"), w)
  | some si =>
    if (statFS w.fs destination).isSome && !overwrite then (.error .alreadyExists, w)
    else
      andThen (mkdirAllP w (dirname destination) 493) fun w1 =>
      andThen (copyFile w1 source destination (nodeMode si.2)) fun w2 =>
      match lookupFS w2.fs source with
      | some (.symlink t) =>
        if decide (t = destination) then (.ok (), w2)
        else
          andThen (symlinkFS w2 destination source) fun w3 =>
          (.ok (), trackHome w3 source)
      | some _ =>
        let backupPath := appendLast source (".dotpilot.bak." ++ toString w2.clock)
        let w2a := { w2 with clock := w2.clock + 1, nbackups := w2.nbackups + 1 }
        andThen (renameFS w2a source backupPath) fun w3 =>
        andThen (symlinkFS w3 destination source) fun w4 =>
        (.ok (), trackHome w4 source)
      | none =>
        andThen (symlinkFS w2 destination source) fun w3 =>
        (.ok (), trackHome w3 source)

/-- The `filepath.Walk` callback of `trackDirectory`: mirror directories,
track files. -/
def trackDirEntry (source destination : Path) (overwrite : Bool) (w : World)
    (e : Path × FNode) : Except Err Unit × World :=
  match relFrom source e.1 with
  | none => (.error (.ioError "rel"), w)
  | some rel =>
    if decide (rel = ([] : Path)) then (.ok (), w)
    else
      let destPath := destination ++ rel
      if nodeIsDir e.2 then mkdirAllP w destPath (nodeMode e.2)
      else trackSingleFile w e.1 destPath overwrite

/-- The walk loop of `trackDirectory`, aborting on the first error. -/
def trackDirWalk (source destination : Path) (overwrite : Bool) :
    FS → World → Except Err Unit × World
  | [], w => (.ok (), w)
  | e :: rest, w =>
    match trackDirEntry source destination overwrite w e with
    | (.ok _, w1) => trackDirWalk source destination overwrite rest w1
    | (.error err, w1) => (.error err, w1)

/-- `trackDirectory` from `core/file.go`. -/
def trackDirectory (w : World) (source destination : Path) (overwrite : Bool) :
    Except Err Unit × World :=
  andThen (mkdirAllP w destination 493) fun w1 =>
  trackDirWalk source destination overwrite (entriesUnder w1.fs source) w1

/-- `TrackFile` from `core/file.go`: refuse an absent source, create the
destination's parent directories, refuse an existing destination unless
overwriting, then route to the directory or single-file tracker. -/
def TrackFile (w : World) (source destination dotpilotDir : Path)
    (overwrite : Bool) : Except Err Unit × World :=
  match statFS w.fs source with
  | none => (.error (.ioError "stat source"), w)
  | some si =>
    andThen (mkdirAllP w (dirname destination) 493) fun w1 =>
    if (statFS w1.fs destination).isSome && !overwrite then (.error .alreadyExists, w1)
    else if nodeIsDir si.2 then trackDirectory w1 source destination overwrite
    else trackSingleFile w1 source destination overwrite

/-- `collectFiles` from `core/conflict.go`: all non-directory entries under a
directory (an absent directory yields the empty list). -/
def collectFiles (fs : FS) (dir : Path) : List Path :=
  match statFS fs dir with
  | none => []
  | some _ =>
    let rootE : FS :=
      match lookupFS fs dir with
      | some n => [(dir, n)]
      | none => []
    ((rootE ++ entriesUnder fs dir).filter (fun e => !(nodeIsDir e.2))).map
      (fun e => e.1)

/-- The tier-prefix-to-home mapping used by `detectConflicts` (note: it drops
`parts[2:]` for the common tier and `parts[3:]` for `envs`/`machine`). -/
def conflictTarget (home : Path) (parts : Path) : Option Path :=
  match parts with
  | p0 :: _ =>
    if p0 = "common" then some (home ++ parts.drop 2)
    else if p0 = "envs" then
      (if parts.length < 3 then none else some (home ++ parts.drop 3))
    else if p0 = "machine" then
      (if parts.length < 3 then none else some (home ++ parts.drop 3))
    else none
  | [] => none

/-- The per-path loop of `detectConflicts`. -/
def detectLoop (w : World) (dotpilotDir : Path) : List Path → List ConflictFile
  | [] => []
  | path :: rest =>
    let next := detectLoop w dotpilotDir rest
    match relFrom dotpilotDir path with
    | none => next
    | some rel =>
      if skipRel rel then next
      else if rel.length < 2 then next
      else
        match conflictTarget w.home rel with
        | none => next
        | some targetPath =>
          match lookupFS w.fs targetPath with
          | none => next
          | some tinfo =>
            if (match tinfo with
                | .symlink t => decide (t = path)
                | _ => false) then next
            else
              let diff :=
                match FileDiff w.fs targetPath path with
                | some d => d
                | none => "Unable to generate diff"
              { localPath := targetPath, remotePath := path, target := targetPath,
                diff := diff } :: next

/-- `detectConflicts` from `core/conflict.go`: collect candidate template files
from the three tiers and report each whose live counterpart exists and is not a
symlink to it. -/
def detectConflicts (w : World) (dotpilotDir : Path) : List ConflictFile :=
  let environment := if w.env = "" then "default" else w.env
  let commonFiles := collectFiles w.fs (dotpilotDir ++ ["common"])
  let envFiles :=
    if environment ≠ "" then collectFiles w.fs (dotpilotDir ++ ["envs", environment])
    else []
  let machineFiles := collectFiles w.fs (dotpilotDir ++ ["machine", w.hostname])
  detectLoop w dotpilotDir (commonFiles ++ envFiles ++ machineFiles)

/-- `updateSymlink` from `core/conflict.go`: remove the target if present,
then create `target → source`. -/
def updateSymlink (w : World) (source target : Path) : Except Err Unit × World :=
  match lookupFS w.fs target with
  | some _ => andThen (removeFile w target) fun w1 => symlinkFS w1 source target
  | none => symlinkFS w source target

/-- `resolveKeepLocal`: copy the live file over the template, then relink. -/
def resolveKeepLocal (w : World) (c : ConflictFile) : Except Err Unit × World :=
  andThen (copyFile w c.localPath c.remotePath 420) fun w1 =>
  updateSymlink w1 c.remotePath c.localPath

/-- `resolveKeepRemote`: back up the live file, then relink to the template. -/
def resolveKeepRemote (w : World) (c : ConflictFile) : Except Err Unit × World :=
  match BackupFile w c.localPath with
  | (.error e, w1) => (.error e, w1)
  | (.ok _, w1) => updateSymlink w1 c.remotePath c.localPath

/-- `resolveBackupBoth`: copy the live file next to the template under a
`.local.<timestamp>` name, leaving both originals untouched. -/
def resolveBackupBoth (w : World) (c : ConflictFile) : Except Err Unit × World :=
  let backupName := lastSeg c.remotePath ++ ".local." ++ toString w.clock
  let backupPath := dirname c.remotePath ++ [backupName]
  let w1 := { w with clock := w.clock + 1 }
  copyFile w1 c.localPath backupPath 420

/-- `exec.LookPath` on the command part (before any space) of a tool spec. -/
def lookPathOk (w : World) (tool : String) : Bool :=
  let c :=
    match splitChars ' ' tool.data with
    | x :: _ => x
    | [] => tool
  w.availTools.any (fun t => decide (t = c))

/-- First available tool of a preference list, or `""`. -/
def findTool (w : World) : List String → String
  | [] => ""
  | t :: rest => if lookPathOk w t then t else findTool w rest

/-- Invoke an external interactive tool (`cmd.Run`): draw the next outcome from
the injected stream; a successful run may rewrite one file (the temp file the
tool was pointed at). -/
def runTool (w : World) (writesTo : Option Path) : Except Err Unit × World :=
  match w.toolResults with
  | [] => (.error (.ioError "tool failed"), w)
  | none :: rest => (.error (.ioError "tool failed"), { w with toolResults := rest })
  | some out :: rest =>
    match writesTo with
    | none => (.ok (), { w with toolResults := rest })
    | some p =>
      match writeFileFS w.fs p out 384 with
      | none => (.error (.ioError "tool write"), { w with toolResults := rest })
      | some fs2 =>
        (.ok (), { w with toolResults := rest, fs := fs2, muts := w.muts + 1 })

/-- The directory `os.CreateTemp` allocates in. -/
def tmpDir : Path := ["tmp"]

/-- The fixed merge-tool preference order of `resolveMerge`. -/
def mergeToolsList : List String := ["meld", "kdiff3", "vimdiff", "code -d"]

/-- `resolveMerge`: find a merge tool, seed a temp file from the template,
run the tool on it, copy the result to both live and template paths and relink;
the temp file is removed on every exit path. -/
def resolveMerge (w : World) (c : ConflictFile) : Except Err Unit × World :=
  let selectedTool := findTool w mergeToolsList
  if selectedTool = "" then (.error .noMergeTool, w)
  else
    let mergedPath := tmpDir ++ ["dotpilot-merge-" ++ toString w.clock]
    let w1 := { w with clock := w.clock + 1, fs := setNode w.fs mergedPath (.file "" 384), muts := w.muts + 1 }
    match copyFile w1 c.remotePath mergedPath 420 with
    | (.error e, w2) => (.error e, removeQuiet w2 mergedPath)
    | (.ok _, w2) =>
      match runTool w2 (some mergedPath) with
      | (.error e, w3) => (.error e, removeQuiet w3 mergedPath)
      | (.ok _, w3) =>
        match copyFile w3 mergedPath c.localPath 420 with
        | (.error e, w4) => (.error e, removeQuiet w4 mergedPath)
        | (.ok _, w4) =>
          match copyFile w4 mergedPath c.remotePath 420 with
          | (.error e, w5) => (.error e, removeQuiet w5 mergedPath)
          | (.ok _, w5) =>
            let w6 := removeQuiet w5 mergedPath
            updateSymlink w6 c.remotePath c.localPath

/-- The fixed diff-tool preference order of `viewDiffExternal`. -/
def diffToolsList : List String := ["meld", "kdiff3", "vimdiff", "code -d", "diff -u"]

/-- `viewDiffExternal`: run a diff tool if available, else print the stored
diff (a pure display; no filesystem effect). -/
def viewDiffExternal (w : World) (_c : ConflictFile) : Except Err Unit × World :=
  let selectedTool := findTool w diffToolsList
  if selectedTool = "" then (.ok (), w)
  else runTool w none

/-- The editor preference order of `editFileManually`. -/
def editorsList : List String := ["nano", "vim", "vi", "emacs", "code"]

/-- `editFileManually`: copy the template to a temp file, open the editor on
it, then on a confirmed y/yes answer install the edited content into both live
and template paths and relink; the temp file is removed on every exit path. -/
def editFileManually (w : World) (c : ConflictFile) : Except Err Unit × World :=
  let editor := if w.editorEnv ≠ "" then w.editorEnv else findTool w editorsList
  if editor = "" then (.error (.ioError "no editor found"), w)
  else
    let tmpPath := tmpDir ++ ["dotpilot-edit-" ++ toString w.clock]
    let w1 := { w with clock := w.clock + 1, fs := setNode w.fs tmpPath (.file "" 384), muts := w.muts + 1 }
    match copyFile w1 c.remotePath tmpPath 420 with
    | (.error e, w2) => (.error e, removeQuiet w2 tmpPath)
    | (.ok _, w2) =>
      match runTool w2 (some tmpPath) with
      | (.error e, w3) => (.error e, removeQuiet w3 tmpPath)
      | (.ok _, w3) =>
        match w3.stdin with
        | [] => (.error (.ioError "stdin"), removeQuiet w3 tmpPath)
        | resp :: rest =>
          let w4 := { w3 with stdin := rest }
          let response := toLowerB (trimB resp)
          if response = "y" || response = "yes" then
            match copyFile w4 tmpPath c.localPath 420 with
            | (.error e, w5) => (.error e, removeQuiet w5 tmpPath)
            | (.ok _, w5) =>
              match copyFile w5 tmpPath c.remotePath 420 with
              | (.error e, w6) => (.error e, removeQuiet w6 tmpPath)
              | (.ok _, w6) =>
                match updateSymlink w6 c.remotePath c.localPath with
                | (.error e, w7) => (.error e, removeQuiet w7 tmpPath)
                | (.ok _, w7) => (.ok (), removeQuiet w7 tmpPath)
          else (.ok (), removeQuiet w4 tmpPath)

/-- The menu loop of `resolveInteractive`; each iteration consumes one stdin
line, so the initial stdin length bounds the iteration count (end of input is
a read error, as in the Go code). -/
def interactiveLoop (c : ConflictFile) : Nat → World → Except Err Unit × World
  | 0, w => (.error (.ioError "stdin"), w)
  | fuel + 1, w =>
    match w.stdin with
    | [] => (.error (.ioError "stdin"), w)
    | choiceLine :: rest =>
      let w1 := { w with stdin := rest }
      let choice := trimB choiceLine
      if choice = "1" then resolveKeepLocal w1 c
      else if choice = "2" then resolveKeepRemote w1 c
      else if choice = "3" then resolveMerge w1 c
      else if choice = "4" then interactiveLoop c fuel (viewDiffExternal w1 c).2
      else if choice = "5" then interactiveLoop c fuel (editFileManually w1 c).2
      else if choice = "6" then resolveBackupBoth w1 c
      else if choice = "7" then (.ok (), w1)
      else interactiveLoop c fuel w1

/-- `resolveInteractive`. -/
def resolveInteractive (w : World) (c : ConflictFile) : Except Err Unit × World :=
  interactiveLoop c (w.stdin.length + 1) w

/-- `resolveConflict`: dispatch on the strategy string; an unrecognized name is
the unknown-strategy error, with no effect. -/
def resolveConflict (w : World) (c : ConflictFile) (strategy : String) :
    Except Err Unit × World :=
  if strategy = "interactive" then resolveInteractive w c
  else if strategy = "keep-local" then resolveKeepLocal w c
  else if strategy = "keep-remote" then resolveKeepRemote w c
  else if strategy = "merge" then resolveMerge w c
  else if strategy = "backup-both" then resolveBackupBoth w c
  else (.error (.unknownStrategy strategy), w)

/-- The per-conflict loop of `ResolveConflicts`: a failed resolution is logged
and the loop continues with the next record. -/
def resolveLoop (strategy : String) : List ConflictFile → World → World
  | [], w => w
  | c :: rest, w => resolveLoop strategy rest (resolveConflict w c strategy).2

/-- `ResolveConflicts`: detect conflicts, then resolve each under the strategy;
per-record failures are only logged, so the call returns ok.  (The detection
error branch of the Go code covers `os.UserHomeDir`/`os.Hostname`/walk
failures, which the model's ambient state renders infallible.) -/
def ResolveConflicts (w : World) (dotpilotDir : Path) (strategy : String) :
    Except Err Unit × World :=
  let conflicts := detectConflicts w dotpilotDir
  if conflicts.isEmpty then (.ok (), w)
  else (.ok (), resolveLoop strategy conflicts w)

/-! ## Predicates used by the correctness statements -/

/-- Is there a directory at `q`? -/
def isDirAt (fs : FS) (q : Path) : Bool :=
  match lookupFS fs q with
  | some (.dir _) => true
  | _ => false

/-- Is there a regular file at `q`? -/
def isFileAt (fs : FS) (q : Path) : Bool :=
  match lookupFS fs q with
  | some (.file _ _) => true
  | _ => false

/-- Does `p` occur as a key of `fs`? (Boolean, for decidable hypotheses.) -/
def keyFree (p : Path) : FS → Bool
  | [] => true
  | e :: rest => !(decide (e.1 = p)) && keyFree p rest

/-- Are the keys of `fs` pairwise distinct? -/
def keysNodupB : FS → Bool
  | [] => true
  | e :: rest => keyFree e.1 rest && keysNodupB rest

/-- The part of a node the apply walk can observe: kind, mode, link target. -/
inductive NShape where
  | fileS (mode : Nat)
  | dirS (mode : Nat)
  | symS (target : Path)
deriving DecidableEq, Repr

/-- Shape of a node (content forgotten). -/
def shapeOf : FNode → NShape
  | .file _ m => .fileS m
  | .dir m => .dirS m
  | .symlink t => .symS t

/-- Shapes of an entry list. -/
def shapeList (l : FS) : List (Path × NShape) := l.map (fun e => (e.1, shapeOf e.2))

/-- The bindings whose key lies under `dp` (in list order). -/
def underList (dp : Path) (fs : FS) : FS := fs.filter (fun e => pfx dp e.1)

/-- Shape of the node found at `p`. -/
def shapeAt (fs : FS) (p : Path) : Option NShape := (lookupFS fs p).map shapeOf

/-- The template part of two filesystems coincides up to file contents. -/
def SameShapeUnder (dp : Path) (fs0 fs : FS) : Prop :=
  shapeList (underList dp fs0) = shapeList (underList dp fs)

/-- Invariant carried through an apply run: the template part keeps its shape,
symlinks into the template region point at (original) template files, and keys
stay distinct. -/
structure ApplyInv (dp : Path) (fs0 : FS) (fs : FS) : Prop where
  shape : SameShapeUnder dp fs0 fs
  links : ∀ p t, lookupFS fs p = some (.symlink t) → pfx dp t = true →
    isFileAt fs0 t = true
  nodup : keysNodupB fs = true

/-- H: the template region holds only files and directories (no symlinks). -/
def tmplPlain (dp : Path) (fs : FS) : Bool :=
  fs.all (fun e =>
    !(pfx dp e.1) ||
    (match e.2 with
     | .symlink _ => false
     | _ => true))

/-- H: every symlink whose target lies in the template region points at a file. -/
def linksValidB (dp : Path) (fs : FS) : Bool :=
  fs.all (fun e =>
    match e.2 with
    | .symlink t => !(pfx dp t) || isFileAt fs t
    | _ => true)

/-- H: below `root`, every proper ancestor of an entry is a directory entry. -/
def treeWFB (fs : FS) (root : Path) : Bool :=
  fs.all (fun e =>
    !(pfx root e.1 && !(decide (e.1 = root))) ||
    (pathInits e.1).all (fun q =>
      !(pfx root q && !(decide (q = root)) && !(decide (q = e.1))) || isDirAt fs q))

/-- Two tier roots claim overlapping home-relative paths: some entry of the
first maps to a live path that equals, or is an ancestor or descendant of, a
live path an entry of the second maps to. -/
def relsClash (fs : FS) (r1 r2 : Path) : Bool :=
  fs.any (fun e => pfx r1 e.1 && !(decide (e.1 = r1)) &&
    fs.any (fun f => pfx r2 f.1 && !(decide (f.1 = r2)) &&
      (pfx (e.1.drop r1.length) (f.1.drop r2.length) ||
       pfx (f.1.drop r2.length) (e.1.drop r1.length))))

/-- A tier root is either absent or a directory. -/
def rootOkB (fs : FS) (r : Path) : Bool :=
  match lookupFS fs r with
  | none => true
  | some (.dir _) => true
  | some _ => false

/-! ## Concrete scenario states -/

/-- Home directory of the concrete scenarios. -/
def exHome : Path := ["home", "user"]

/-- Template root of the concrete scenarios. -/
def exDp : Path := ["dp"]

/-- A world skeleton for the concrete scenarios. -/
def baseW : World :=
  { fs := [], tracking := [], clock := 0, muts := 0, nbackups := 0,
    home := exHome, hostname := "h", env := "", stdin := [], editorEnv := "",
    availTools := [], toolResults := [] }

/-- The end-to-end scenario of the spec: `common/.vimrc` = "A", a foreign
regular file `~/.vimrc` = "B". -/
def wVimrc : World :=
  { baseW with fs :=
    [ (["home"], .dir 493), (exHome, .dir 493),
      (exHome ++ [".vimrc"], .file "B" 420),
      (exDp, .dir 493), (exDp ++ ["common"], .dir 493),
      (exDp ++ ["common", ".vimrc"], .file "A" 420) ] }

/-- The conflict record of the `.vimrc` scenario. -/
def cVimrc : ConflictFile :=
  { localPath := exHome ++ [".vimrc"], remotePath := exDp ++ ["common", ".vimrc"],
    target := exHome ++ [".vimrc"], diff := "d" }

/-- Overlapping tiers: `common/X` and `machine/h/X` map to the same live path. -/
def wOverlap : World :=
  { baseW with fs :=
    [ (["home"], .dir 493), (exHome, .dir 493),
      (exDp, .dir 493), (exDp ++ ["common"], .dir 493),
      (exDp ++ ["common", "X"], .file "C" 420),
      (exDp ++ ["machine"], .dir 493), (exDp ++ ["machine", "h"], .dir 493),
      (exDp ++ ["machine", "h", "X"], .file "M" 420) ] }

/-- A tier whose entry `a` collides with a foreign regular file `~/a`, plus a
later entry `c`: applying it fails at `a` before reaching `c`. -/
def wAbort : World :=
  { baseW with fs :=
    [ (["home"], .dir 493), (exHome, .dir 493),
      (exHome ++ ["a"], .file "foreign" 420),
      (exDp, .dir 493), (exDp ++ ["common"], .dir 493),
      (exDp ++ ["common", "a"], .dir 493),
      (exDp ++ ["common", "a", "b"], .file "B" 420),
      (exDp ++ ["common", "c"], .file "C" 420) ] }

/-- Two detected conflicts where the first (`~/d1`, a directory) fails to
resolve under keep-local and the second (`~/f2`) succeeds. -/
def wBatch : World :=
  { baseW with fs :=
    [ (["home"], .dir 493), (exHome, .dir 493),
      (exHome ++ ["d1"], .dir 493),
      (exHome ++ ["f2"], .file "L2" 420),
      (exDp, .dir 493), (exDp ++ ["common"], .dir 493),
      (exDp ++ ["common", "s"], .dir 493),
      (exDp ++ ["common", "s", "d1"], .file "T1" 420),
      (exDp ++ ["common", "s", "f2"], .file "T2" 420) ] }

/-- A fresh file to track: `~/.bashrc` exists, its template destination not. -/
def wTrack : World :=
  { baseW with fs :=
    [ (["home"], .dir 493), (exHome, .dir 493),
      (exHome ++ [".bashrc"], .file "RC" 420),
      (exDp, .dir 493), (exDp ++ ["common"], .dir 493) ] }

/-- A single non-overlapping template file, for the idempotence witness. -/
def wPlain : World :=
  { baseW with fs :=
    [ (["home"], .dir 493), (exHome, .dir 493),
      (exDp, .dir 493), (exDp ++ ["common"], .dir 493),
      (exDp ++ ["common", "f"], .file "A" 420) ] }

/-! ## Filesystem lemma library -/

theorem andThen_ok (w : World) (k : World → Except Err Unit × World) :
    andThen (.ok (), w) k = k w := rfl

theorem andThen_error (e : Err) (w : World) (k : World → Except Err Unit × World) :
    andThen (.error e, w) k = (.error e, w) := rfl

theorem lookupFS_setNode_self (fs : FS) (p : Path) (n : FNode) :
    lookupFS (setNode fs p n) p = some n := by
  induction fs with
  | nil => simp [setNode, lookupFS]
  | cons e rest ih =>
    obtain ⟨q, m⟩ := e
    by_cases h : q = p
    · simp [setNode, lookupFS, h]
    · simp [setNode, lookupFS, h, ih]

theorem lookupFS_setNode_ne (fs : FS) (p q : Path) (n : FNode) (h : q ≠ p) :
    lookupFS (setNode fs p n) q = lookupFS fs q := by
  induction fs with
  | nil => simp [setNode, lookupFS, Ne.symm h]
  | cons e rest ih =>
    obtain ⟨r, m⟩ := e
    by_cases hr : r = p
    · subst hr
      simp [setNode, lookupFS, Ne.symm h]
    · simp [setNode, lookupFS, hr, ih]

theorem lookupFS_removeNode_self (fs : FS) (p : Path) :
    lookupFS (removeNode fs p) p = none := by
  induction fs with
  | nil => simp [removeNode, lookupFS]
  | cons e rest ih =>
    obtain ⟨q, m⟩ := e
    by_cases h : q = p
    · simp [removeNode, h, ih]
    · simp [removeNode, lookupFS, h, ih]

theorem lookupFS_removeNode_ne (fs : FS) (p q : Path) (h : q ≠ p) :
    lookupFS (removeNode fs p) q = lookupFS fs q := by
  induction fs with
  | nil => simp [removeNode]
  | cons e rest ih =>
    obtain ⟨r, m⟩ := e
    by_cases hr : r = p
    · subst hr
      simp [removeNode, lookupFS, Ne.symm h, ih]
    · simp [removeNode, lookupFS, hr, ih]

theorem resolveLink_no_symlink (fs : FS) (p : Path) (n : Nat) (hn : n ≠ 0)
    (h : ∀ t, lookupFS fs p ≠ some (.symlink t)) :
    resolveLink fs n p = some p := by
  cases n with
  | zero => exact absurd rfl hn
  | succ m =>
    unfold resolveLink
    cases hl : lookupFS fs p with
    | none => rfl
    | some x =>
      cases x with
      | file c mm => rfl
      | dir mm => rfl
      | symlink t => exact absurd hl (h t)

theorem resolveLink_symlink_step (fs : FS) (p t : Path) (n : Nat)
    (h : lookupFS fs p = some (.symlink t)) :
    resolveLink fs (n + 1) p = resolveLink fs n t := by
  conv_lhs => unfold resolveLink
  rw [h]

theorem statFS_of_file (fs : FS) (p : Path) (c : String) (m : Nat)
    (h : lookupFS fs p = some (.file c m)) : statFS fs p = some (p, .file c m) := by
  have hres : resolveLink fs 40 p = some p :=
    resolveLink_no_symlink fs p 40 (by decide) (fun t ht => by rw [h] at ht; cases ht)
  simp [statFS, hres, h]

theorem statFS_of_dir (fs : FS) (p : Path) (m : Nat)
    (h : lookupFS fs p = some (.dir m)) : statFS fs p = some (p, .dir m) := by
  have hres : resolveLink fs 40 p = some p :=
    resolveLink_no_symlink fs p 40 (by decide) (fun t ht => by rw [h] at ht; cases ht)
  simp [statFS, hres, h]

theorem statFS_of_none (fs : FS) (p : Path)
    (h : lookupFS fs p = none) : statFS fs p = none := by
  have hres : resolveLink fs 40 p = some p :=
    resolveLink_no_symlink fs p 40 (by decide) (fun t ht => by rw [h] at ht; cases ht)
  simp [statFS, hres, h]

theorem statFS_symlink_file (fs : FS) (p t : Path) (c : String) (m : Nat)
    (hp : lookupFS fs p = some (.symlink t)) (ht : lookupFS fs t = some (.file c m)) :
    statFS fs p = some (t, .file c m) := by
  have h40 : (40 : Nat) = 39 + 1 := rfl
  have hres : resolveLink fs 40 p = some t := by
    rw [h40, resolveLink_symlink_step fs p t 39 hp]
    exact resolveLink_no_symlink fs t 39 (by decide)
      (fun u hu => by rw [ht] at hu; cases hu)
  simp [statFS, hres, ht]

theorem readFileFS_of_file (fs : FS) (p : Path) (c : String) (m : Nat)
    (h : lookupFS fs p = some (.file c m)) : readFileFS fs p = some c := by
  unfold readFileFS
  rw [statFS_of_file fs p c m h]

theorem readFileFS_symlink_file (fs : FS) (p t : Path) (c : String) (m : Nat)
    (hp : lookupFS fs p = some (.symlink t)) (ht : lookupFS fs t = some (.file c m)) :
    readFileFS fs p = some c := by
  unfold readFileFS
  rw [statFS_symlink_file fs p t c m hp ht]

theorem writeFileFS_of_file (fs : FS) (p : Path) (c0 : String) (m0 : Nat)
    (c : String) (m : Nat) (h : lookupFS fs p = some (.file c0 m0)) :
    writeFileFS fs p c m = some (setNode fs p (.file c m0)) := by
  have hres : resolveLink fs 40 p = some p :=
    resolveLink_no_symlink fs p 40 (by decide) (fun t ht => by rw [h] at ht; cases ht)
  simp [writeFileFS, hres, h]

theorem writeFileFS_of_none (fs : FS) (p : Path) (c : String) (m : Nat)
    (h : lookupFS fs p = none) :
    writeFileFS fs p c m = some (setNode fs p (.file c m)) := by
  have hres : resolveLink fs 40 p = some p :=
    resolveLink_no_symlink fs p 40 (by decide) (fun t ht => by rw [h] at ht; cases ht)
  simp [writeFileFS, hres, h]

theorem appendLast_ne_self (p : Path) (sfx : String) (hs : sfx.data ≠ []) :
    appendLast p sfx ≠ p := by
  induction p with
  | nil => simp [appendLast]
  | cons a rest ih =>
    cases rest with
    | nil =>
      simp only [appendLast]
      intro hEq
      have h1 : a ++ sfx = a := (List.cons.injEq _ _ _ _ ▸ hEq).1
      have h2 : a.data ++ sfx.data = a.data ++ [] := by
        have := congrArg String.data h1
        simpa [String.data_append] using this
      exact hs (List.append_cancel_left h2)
    | cons b rest2 =>
      simp only [appendLast]
      intro hEq
      have h2 : appendLast (b :: rest2) sfx = b :: rest2 :=
        (List.cons.injEq _ _ _ _ ▸ hEq).2
      exact ih h2

theorem mkdirAllGo_noop (mode : Nat) (l : List Path) (w : World)
    (h : ∀ q ∈ l, isDirAt w.fs q = true) :
    mkdirAllGo mode l w = (.ok (), w) := by
  induction l with
  | nil => rfl
  | cons q rest ih =>
    have hd := h q (by simp)
    unfold isDirAt at hd
    unfold mkdirAllGo
    cases hl : lookupFS w.fs q with
    | none => rw [hl] at hd; simp at hd
    | some x =>
      cases x with
      | file c mm => rw [hl] at hd; simp at hd
      | symlink t => rw [hl] at hd; simp at hd
      | dir mm =>
        exact ih (fun r hr => h r (by simp [hr]))

theorem mkdirAllP_noop (w : World) (p : Path) (mode : Nat)
    (h : ∀ q ∈ pathInits p, isDirAt w.fs q = true) :
    mkdirAllP w p mode = (.ok (), w) :=
  mkdirAllGo_noop mode (pathInits p) w h

theorem copyFile_spec_file (w : World) (src dst : Path) (mode : Nat)
    (cs : String) (ms : Nat) (cd : String) (md : Nat)
    (hs : lookupFS w.fs src = some (.file cs ms))
    (hd : lookupFS w.fs dst = some (.file cd md)) :
    copyFile w src dst mode =
      (.ok (), { w with fs := setNode w.fs dst (.file cs md), muts := w.muts + 1 }) := by
  simp [copyFile, readFileFS_of_file w.fs src cs ms hs,
    writeFileFS_of_file w.fs dst cd md cs mode hd]

theorem copyFile_spec_create (w : World) (src dst : Path) (mode : Nat)
    (cs : String) (ms : Nat)
    (hs : lookupFS w.fs src = some (.file cs ms))
    (hd : lookupFS w.fs dst = none) :
    copyFile w src dst mode =
      (.ok (), { w with fs := setNode w.fs dst (.file cs mode), muts := w.muts + 1 }) := by
  simp [copyFile, readFileFS_of_file w.fs src cs ms hs,
    writeFileFS_of_none w.fs dst cs mode hd]

theorem updateSymlink_of_file (w : World) (src tgt : Path) (c : String) (m : Nat)
    (h : lookupFS w.fs tgt = some (.file c m)) :
    updateSymlink w src tgt =
      (.ok (), { w with
        fs := setNode (removeNode w.fs tgt) tgt (.symlink src),
        muts := w.muts + 1 + 1 }) := by
  simp [updateSymlink, removeFile, symlinkFS, andThen, h, lookupFS_removeNode_self]

/-- C5: with regular files at both sides of a conflict, keep-local leaves the
bytes readable at the live path unchanged and copies them into the template
file, keep-remote leaves the template bytes unchanged and creates exactly one
backup holding the pre-resolution live bytes; both relink the live path to the
template path and touch nothing else. -/
theorem C5_strategy_determinism (w : World) (c : ConflictFile)
    (lb tb : String) (lm tm : Nat)
    (hL : lookupFS w.fs c.localPath = some (.file lb lm))
    (hT : lookupFS w.fs c.remotePath = some (.file tb tm))
    (hne : c.localPath ≠ c.remotePath)
    (hfresh : lookupFS w.fs
      (appendLast c.localPath (".dotpilot.bak." ++ toString w.clock)) = none)
    (hbr : appendLast c.localPath (".dotpilot.bak." ++ toString w.clock) ≠
      c.remotePath) :
    ((resolveKeepLocal w c).1 = .ok () ∧
     lookupFS (resolveKeepLocal w c).2.fs c.remotePath = some (.file lb tm) ∧
     lookupFS (resolveKeepLocal w c).2.fs c.localPath =
       some (.symlink c.remotePath) ∧
     readFileFS (resolveKeepLocal w c).2.fs c.localPath = some lb ∧
     (resolveKeepLocal w c).2.nbackups = w.nbackups ∧
     (∀ p, p ≠ c.localPath → p ≠ c.remotePath →
        lookupFS (resolveKeepLocal w c).2.fs p = lookupFS w.fs p)) ∧
    ((resolveKeepRemote w c).1 = .ok () ∧
     lookupFS (resolveKeepRemote w c).2.fs c.remotePath = some (.file tb tm) ∧
     lookupFS (resolveKeepRemote w c).2.fs
       (appendLast c.localPath (".dotpilot.bak." ++ toString w.clock)) =
       some (.file lb lm) ∧
     lookupFS (resolveKeepRemote w c).2.fs c.localPath =
       some (.symlink c.remotePath) ∧
     readFileFS (resolveKeepRemote w c).2.fs c.localPath = some tb ∧
     (resolveKeepRemote w c).2.nbackups = w.nbackups + 1 ∧
     (∀ p, p ≠ c.localPath →
        p ≠ appendLast c.localPath (".dotpilot.bak." ++ toString w.clock) →
        lookupFS (resolveKeepRemote w c).2.fs p = lookupFS w.fs p)) := by
  have hrl : c.remotePath ≠ c.localPath := Ne.symm hne
  have hdata : ∀ s t : String, (s ++ t).data = s.data ++ t.data := fun s t => rfl
  have hbl : appendLast c.localPath (".dotpilot.bak." ++ toString w.clock) ≠
      c.localPath :=
    appendLast_ne_self c.localPath _ (by
      intro hnil
      rw [hdata] at hnil
      rcases List.append_eq_nil.mp hnil with ⟨h1, _⟩
      exact (by decide : ".dotpilot.bak.".data ≠ []) h1)
  have hlb : c.localPath ≠
      appendLast c.localPath (".dotpilot.bak." ++ toString w.clock) :=
    Ne.symm hbl
  have hrb : c.remotePath ≠
      appendLast c.localPath (".dotpilot.bak." ++ toString w.clock) :=
    Ne.symm hbr
  have hKL : resolveKeepLocal w c =
      (.ok (), { w with
        fs := setNode (removeNode (setNode w.fs c.remotePath (.file lb tm))
          c.localPath) c.localPath (.symlink c.remotePath),
        muts := w.muts + 1 + 1 + 1 }) := by
    unfold resolveKeepLocal
    rw [copyFile_spec_file w c.localPath c.remotePath 420 lb lm tb tm hL hT,
      andThen_ok]
    rw [updateSymlink_of_file _ c.remotePath c.localPath lb lm
      (by simpa [lookupFS_setNode_ne _ _ _ _ hne] using hL)]
  have hKR : resolveKeepRemote w c =
      (.ok (), { w with
        fs := setNode (removeNode (setNode w.fs
          (appendLast c.localPath (".dotpilot.bak." ++ toString w.clock))
          (.file lb lm)) c.localPath) c.localPath (.symlink c.remotePath),
        clock := w.clock + 1, muts := w.muts + 1 + 1 + 1,
        nbackups := w.nbackups + 1 }) := by
    have hbf : BackupFile w c.localPath =
        (.ok (some (appendLast c.localPath (".dotpilot.bak." ++ toString w.clock))),
         { w with
           fs := setNode w.fs
             (appendLast c.localPath (".dotpilot.bak." ++ toString w.clock))
             (.file lb lm),
           clock := w.clock + 1, muts := w.muts + 1,
           nbackups := w.nbackups + 1 }) := by
      simp only [BackupFile, statFS_of_file w.fs c.localPath lb lm hL, nodeMode]
      rw [copyFile_spec_create { w with clock := w.clock + 1 } c.localPath
        (appendLast c.localPath (".dotpilot.bak." ++ toString w.clock)) lm lb lm
        hL hfresh]
    simp only [resolveKeepRemote, hbf]
    rw [updateSymlink_of_file _ c.remotePath c.localPath lb lm
      (by simpa [lookupFS_setNode_ne _ _ _ _ hlb] using hL)]
  refine ⟨⟨?_, ?_, ?_, ?_, ?_, ?_⟩, ?_, ?_, ?_, ?_, ?_, ?_, ?_⟩
  · rw [hKL]
  · rw [hKL]
    simp only [lookupFS_setNode_ne _ _ _ _ hrl, lookupFS_removeNode_ne _ _ _ hrl,
      lookupFS_setNode_self]
  · rw [hKL]
    simp only [lookupFS_setNode_self]
  · rw [hKL]
    exact readFileFS_symlink_file _ c.localPath c.remotePath lb tm
      (by simp only [lookupFS_setNode_self])
      (by simp only [lookupFS_setNode_ne _ _ _ _ hrl,
        lookupFS_removeNode_ne _ _ _ hrl, lookupFS_setNode_self])
  · rw [hKL]
  · intro p hpl hpr
    rw [hKL]
    simp only [lookupFS_setNode_ne _ _ _ _ hpl, lookupFS_removeNode_ne _ _ _ hpl,
      lookupFS_setNode_ne _ _ _ _ hpr]
  · rw [hKR]
  · rw [hKR]
    simp only [lookupFS_setNode_ne _ _ _ _ hrl, lookupFS_removeNode_ne _ _ _ hrl,
      lookupFS_setNode_ne _ _ _ _ hrb, hT]
  · rw [hKR]
    simp only [lookupFS_setNode_ne _ _ _ _ hbl, lookupFS_removeNode_ne _ _ _ hbl,
      lookupFS_setNode_self]
  · rw [hKR]
    simp only [lookupFS_setNode_self]
  · rw [hKR]
    exact readFileFS_symlink_file _ c.localPath c.remotePath tb tm
      (by simp only [lookupFS_setNode_self])
      (by simp only [lookupFS_setNode_ne _ _ _ _ hrl,
        lookupFS_removeNode_ne _ _ _ hrl, lookupFS_setNode_ne _ _ _ _ hrb, hT])
  · rw [hKR]
  · intro p hpl hpb
    rw [hKR]
    simp only [lookupFS_setNode_ne _ _ _ _ hpl, lookupFS_removeNode_ne _ _ _ hpl,
      lookupFS_setNode_ne _ _ _ _ hpb]

/-- C7: when the template destination already exists (and, the destination
existing, its parent directories do too), `TrackFile` without overwrite is
refused with the already-exists error and the whole world is unchanged. -/
theorem C7_track_existing_destination_refused (w : World)
    (source destination dp : Path)
    (hsrc : (statFS w.fs source).isSome = true)
    (hdest : (statFS w.fs destination).isSome = true)
    (hpar : ∀ q ∈ pathInits (dirname destination), isDirAt w.fs q = true) :
    TrackFile w source destination dp false = (.error .alreadyExists, w) := by
  unfold TrackFile
  cases hs : statFS w.fs source with
  | none => rw [hs] at hsrc; simp at hsrc
  | some si =>
    simp only [mkdirAllP_noop w (dirname destination) 493 hpar, andThen_ok]
    simp [hdest]

/-- C7 (witness): tracking `~/.vimrc` onto the already-present template file
`common/.vimrc` without overwrite is refused and mutates nothing. -/
theorem C7_witness :
    TrackFile wVimrc (exHome ++ [".vimrc"]) (exDp ++ ["common", ".vimrc"]) exDp
      false = (.error .alreadyExists, wVimrc) :=
  C7_track_existing_destination_refused wVimrc (exHome ++ [".vimrc"])
    (exDp ++ ["common", ".vimrc"]) exDp (by decide) (by decide) (by decide)

theorem trackHome_fs (w : World) (s : Path) : (trackHome w s).fs = w.fs := by
  unfold trackHome
  cases relFrom w.home s with
  | none => rfl
  | some r =>
    unfold AddTrackingPath
    by_cases h : w.tracking.any (fun q => decide (q = r)) <;> simp [h]

theorem trackSingleFile_spec (w : World) (source destination : Path)
    (content : String) (m : Nat)
    (hsrc : lookupFS w.fs source = some (.file content m))
    (hdest : lookupFS w.fs destination = none)
    (hpar : ∀ q ∈ pathInits (dirname destination), isDirAt w.fs q = true)
    (hbs : appendLast source (".dotpilot.bak." ++ toString w.clock) ≠ source)
    (hsd : source ≠ destination) :
    trackSingleFile w source destination false =
      (.ok (), trackHome { w with
        fs := setNode (setNode (removeNode (setNode w.fs destination
          (.file content m)) source)
          (appendLast source (".dotpilot.bak." ++ toString w.clock))
          (.file content m)) source (.symlink destination),
        clock := w.clock + 1, muts := w.muts + 1 + 1 + 1,
        nbackups := w.nbackups + 1 } source) := by
  have hstat : statFS w.fs source = some (source, .file content m) :=
    statFS_of_file w.fs source content m hsrc
  have hstatd : statFS w.fs destination = none := statFS_of_none w.fs destination hdest
  simp only [trackSingleFile, hstat, hstatd, Option.isSome_none, Bool.false_and,
    Bool.and_false, if_false, Bool.false_eq_true, ite_false,
    mkdirAllP_noop w (dirname destination) 493 hpar, andThen_ok]
  rw [copyFile_spec_create w source destination (nodeMode (.file content m))
    content m hsrc hdest]
  rw [andThen_ok]
  rw [show lookupFS (setNode w.fs destination
      (.file content (nodeMode (.file content m)))) source = some (.file content m)
    from by rw [lookupFS_setNode_ne _ _ _ _ hsd]; exact hsrc]
  simp only [renameFS, lookupFS_setNode_ne _ _ _ _ hsd, hsrc, andThen_ok,
    symlinkFS, lookupFS_setNode_ne _ _ _ _ (Ne.symm hbs),
    lookupFS_removeNode_self]
  rfl

/-- C9: tracking an existing regular file onto a fresh template destination
succeeds; afterwards the live path is a symlink whose target is the
destination, and reading through it yields the bytes the source held at track
time (now stored at the destination). -/
theorem C9_track_roundtrip (w : World) (source destination dp : Path)
    (content : String) (m : Nat)
    (hsrc : lookupFS w.fs source = some (.file content m))
    (hdest : lookupFS w.fs destination = none)
    (hpar : ∀ q ∈ pathInits (dirname destination), isDirAt w.fs q = true)
    (hbd : appendLast source (".dotpilot.bak." ++ toString w.clock) ≠ destination) :
    (TrackFile w source destination dp false).1 = .ok () ∧
    lookupFS (TrackFile w source destination dp false).2.fs source =
      some (.symlink destination) ∧
    readFileFS (TrackFile w source destination dp false).2.fs source =
      some content ∧
    lookupFS (TrackFile w source destination dp false).2.fs destination =
      some (.file content m) := by
  have hsd : source ≠ destination := by
    intro h
    rw [h, hdest] at hsrc
    cases hsrc
  have hds : destination ≠ source := Ne.symm hsd
  have hdata : ∀ s t : String, (s ++ t).data = s.data ++ t.data := fun s t => rfl
  have hbs : appendLast source (".dotpilot.bak." ++ toString w.clock) ≠ source :=
    appendLast_ne_self source _ (by
      intro hnil
      rw [hdata] at hnil
      rcases List.append_eq_nil.mp hnil with ⟨h1, _⟩
      exact (by decide : ".dotpilot.bak.".data ≠ []) h1)
  have hstat : statFS w.fs source = some (source, .file content m) :=
    statFS_of_file w.fs source content m hsrc
  have hstatd : statFS w.fs destination = none := statFS_of_none w.fs destination hdest
  have hTF : TrackFile w source destination dp false =
      trackSingleFile w source destination false := by
    simp only [TrackFile, hstat, hstatd, Option.isSome_none, Bool.false_and,
      Bool.and_false, if_false, Bool.false_eq_true, ite_false,
      mkdirAllP_noop w (dirname destination) 493 hpar, andThen_ok, nodeIsDir]
  rw [hTF, trackSingleFile_spec w source destination content m hsrc hdest hpar
    hbs hsd]
  have hfsEq : (trackHome { w with
      fs := setNode (setNode (removeNode (setNode w.fs destination
        (.file content m)) source)
        (appendLast source (".dotpilot.bak." ++ toString w.clock))
        (.file content m)) source (.symlink destination),
      clock := w.clock + 1, muts := w.muts + 1 + 1 + 1,
      nbackups := w.nbackups + 1 } source).fs =
      setNode (setNode (removeNode (setNode w.fs destination
        (.file content m)) source)
        (appendLast source (".dotpilot.bak." ++ toString w.clock))
        (.file content m)) source (.symlink destination) :=
    trackHome_fs _ source
  have hlsrc : lookupFS (setNode (setNode (removeNode (setNode w.fs destination
      (.file content m)) source)
      (appendLast source (".dotpilot.bak." ++ toString w.clock))
      (.file content m)) source (.symlink destination)) source =
      some (.symlink destination) := lookupFS_setNode_self _ _ _
  have hldst : lookupFS (setNode (setNode (removeNode (setNode w.fs destination
      (.file content m)) source)
      (appendLast source (".dotpilot.bak." ++ toString w.clock))
      (.file content m)) source (.symlink destination)) destination =
      some (.file content m) := by
    rw [lookupFS_setNode_ne _ _ _ _ hds, lookupFS_setNode_ne _ _ _ _ (Ne.symm hbd),
      lookupFS_removeNode_ne _ _ _ hds, lookupFS_setNode_self]
  refine ⟨rfl, ?_, ?_, ?_⟩
  · rw [hfsEq]
    exact hlsrc
  · rw [hfsEq]
    exact readFileFS_symlink_file _ source destination content m hlsrc hldst
  · rw [hfsEq]
    exact hldst

theorem findTool_empty (w : World) (l : List String)
    (h : ∀ t ∈ l, lookPathOk w t = false) : findTool w l = "" := by
  induction l with
  | nil => rfl
  | cons t rest ih =>
    unfold findTool
    rw [h t (by simp)]
    exact ih (fun u hu => h u (by simp [hu]))

theorem writeFileFS_spec (fs : FS) (p : Path) (c : String) (m : Nat) (fs2 : FS)
    (h : writeFileFS fs p c m = some fs2) :
    ∃ q, resolveLink fs 40 p = some q ∧
      ((lookupFS fs q = none ∧ fs2 = setNode fs q (.file c m)) ∨
        (∃ c0 m0, lookupFS fs q = some (.file c0 m0) ∧
          fs2 = setNode fs q (.file c m0))) := by
  unfold writeFileFS at h
  split at h
  · cases h
  · rename_i hres
    split at h
    · cases h
    · rename_i c0 m0 hl
      exact ⟨_, hres, Or.inr ⟨c0, m0, hl, (Option.some.inj h).symm⟩⟩
    · cases h
    · rename_i hl
      exact ⟨_, hres, Or.inl ⟨hl, (Option.some.inj h).symm⟩⟩

theorem setNode_file_lookup_file (fs : FS) (q a : Path) (cq : String)
    (c : String) (m mq : Nat)
    (hq : lookupFS fs q = none ∨ ∃ c0, lookupFS fs q = some (.file c0 mq))
    (h : lookupFS fs a = some (.file c m)) :
    ∃ c', lookupFS (setNode fs q (.file cq mq)) a = some (.file c' m) := by
  by_cases hqa : q = a
  · subst hqa
    rcases hq with hn | ⟨c0, hf⟩
    · rw [h] at hn; cases hn
    · rw [h] at hf
      obtain ⟨he1, he2⟩ := FNode.file.inj (Option.some.inj hf)
      subst he2
      exact ⟨cq, lookupFS_setNode_self _ _ _⟩
  · exact ⟨c, by rw [lookupFS_setNode_ne _ _ _ _ (Ne.symm hqa)]; exact h⟩

theorem copyFile_file_stable (w : World) (src dst a : Path) (mode : Nat)
    (c : String) (m : Nat) (h : lookupFS w.fs a = some (.file c m)) :
    ∃ c', lookupFS (copyFile w src dst mode).2.fs a = some (.file c' m) := by
  unfold copyFile
  split
  · exact ⟨c, h⟩
  · split
    · exact ⟨c, h⟩
    · rename_i fs2 hw
      obtain ⟨q, _, hq⟩ := writeFileFS_spec w.fs dst _ mode fs2 hw
      rcases hq with ⟨hn, he⟩ | ⟨c0, m0, hf, he⟩
      · subst he
        exact setNode_file_lookup_file w.fs q a _ c m mode (Or.inl hn) h
      · subst he
        exact setNode_file_lookup_file w.fs q a _ c m m0 (Or.inr ⟨c0, hf⟩) h

theorem runTool_file_stable (w : World) (wt : Option Path) (a : Path)
    (c : String) (m : Nat) (h : lookupFS w.fs a = some (.file c m)) :
    ∃ c', lookupFS (runTool w wt).2.fs a = some (.file c' m) := by
  unfold runTool
  split
  · exact ⟨c, h⟩
  · exact ⟨c, h⟩
  · split
    · exact ⟨c, h⟩
    · split
      · exact ⟨c, h⟩
      · rename_i fs2 hw
        obtain ⟨q, _, hq⟩ := writeFileFS_spec _ _ _ 384 fs2 hw
        rcases hq with ⟨hn, he⟩ | ⟨c0, m0, hf, he⟩
        · subst he
          exact setNode_file_lookup_file w.fs q a _ c m 384 (Or.inl hn) h
        · subst he
          exact setNode_file_lookup_file w.fs q a _ c m m0 (Or.inr ⟨c0, hf⟩) h

theorem removeQuiet_lookup_none (w : World) (p : Path)
    (h : lookupFS w.fs p = none ∨ ∃ c m, lookupFS w.fs p = some (.file c m)) :
    lookupFS (removeQuiet w p).fs p = none := by
  unfold removeQuiet removeFile
  rcases h with h | ⟨c, m, h⟩
  · rw [h]; exact h
  · rw [h]
    exact lookupFS_removeNode_self w.fs p

theorem removeFile_lookup_other (w : World) (p a : Path) (h : a ≠ p) :
    lookupFS (removeFile w p).2.fs a = lookupFS w.fs a := by
  unfold removeFile
  split
  · rfl
  · split
    · rfl
    · exact lookupFS_removeNode_ne _ _ _ h
  · exact lookupFS_removeNode_ne _ _ _ h

theorem symlinkFS_lookup_other (w : World) (o np a : Path) (h : a ≠ np) :
    lookupFS (symlinkFS w o np).2.fs a = lookupFS w.fs a := by
  unfold symlinkFS
  split
  · rfl
  · exact lookupFS_setNode_ne _ _ _ _ h

theorem updateSymlink_lookup_other (w : World) (src tgt a : Path) (h : a ≠ tgt) :
    lookupFS (updateSymlink w src tgt).2.fs a = lookupFS w.fs a := by
  unfold updateSymlink
  split
  · cases hrf : removeFile w tgt with
    | mk r1 w1 =>
      cases r1 with
      | error e =>
        rw [andThen_error]
        have h1 := removeFile_lookup_other w tgt a h
        rw [hrf] at h1
        exact h1
      | ok u =>
        rw [andThen_ok]
        have h1 := removeFile_lookup_other w tgt a h
        rw [hrf] at h1
        rw [symlinkFS_lookup_other w1 src tgt a h]
        exact h1
  · exact symlinkFS_lookup_other w src tgt a h

/-- C8: the merge strategy searches the fixed tool preference order and fails
with the no-merge-tool error, mutating nothing, when none is available; and on
every path through `resolveMerge` (success or failure), no file is left at the
temporary merged path. -/
theorem C8_merge_no_tool_and_temp_cleanup (w : World) (c : ConflictFile)
    (h0 : lookupFS w.fs (tmpDir ++ ["dotpilot-merge-" ++ toString w.clock]) = none)
    (hl : c.localPath ≠ tmpDir ++ ["dotpilot-merge-" ++ toString w.clock])
    (hr : c.remotePath ≠ tmpDir ++ ["dotpilot-merge-" ++ toString w.clock]) :
    ((∀ t ∈ mergeToolsList, lookPathOk w t = false) →
      resolveMerge w c = (.error .noMergeTool, w)) ∧
    lookupFS (resolveMerge w c).2.fs
      (tmpDir ++ ["dotpilot-merge-" ++ toString w.clock]) = none := by
  constructor
  · intro hno
    unfold resolveMerge
    rw [findTool_empty w mergeToolsList hno]
    rfl
  · unfold resolveMerge
    by_cases hsel : findTool w mergeToolsList = ""
    · simp only [hsel, if_true]
      exact h0
    · simp only [hsel, if_false, ite_false]
      set mp := tmpDir ++ ["dotpilot-merge-" ++ toString w.clock] with hmp
      have h1 : lookupFS (setNode w.fs mp (.file "" 384)) mp = some (.file "" 384) :=
        lookupFS_setNode_self _ _ _
      set w1 : World := { w with
        clock := w.clock + 1, fs := setNode w.fs mp (.file "" 384),
        muts := w.muts + 1 } with hw1
      obtain ⟨c2, h2⟩ := copyFile_file_stable w1 c.remotePath mp mp 420 "" 384 h1
      split
      · rename_i e w2 heq
        rw [heq] at h2
        exact removeQuiet_lookup_none w2 mp (Or.inr ⟨c2, 384, h2⟩)
      · rename_i u w2 heq
        rw [heq] at h2
        obtain ⟨c3, h3⟩ := runTool_file_stable w2 (some mp) mp c2 384 h2
        split
        · rename_i e w3 heq3
          rw [heq3] at h3
          exact removeQuiet_lookup_none w3 mp (Or.inr ⟨c3, 384, h3⟩)
        · rename_i u3 w3 heq3
          rw [heq3] at h3
          obtain ⟨c4, h4⟩ := copyFile_file_stable w3 mp c.localPath mp 420 c3 384 h3
          split
          · rename_i e w4 heq4
            rw [heq4] at h4
            exact removeQuiet_lookup_none w4 mp (Or.inr ⟨c4, 384, h4⟩)
          · rename_i u4 w4 heq4
            rw [heq4] at h4
            obtain ⟨c5, h5⟩ := copyFile_file_stable w4 mp c.remotePath mp 420 c4 384 h4
            split
            · rename_i e w5 heq5
              rw [heq5] at h5
              exact removeQuiet_lookup_none w5 mp (Or.inr ⟨c5, 384, h5⟩)
            · rename_i u5 w5 heq5
              rw [heq5] at h5
              rw [updateSymlink_lookup_other _ c.remotePath c.localPath mp
                (Ne.symm hl)]
              exact removeQuiet_lookup_none w5 mp (Or.inr ⟨c5, 384, h5⟩)

/-- C8 (witness): with no tools installed, `resolveMerge` on the `.vimrc`
conflict fails with the no-merge-tool error, mutates nothing, and leaves no
temporary file behind. -/
theorem C8_witness :
    ((∀ t ∈ mergeToolsList, lookPathOk wVimrc t = false) →
      resolveMerge wVimrc cVimrc = (.error .noMergeTool, wVimrc)) ∧
    lookupFS (resolveMerge wVimrc cVimrc).2.fs
      (tmpDir ++ ["dotpilot-merge-" ++ toString wVimrc.clock]) = none :=
  C8_merge_no_tool_and_temp_cleanup wVimrc cVimrc (by decide) (by decide) (by decide)

/-- C5 (witness): the `.vimrc` scenario instantiated: keep-local ends with
`common/.vimrc` = "B" and `~/.vimrc` a symlink reading "B"; keep-remote keeps
"A" in the template, backs "B" up, and relinks. -/
theorem C5_witness :
    ((resolveKeepLocal wVimrc cVimrc).1 = .ok () ∧
     lookupFS (resolveKeepLocal wVimrc cVimrc).2.fs cVimrc.remotePath =
       some (.file "B" 420) ∧
     lookupFS (resolveKeepLocal wVimrc cVimrc).2.fs cVimrc.localPath =
       some (.symlink cVimrc.remotePath) ∧
     readFileFS (resolveKeepLocal wVimrc cVimrc).2.fs cVimrc.localPath =
       some "B" ∧
     (resolveKeepLocal wVimrc cVimrc).2.nbackups = wVimrc.nbackups ∧
     (∀ p, p ≠ cVimrc.localPath → p ≠ cVimrc.remotePath →
        lookupFS (resolveKeepLocal wVimrc cVimrc).2.fs p =
          lookupFS wVimrc.fs p)) ∧
    ((resolveKeepRemote wVimrc cVimrc).1 = .ok () ∧
     lookupFS (resolveKeepRemote wVimrc cVimrc).2.fs cVimrc.remotePath =
       some (.file "A" 420) ∧
     lookupFS (resolveKeepRemote wVimrc cVimrc).2.fs
       (appendLast cVimrc.localPath
         (".dotpilot.bak." ++ toString wVimrc.clock)) = some (.file "B" 420) ∧
     lookupFS (resolveKeepRemote wVimrc cVimrc).2.fs cVimrc.localPath =
       some (.symlink cVimrc.remotePath) ∧
     readFileFS (resolveKeepRemote wVimrc cVimrc).2.fs cVimrc.localPath =
       some "A" ∧
     (resolveKeepRemote wVimrc cVimrc).2.nbackups = wVimrc.nbackups + 1 ∧
     (∀ p, p ≠ cVimrc.localPath →
        p ≠ appendLast cVimrc.localPath
          (".dotpilot.bak." ++ toString wVimrc.clock) →
        lookupFS (resolveKeepRemote wVimrc cVimrc).2.fs p =
          lookupFS wVimrc.fs p)) :=
  C5_strategy_determinism wVimrc cVimrc "B" "A" 420 420 (by decide) (by decide)
    (by decide) (by decide) (by decide)

/-- C9 (witness): tracking `~/.bashrc` (content "RC") to `common/.bashrc`
succeeds, leaves `~/.bashrc` a symlink to the destination, and reading through
it still yields "RC". -/
theorem C9_witness :
    (TrackFile wTrack (exHome ++ [".bashrc"]) (exDp ++ ["common", ".bashrc"])
      exDp false).1 = .ok () ∧
    lookupFS (TrackFile wTrack (exHome ++ [".bashrc"])
      (exDp ++ ["common", ".bashrc"]) exDp false).2.fs (exHome ++ [".bashrc"]) =
      some (.symlink (exDp ++ ["common", ".bashrc"])) ∧
    readFileFS (TrackFile wTrack (exHome ++ [".bashrc"])
      (exDp ++ ["common", ".bashrc"]) exDp false).2.fs (exHome ++ [".bashrc"]) =
      some "RC" ∧
    lookupFS (TrackFile wTrack (exHome ++ [".bashrc"])
      (exDp ++ ["common", ".bashrc"]) exDp false).2.fs
      (exDp ++ ["common", ".bashrc"]) = some (.file "RC" 420) :=
  C9_track_roundtrip wTrack (exHome ++ [".bashrc"]) (exDp ++ ["common", ".bashrc"])
    exDp "RC" 420 (by decide) (by decide) (by decide) (by decide)

/-! ## Basic facts about the dispatcher and the resolution loop -/

theorem resolveConflict_unknown (w : World) (c : ConflictFile) (s : String)
    (h1 : s ≠ "interactive") (h2 : s ≠ "keep-local") (h3 : s ≠ "keep-remote")
    (h4 : s ≠ "merge") (h5 : s ≠ "backup-both") :
    resolveConflict w c s = (.error (.unknownStrategy s), w) := by
  simp [resolveConflict, h1, h2, h3, h4, h5]

theorem resolveLoop_unknown (s : String)
    (h1 : s ≠ "interactive") (h2 : s ≠ "keep-local") (h3 : s ≠ "keep-remote")
    (h4 : s ≠ "merge") (h5 : s ≠ "backup-both") :
    ∀ (l : List ConflictFile) (w : World), resolveLoop s l w = w := by
  intro l
  induction l with
  | nil => intro w; rfl
  | cons c rest ih =>
    intro w
    simp [resolveLoop, resolveConflict_unknown w c s h1 h2 h3 h4 h5, ih]

/-- C10: whenever conflict detection succeeds (which, with the ambient state
modelled as total, is always), `ResolveConflicts` returns ok regardless of the
strategy string: per-record failures are only logged, never surfaced. -/
theorem C10_resolveConflicts_always_ok (w : World) (dp : Path) (strategy : String) :
    (ResolveConflicts w dp strategy).1 = .ok () := by
  unfold ResolveConflicts
  by_cases h : (detectConflicts w dp).isEmpty <;> simp [h]

/-- C1 (amended): an unrecognized strategy makes every per-record resolution
fail with the unknown-strategy error, each failure is only logged, and
`ResolveConflicts` returns ok with the whole world (live tree, template tree,
backups, counters) unchanged. -/
theorem C1_unknown_strategy_ok_no_mutation (w : World) (dp : Path) (s : String)
    (h1 : s ≠ "interactive") (h2 : s ≠ "keep-local") (h3 : s ≠ "keep-remote")
    (h4 : s ≠ "merge") (h5 : s ≠ "backup-both")
    (hne : detectConflicts w dp ≠ []) :
    ResolveConflicts w dp s = (.ok (), w) := by
  unfold ResolveConflicts
  have hfalse : (detectConflicts w dp).isEmpty = false := by
    cases hd : detectConflicts w dp with
    | nil => exact absurd hd hne
    | cons a l => simp [List.isEmpty]
  simp [hfalse, resolveLoop_unknown s h1 h2 h3 h4 h5]

/-- C1 (witness): the concrete `.vimrc` scenario has a detected conflict and
`ResolveConflicts` with strategy `"bogus"` returns ok and changes nothing. -/
theorem C1_witness :
    "bogus" ≠ "interactive" ∧ detectConflicts wVimrc exDp ≠ [] ∧
    ResolveConflicts wVimrc exDp "bogus" = (.ok (), wVimrc) :=
  ⟨by decide, by decide,
    C1_unknown_strategy_ok_no_mutation wVimrc exDp "bogus" (by decide) (by decide)
      (by decide) (by decide) (by decide) (by decide)⟩

/-- C1 (counterexample to the claim as stated): with a detected conflict,
`ResolveConflicts` under the unknown strategy `"bogus"` returns ok — not an
`UnknownStrategyError` — because the per-record error is swallowed by the
resolution loop. -/
theorem C1_counterexample :
    detectConflicts wVimrc exDp ≠ [] ∧
    ResolveConflicts wVimrc exDp "bogus" = (.ok (), wVimrc) :=
  ⟨by decide, by decide⟩

/-- C2: on the spec's own end-to-end scenario (template file `common/.vimrc`,
foreign regular file `~/.vimrc`), `detectConflicts` maps the template path by
dropping two leading segments (`parts[2:]`) instead of one, so the single
reported record carries the home directory itself — not `~/.vimrc` — as its
live path (and the diff degrades, the home directory being unreadable as a
file). -/
theorem C2_detect_mapping_off_by_one :
    detectConflicts wVimrc exDp =
      [{ localPath := exHome, remotePath := exDp ++ ["common", ".vimrc"],
         target := exHome, diff := "Unable to generate diff" }] ∧
    exHome ≠ exHome ++ [".vimrc"] :=
  ⟨by decide, by decide⟩

/-- C3 (counterexample to the claim as stated): with `common/X` and
`machine/h/X` mapping to the same live path, the second `Apply` run re-does the
override dance: it performs mutations and creates two new backups. -/
theorem C3_counterexample :
    (ApplyConfigurationsWithOptions wOverlap exDp "" true false).1 = .ok () ∧
    (ApplyConfigurationsWithOptions wOverlap exDp "" true false).2.nbackups = 1 ∧
    (ApplyConfigurationsWithOptions
      (ApplyConfigurationsWithOptions wOverlap exDp "" true false).2
      exDp "" true false).1 = .ok () ∧
    (ApplyConfigurationsWithOptions
      (ApplyConfigurationsWithOptions wOverlap exDp "" true false).2
      exDp "" true false).2.nbackups = 3 ∧
    (ApplyConfigurationsWithOptions
      (ApplyConfigurationsWithOptions wOverlap exDp "" true false).2
      exDp "" true false).2.muts ≠
      (ApplyConfigurationsWithOptions wOverlap exDp "" true false).2.muts :=
  ⟨by decide, by decide, by decide, by decide, by decide⟩

/-- C6 (counterexample to the claim as stated): in an `Apply` batch, the
failure of one entry (`common/a` collides with a foreign regular file `~/a`)
aborts the tier walk: the error propagates and the later entry `common/c` is
never applied. -/
theorem C6_counterexample :
    (ApplyConfigurationsWithOptions wAbort exDp "" true false).1 =
      .error (.ioError "mkdir: not a directory") ∧
    lookupFS (ApplyConfigurationsWithOptions wAbort exDp "" true false).2.fs
      (exHome ++ ["c"]) = none :=
  ⟨by decide, by decide⟩

/-- C6 (amended): in a `ResolveConflicts` batch a per-record failure is logged
and the batch continues (here the first of two records fails under keep-local,
the second is still resolved and the call returns ok); in an `Apply` batch, by
contrast, a filesystem failure on one entry aborts the walk and propagates,
leaving later entries unapplied. -/
theorem C6_amended_batch_policy :
    (detectConflicts wBatch exDp).length = 2 ∧
    (ResolveConflicts wBatch exDp "keep-local").1 = .ok () ∧
    lookupFS (ResolveConflicts wBatch exDp "keep-local").2.fs (exHome ++ ["d1"]) =
      some (.dir 493) ∧
    lookupFS (ResolveConflicts wBatch exDp "keep-local").2.fs (exHome ++ ["f2"]) =
      some (.symlink (exDp ++ ["common", "s", "f2"])) ∧
    (ApplyConfigurationsWithOptions wAbort exDp "" true false).1 =
      .error (.ioError "mkdir: not a directory") ∧
    lookupFS (ApplyConfigurationsWithOptions wAbort exDp "" true false).2.fs
      (exHome ++ ["a", "b"]) = none ∧
    lookupFS (ApplyConfigurationsWithOptions wAbort exDp "" true false).2.fs
      (exHome ++ ["c"]) = none :=
  ⟨by decide, by decide, by decide, by decide, by decide, by decide, by decide⟩

/-! ## Path prefix lemmas -/

theorem pfx_refl (p : Path) : pfx p p = true := by
  induction p with
  | nil => rfl
  | cons a as ih => simp [pfx, ih]

theorem pfx_append (a b : Path) : pfx a (a ++ b) = true := by
  induction a with
  | nil => rfl
  | cons x xs ih => simp [pfx, ih]

theorem pfx_trans {a b c : Path} (h1 : pfx a b = true) (h2 : pfx b c = true) :
    pfx a c = true := by
  induction a generalizing b c with
  | nil => rfl
  | cons x xs ih =>
    cases b with
    | nil => simp [pfx] at h1
    | cons y ys =>
      cases c with
      | nil => simp [pfx] at h2
      | cons z zs =>
        simp only [pfx, Bool.and_eq_true, decide_eq_true_eq] at h1 h2 ⊢
        exact ⟨h1.1.trans h2.1, ih h1.2 h2.2⟩

theorem eq_append_drop {a b : Path} (h : pfx a b = true) :
    a ++ b.drop a.length = b := by
  induction a generalizing b with
  | nil => simp
  | cons x xs ih =>
    cases b with
    | nil => simp [pfx] at h
    | cons y ys =>
      simp only [pfx, Bool.and_eq_true, decide_eq_true_eq] at h
      simp only [List.length_cons, List.drop_succ_cons, List.cons_append,
        h.1, List.cons.injEq, true_and]
      exact ih h.2

theorem pfx_append_cases {a b x : Path} (h : pfx a (b ++ x) = true) :
    pfx a b = true ∨ pfx b a = true := by
  induction a generalizing b with
  | nil => exact Or.inl rfl
  | cons s ss ih =>
    cases b with
    | nil => exact Or.inr rfl
    | cons t ts =>
      simp only [List.cons_append, pfx, Bool.and_eq_true, decide_eq_true_eq]
        at h ⊢
      rcases ih h.2 with h1 | h1
      · exact Or.inl ⟨h.1, h1⟩
      · exact Or.inr ⟨h.1.symm, h1⟩

theorem append_drop_inj {root p q : Path} (hp : pfx root p = true)
    (hq : pfx root q = true) (h : p.drop root.length = q.drop root.length) :
    p = q := by
  have h2 := congrArg (fun l => root ++ l) h
  simpa [eq_append_drop hp, eq_append_drop hq] using h2

theorem not_pfx_of_disj {dp h : Path} (h1 : pfx dp h = false)
    (h2 : pfx h dp = false) {q rel : Path} (hq : pfx q (h ++ rel) = true) :
    pfx dp q = false := by
  by_contra hc
  rw [Bool.not_eq_false] at hc
  have h3 : pfx dp (h ++ rel) = true := pfx_trans hc hq
  rcases pfx_append_cases h3 with hh | hh
  · simp [h1] at hh
  · simp [h2] at hh

theorem drop_ne_nil {cfg p : Path} (hp : pfx cfg p = true) (hne : p ≠ cfg) :
    p.drop cfg.length ≠ [] := by
  intro h
  apply hne
  have h2 := eq_append_drop hp
  rw [h, List.append_nil] at h2
  exact h2.symm

theorem append_left_ne {h a b : Path} (hne : a ≠ b) : h ++ a ≠ h ++ b := by
  intro hh
  exact hne (List.append_cancel_left hh)

theorem pfx_take (p : Path) (i : Nat) : pfx (p.take i) p = true := by
  induction p generalizing i with
  | nil => cases i <;> rfl
  | cons a as ih =>
    cases i with
    | zero => rfl
    | succ j => simp [List.take, pfx, ih]

theorem pathInits_spec {q p : Path} (h : q ∈ pathInits p) :
    pfx q p = true ∧ q ≠ [] := by
  unfold pathInits at h
  simp only [List.mem_map, List.mem_range] at h
  obtain ⟨i, hi, hq⟩ := h
  subst hq
  refine ⟨pfx_take p (i + 1), ?_⟩
  intro h0
  rw [List.take_eq_nil_iff] at h0
  rcases h0 with h0 | h0
  · cases h0
  · subst h0
    simp at hi

/-! ## Key uniqueness lemmas -/

theorem keyFree_iff (p : Path) (l : FS) :
    keyFree p l = true ↔ ∀ e ∈ l, e.1 ≠ p := by
  induction l with
  | nil => simp [keyFree]
  | cons e rest ih =>
    simp only [keyFree, Bool.and_eq_true, Bool.not_eq_true',
      decide_eq_false_iff_not, List.mem_cons, ih]
    constructor
    · rintro ⟨h1, h2⟩ f hf
      rcases hf with rfl | hf
      · exact h1
      · exact h2 f hf
    · intro hh
      exact ⟨hh e (Or.inl rfl), fun f hf => hh f (Or.inr hf)⟩

theorem lookupFS_eq_none_iff (fs : FS) (p : Path) :
    lookupFS fs p = none ↔ keyFree p fs = true := by
  induction fs with
  | nil => simp [lookupFS, keyFree]
  | cons e rest ih =>
    obtain ⟨q, m⟩ := e
    by_cases h : q = p <;> simp [lookupFS, keyFree, h, ih]

theorem lookupFS_mem {fs : FS} {p : Path} {n : FNode}
    (h : lookupFS fs p = some n) : (p, n) ∈ fs := by
  induction fs with
  | nil => cases h
  | cons e rest ih =>
    obtain ⟨q, m⟩ := e
    by_cases hq : q = p
    · subst hq
      simp only [lookupFS, if_true, if_pos rfl] at h
      simp [Option.some.inj h]
    · simp only [lookupFS, hq, if_false, ite_false, if_neg hq] at h
      simp [ih h]

theorem keysNodupB_mem_lookup {fs : FS} (hn : keysNodupB fs = true) {p : Path}
    {n : FNode} (hmem : (p, n) ∈ fs) : lookupFS fs p = some n := by
  induction fs with
  | nil => cases hmem
  | cons e rest ih =>
    simp only [keysNodupB, Bool.and_eq_true] at hn
    rcases List.mem_cons.mp hmem with he | hm
    · obtain ⟨q, m⟩ := e
      obtain ⟨h1, h2⟩ := Prod.mk.inj he.symm
      subst h1; subst h2
      simp [lookupFS]
    · have hne : p ≠ e.1 :=
        fun hc => ((keyFree_iff e.1 rest).mp hn.1 (p, n) hm) hc
      obtain ⟨q, m⟩ := e
      simp only [lookupFS, if_neg (fun hh : q = p => hne hh.symm)]
      exact ih hn.2 hm

theorem keyFree_setNode (l : FS) (p q : Path) (n : FNode) (hq : q ≠ p)
    (h : keyFree q l = true) : keyFree q (setNode l p n) = true := by
  induction l with
  | nil => simp [setNode, keyFree, Ne.symm hq]
  | cons e rest ih =>
    obtain ⟨r, m⟩ := e
    simp only [keyFree, Bool.and_eq_true] at h
    by_cases hr : r = p
    · subst hr
      simp [setNode, keyFree, h.1, h.2]
    · simp only [setNode, hr, if_neg hr, keyFree, Bool.and_eq_true]
      exact ⟨h.1, ih h.2⟩

theorem keysNodupB_setNode (fs : FS) (p : Path) (n : FNode)
    (h : keysNodupB fs = true) : keysNodupB (setNode fs p n) = true := by
  induction fs with
  | nil => simp [setNode, keysNodupB, keyFree]
  | cons e rest ih =>
    obtain ⟨q, m⟩ := e
    simp only [keysNodupB, Bool.and_eq_true] at h
    by_cases hq : q = p
    · subst hq
      simp only [setNode, if_pos rfl, keysNodupB, Bool.and_eq_true]
      exact ⟨h.1, h.2⟩
    · simp only [setNode, if_neg hq, keysNodupB, Bool.and_eq_true]
      exact ⟨keyFree_setNode rest p q n hq h.1, ih h.2⟩

theorem keyFree_removeNode (l : FS) (p q : Path) (h : keyFree q l = true) :
    keyFree q (removeNode l p) = true := by
  induction l with
  | nil => simp [removeNode, keyFree]
  | cons e rest ih =>
    obtain ⟨r, m⟩ := e
    simp only [keyFree, Bool.and_eq_true] at h
    by_cases hr : r = p
    · simp only [removeNode, if_pos hr]
      exact ih h.2
    · simp only [removeNode, if_neg hr, keyFree, Bool.and_eq_true]
      exact ⟨h.1, ih h.2⟩

theorem keysNodupB_removeNode (fs : FS) (p : Path)
    (h : keysNodupB fs = true) : keysNodupB (removeNode fs p) = true := by
  induction fs with
  | nil => simp [removeNode, keysNodupB]
  | cons e rest ih =>
    obtain ⟨q, m⟩ := e
    simp only [keysNodupB, Bool.and_eq_true] at h
    by_cases hq : q = p
    · simp only [removeNode, if_pos hq]
      exact ih h.2
    · simp only [removeNode, if_neg hq, keysNodupB, Bool.and_eq_true]
      exact ⟨keyFree_removeNode rest p q h.1, ih h.2⟩

/-! ## Template shape stability -/

theorem lookupFS_underList (dp : Path) (fs : FS) (p : Path) (hp : pfx dp p = true) :
    lookupFS (underList dp fs) p = lookupFS fs p := by
  induction fs with
  | nil => rfl
  | cons e rest ih =>
    obtain ⟨q, m⟩ := e
    by_cases hq : q = p
    · subst hq
      simp [underList, List.filter_cons, hp, lookupFS]
    · by_cases hf : pfx dp q = true <;>
        simp [underList, List.filter_cons, hf, lookupFS, hq, underList] at ih ⊢ <;>
        exact ih

theorem shapeList_lookup_eq {l1 l2 : FS} (h : shapeList l1 = shapeList l2)
    (p : Path) : shapeAt l1 p = shapeAt l2 p := by
  induction l1 generalizing l2 with
  | nil =>
    cases l2 with
    | nil => rfl
    | cons f r2 => cases h
  | cons e r1 ih =>
    cases l2 with
    | nil => cases h
    | cons f r2 =>
      obtain ⟨q, m⟩ := e
      obtain ⟨q2, m2⟩ := f
      simp only [shapeList, List.map_cons, List.cons.injEq, Prod.mk.injEq] at h
      obtain ⟨⟨hk, hs⟩, ht⟩ := h
      subst hk
      by_cases hp : q = p
      · subst hp
        simp [shapeAt, lookupFS, hs]
      · simpa [shapeAt, lookupFS, hp] using ih ht

theorem SameShapeUnder.shapeAt_eq {dp : Path} {fs0 fs : FS}
    (h : SameShapeUnder dp fs0 fs) {p : Path} (hp : pfx dp p = true) :
    shapeAt fs0 p = shapeAt fs p := by
  have h2 := shapeList_lookup_eq h p
  unfold shapeAt at h2 ⊢
  rw [lookupFS_underList dp fs0 p hp, lookupFS_underList dp fs p hp] at h2
  exact h2

theorem underList_setNode_out (dp : Path) (fs : FS) (q : Path) (n : FNode)
    (hq : pfx dp q = false) : underList dp (setNode fs q n) = underList dp fs := by
  induction fs with
  | nil => simp [setNode, underList, List.filter_cons, hq]
  | cons e rest ih =>
    obtain ⟨r, m⟩ := e
    by_cases hr : r = q
    · subst hr
      simp [setNode, underList, List.filter_cons, hq]
    · by_cases hdr : pfx dp r = true <;>
        simp only [setNode, if_neg hr, underList, List.filter_cons, hdr] <;>
        simp only [underList] at ih <;> simp [ih]

theorem underList_removeNode_out (dp : Path) (fs : FS) (q : Path)
    (hq : pfx dp q = false) : underList dp (removeNode fs q) = underList dp fs := by
  induction fs with
  | nil => rfl
  | cons e rest ih =>
    obtain ⟨r, m⟩ := e
    by_cases hr : r = q
    · subst hr
      simp [removeNode, underList, List.filter_cons, hq]
      simpa [underList] using ih
    · by_cases hdr : pfx dp r = true <;>
        simp only [removeNode, if_neg hr, underList, List.filter_cons, hdr] <;>
        simp only [underList] at ih <;> simp [ih]

theorem underList_setNode_in_shape (dp : Path) (fs : FS) (q : Path)
    (n n0 : FNode) (hq : pfx dp q = true) (hl : lookupFS fs q = some n0)
    (hs : shapeOf n = shapeOf n0) :
    shapeList (underList dp (setNode fs q n)) = shapeList (underList dp fs) := by
  induction fs with
  | nil => cases hl
  | cons e rest ih =>
    obtain ⟨r, m⟩ := e
    by_cases hr : r = q
    · subst hr
      rw [lookupFS, if_pos rfl] at hl
      have hm : m = n0 := Option.some.inj hl
      subst hm
      simp [setNode, underList, List.filter_cons, hq, shapeList, hs]
    · rw [lookupFS, if_neg hr] at hl
      by_cases hdr : pfx dp r = true <;>
        simp only [setNode, if_neg hr, underList, List.filter_cons, hdr] <;>
        simp only [underList] at ih <;> simp [shapeList, ih hl] <;>
        simpa [shapeList] using ih hl

theorem SameShapeUnder.setNode_out {dp : Path} {fs0 fs : FS}
    (h : SameShapeUnder dp fs0 fs) (q : Path) (n : FNode)
    (hq : pfx dp q = false) : SameShapeUnder dp fs0 (setNode fs q n) := by
  unfold SameShapeUnder at h ⊢
  rw [underList_setNode_out dp fs q n hq]
  exact h

theorem SameShapeUnder.removeNode_out {dp : Path} {fs0 fs : FS}
    (h : SameShapeUnder dp fs0 fs) (q : Path)
    (hq : pfx dp q = false) : SameShapeUnder dp fs0 (removeNode fs q) := by
  unfold SameShapeUnder at h ⊢
  rw [underList_removeNode_out dp fs q hq]
  exact h

theorem SameShapeUnder.setNode_in {dp : Path} {fs0 fs : FS}
    (h : SameShapeUnder dp fs0 fs) (q : Path) (n n0 : FNode)
    (hq : pfx dp q = true) (hl : lookupFS fs q = some n0)
    (hs : shapeOf n = shapeOf n0) : SameShapeUnder dp fs0 (setNode fs q n) := by
  unfold SameShapeUnder at h ⊢
  rw [underList_setNode_in_shape dp fs q n n0 hq hl hs]
  exact h

theorem shape_file_exists {fs : FS} {p : Path} {m : Nat}
    (h : shapeAt fs p = some (.fileS m)) :
    ∃ c, lookupFS fs p = some (.file c m) := by
  unfold shapeAt at h
  cases hl : lookupFS fs p with
  | none => rw [hl] at h; cases h
  | some n =>
    rw [hl] at h
    cases n with
    | file c m2 =>
      have h2 : NShape.fileS m2 = NShape.fileS m := by
        simpa [shapeOf] using h
      exact ⟨c, by rw [NShape.fileS.inj h2]⟩
    | dir m2 => simp [shapeOf] at h
    | symlink t => simp [shapeOf] at h

theorem isFileAt_iff (fs : FS) (p : Path) :
    isFileAt fs p = true ↔ ∃ c m, lookupFS fs p = some (.file c m) := by
  unfold isFileAt
  cases hl : lookupFS fs p with
  | none => simp
  | some n => cases n <;> simp

/-! ## Invariant preservation by the primitive operations -/

theorem ApplyInv.setNode_outside {dp : Path} {fs0 fs : FS} (inv : ApplyInv dp fs0 fs)
    (q : Path) (n : FNode) (hq : pfx dp q = false)
    (hlink : ∀ t, n = .symlink t → pfx dp t = true → isFileAt fs0 t = true) :
    ApplyInv dp fs0 (setNode fs q n) := by
  refine ⟨inv.shape.setNode_out q n hq, ?_, keysNodupB_setNode fs q n inv.nodup⟩
  intro p t hp hpt
  by_cases hpq : p = q
  · subst hpq
    rw [lookupFS_setNode_self] at hp
    exact hlink t (Option.some.inj hp) hpt
  · rw [lookupFS_setNode_ne fs q p n hpq] at hp
    exact inv.links p t hp hpt

theorem ApplyInv.setNode_in_file {dp : Path} {fs0 fs : FS} (inv : ApplyInv dp fs0 fs)
    (q : Path) (c c0 : String) (m : Nat) (hq : pfx dp q = true)
    (hl : lookupFS fs q = some (.file c0 m)) :
    ApplyInv dp fs0 (setNode fs q (.file c m)) := by
  refine ⟨inv.shape.setNode_in q (.file c m) (.file c0 m) hq hl rfl, ?_,
    keysNodupB_setNode fs q _ inv.nodup⟩
  intro p t hp hpt
  by_cases hpq : p = q
  · subst hpq
    rw [lookupFS_setNode_self] at hp
    simp at hp
  · rw [lookupFS_setNode_ne fs q p _ hpq] at hp
    exact inv.links p t hp hpt

theorem ApplyInv.removeNode_outside {dp : Path} {fs0 fs : FS} (inv : ApplyInv dp fs0 fs)
    (q : Path) (hq : pfx dp q = false) : ApplyInv dp fs0 (removeNode fs q) := by
  refine ⟨inv.shape.removeNode_out q hq, ?_, keysNodupB_removeNode fs q inv.nodup⟩
  intro p t hp hpt
  by_cases hpq : p = q
  · subst hpq
    rw [lookupFS_removeNode_self] at hp
    cases hp
  · rw [lookupFS_removeNode_ne fs q p hpq] at hp
    exact inv.links p t hp hpt

theorem resolveLink_none_not_under {dp : Path} {fs0 fs : FS}
    (inv : ApplyInv dp fs0 fs) : ∀ (n : Nat) (p q : Path), pfx dp p = false →
    resolveLink fs n p = some q → lookupFS fs q = none → pfx dp q = false := by
  intro n
  induction n with
  | zero => intro p q hp hres hq; cases hres
  | succ k ih =>
    intro p q hp hres hq
    simp only [resolveLink] at hres
    split at hres
    · rename_i t heq
      by_cases hdt : pfx dp t = true
      · have hfile := inv.links p t heq hdt
        obtain ⟨c, m, hft⟩ := (isFileAt_iff fs0 t).mp hfile
        have hsh : shapeAt fs t = some (.fileS m) := by
          rw [← inv.shape.shapeAt_eq hdt]
          simp [shapeAt, hft, shapeOf]
        obtain ⟨c2, hft2⟩ := shape_file_exists hsh
        cases k with
        | zero => cases hres
        | succ k2 =>
          simp only [resolveLink, hft2] at hres
          obtain rfl := Option.some.inj hres
          rw [hft2] at hq
          cases hq
      · exact ih t q (by simpa using hdt) hres hq
    · obtain rfl := Option.some.inj hres
      exact hp

theorem ApplyInv.writeFileInv {dp : Path} {fs0 fs fs2 : FS} {p : Path} {c : String}
    {m : Nat} (inv : ApplyInv dp fs0 fs) (hp : pfx dp p = false)
    (hw : writeFileFS fs p c m = some fs2) : ApplyInv dp fs0 fs2 := by
  obtain ⟨q, hres, hq⟩ := writeFileFS_spec fs p c m fs2 hw
  rcases hq with ⟨hn, he⟩ | ⟨c0, m0, hf, he⟩
  · subst he
    exact inv.setNode_outside q _ (resolveLink_none_not_under inv 40 p q hp hres hn)
      (fun t ht _ => by cases ht)
  · subst he
    by_cases hdq : pfx dp q = true
    · exact inv.setNode_in_file q c c0 m0 hdq hf
    · exact inv.setNode_outside q _ (by simpa using hdq) (fun t ht _ => by cases ht)

theorem ApplyInv.copyFileInv {dp : Path} {fs0 : FS} (w : World) (src dst : Path)
    (mode : Nat) (inv : ApplyInv dp fs0 w.fs) (hdst : pfx dp dst = false) :
    ApplyInv dp fs0 (copyFile w src dst mode).2.fs := by
  unfold copyFile
  split
  · exact inv
  · split
    · exact inv
    · rename_i fs2 hw
      exact inv.writeFileInv hdst hw

theorem ApplyInv.backupFileInv {dp : Path} {fs0 : FS} (w : World) (p : Path)
    (inv : ApplyInv dp fs0 w.fs)
    (hbp : pfx dp (appendLast p (".dotpilot.bak." ++ toString w.clock)) = false) :
    ApplyInv dp fs0 (BackupFile w p).2.fs := by
  unfold BackupFile
  split
  · exact inv
  · rename_i info _
    split
    · rename_i w2 heq
      have h2 := ApplyInv.copyFileInv { w with clock := w.clock + 1 } p
        (appendLast p (".dotpilot.bak." ++ toString w.clock)) (nodeMode info.2) inv hbp
      rw [heq] at h2
      exact h2
    · rename_i e w2 heq
      have h2 := ApplyInv.copyFileInv { w with clock := w.clock + 1 } p
        (appendLast p (".dotpilot.bak." ++ toString w.clock)) (nodeMode info.2) inv hbp
      rw [heq] at h2
      exact h2

theorem ApplyInv.removeFileInv {dp : Path} {fs0 : FS} (w : World) (p : Path)
    (inv : ApplyInv dp fs0 w.fs) (hp : pfx dp p = false) :
    ApplyInv dp fs0 (removeFile w p).2.fs := by
  unfold removeFile
  split
  · exact inv
  · split
    · exact inv
    · exact inv.removeNode_outside p hp
  · exact inv.removeNode_outside p hp

theorem ApplyInv.symlinkFSInv {dp : Path} {fs0 : FS} (w : World) (o np : Path)
    (inv : ApplyInv dp fs0 w.fs) (hnp : pfx dp np = false)
    (ho : pfx dp o = true → isFileAt fs0 o = true) :
    ApplyInv dp fs0 (symlinkFS w o np).2.fs := by
  unfold symlinkFS
  split
  · exact inv
  · refine inv.setNode_outside np _ hnp ?_
    intro t ht hdt
    cases FNode.symlink.inj ht
    exact ho hdt

theorem ApplyInv.mkdirAllGoInv {dp : Path} {fs0 : FS} (mode : Nat) :
    ∀ (l : List Path) (w : World), ApplyInv dp fs0 w.fs →
    (∀ q ∈ l, pfx dp q = false) → ApplyInv dp fs0 (mkdirAllGo mode l w).2.fs := by
  intro l
  induction l with
  | nil => intro w inv _; exact inv
  | cons q rest ih =>
    intro w inv hl
    unfold mkdirAllGo
    split
    · exact ih w inv (fun r hr => hl r (List.mem_cons_of_mem q hr))
    · exact inv
    · refine ih _ ?_ (fun r hr => hl r (List.mem_cons_of_mem q hr))
      exact inv.setNode_outside q _ (hl q (List.mem_cons_self q rest))
        (fun t ht _ => by cases ht)

theorem ApplyInv.mkdirAllPInv {dp : Path} {fs0 : FS} (w : World) (p : Path)
    (mode : Nat) (inv : ApplyInv dp fs0 w.fs)
    (hp : ∀ q ∈ pathInits p, pfx dp q = false) :
    ApplyInv dp fs0 (mkdirAllP w p mode).2.fs :=
  ApplyInv.mkdirAllGoInv mode (pathInits p) w inv hp

/-! ## The primitive operations do not move the home directory -/

theorem copyFile_home (w : World) (s d : Path) (m : Nat) :
    (copyFile w s d m).2.home = w.home := by
  unfold copyFile
  split
  · rfl
  · split <;> rfl

theorem BackupFile_home (w : World) (p : Path) :
    (BackupFile w p).2.home = w.home := by
  unfold BackupFile
  split
  · rfl
  · rename_i info _
    split
    · rename_i w2 heq
      have h2 := copyFile_home { w with clock := w.clock + 1 } p
        (appendLast p (".dotpilot.bak." ++ toString w.clock)) (nodeMode info.2)
      rw [heq] at h2
      exact h2
    · rename_i e w2 heq
      have h2 := copyFile_home { w with clock := w.clock + 1 } p
        (appendLast p (".dotpilot.bak." ++ toString w.clock)) (nodeMode info.2)
      rw [heq] at h2
      exact h2

theorem removeFile_home (w : World) (p : Path) :
    (removeFile w p).2.home = w.home := by
  unfold removeFile
  split
  · rfl
  · split <;> rfl
  · rfl

theorem symlinkFS_home (w : World) (o np : Path) :
    (symlinkFS w o np).2.home = w.home := by
  unfold symlinkFS
  split <;> rfl

theorem mkdirAllGo_home (mode : Nat) :
    ∀ (l : List Path) (w : World), (mkdirAllGo mode l w).2.home = w.home := by
  intro l
  induction l with
  | nil => intro w; rfl
  | cons q rest ih =>
    intro w
    unfold mkdirAllGo
    split
    · exact ih w
    · rfl
    · exact ih _

theorem mkdirAllP_home (w : World) (p : Path) (mode : Nat) :
    (mkdirAllP w p mode).2.home = w.home :=
  mkdirAllGo_home mode (pathInits p) w

theorem trackTarget_home (w : World) (p : Path) :
    (trackTarget w p).home = w.home := by
  unfold trackTarget
  split
  · unfold AddTrackingPath
    split <;> rfl
  · rfl

theorem trackTarget_fs_eq (w : World) (p : Path) :
    (trackTarget w p).fs = w.fs := by
  unfold trackTarget
  split
  · unfold AddTrackingPath
    split <;> rfl
  · rfl


/-! ## Generic frame reasoning for the apply chain -/

theorem andThen_pres {P : World → Prop} (r : Except Err Unit × World)
    (k : World → Except Err Unit × World) (h1 : P r.2)
    (h2 : ∀ u, P u → P (k u).2) : P (andThen r k).2 := by
  obtain ⟨a, u⟩ := r
  cases a with
  | ok _ => exact h2 u h1
  | error e => exact h1

theorem writeFileFS_preserves {fs fs2 : FS} {p : Path} {c : String} {m : Nat}
    (hw : writeFileFS fs p c m = some fs2) {L : Path} {n : FNode}
    (hL : lookupFS fs L = some n) (hnot : ∀ c0 m0, n ≠ FNode.file c0 m0) :
    lookupFS fs2 L = some n := by
  obtain ⟨q, hres, hq⟩ := writeFileFS_spec fs p c m fs2 hw
  have hqL : q ≠ L := by
    intro hEq
    subst hEq
    rcases hq with ⟨hn, _⟩ | ⟨c0, m0, hf, _⟩
    · rw [hL] at hn; cases hn
    · rw [hL] at hf
      exact hnot c0 m0 (Option.some.inj hf)
  rcases hq with ⟨_, he⟩ | ⟨c0, m0, _, he⟩ <;> subst he <;>
    rw [lookupFS_setNode_ne fs q L _ (Ne.symm hqL)] <;> exact hL

theorem copyFile_preserves (w : World) (s d : Path) (m : Nat) {L : Path}
    {n : FNode} (hL : lookupFS w.fs L = some n)
    (hnot : ∀ c0 m0, n ≠ FNode.file c0 m0) :
    lookupFS (copyFile w s d m).2.fs L = some n := by
  unfold copyFile
  split
  · exact hL
  · split
    · exact hL
    · rename_i fs2 hw
      exact writeFileFS_preserves hw hL hnot

theorem BackupFile_preserves (w : World) (p : Path) {L : Path} {n : FNode}
    (hL : lookupFS w.fs L = some n) (hnot : ∀ c0 m0, n ≠ FNode.file c0 m0) :
    lookupFS (BackupFile w p).2.fs L = some n := by
  unfold BackupFile
  split
  · exact hL
  · rename_i info _
    split
    · rename_i w2 heq
      have h2 := copyFile_preserves { w with clock := w.clock + 1 } p
        (appendLast p (".dotpilot.bak." ++ toString w.clock)) (nodeMode info.2) hL hnot
      rw [heq] at h2
      exact h2
    · rename_i e w2 heq
      have h2 := copyFile_preserves { w with clock := w.clock + 1 } p
        (appendLast p (".dotpilot.bak." ++ toString w.clock)) (nodeMode info.2) hL hnot
      rw [heq] at h2
      exact h2

theorem mkdirAllGo_preserves (mode : Nat) :
    ∀ (l : List Path) (w : World) {L : Path} {n : FNode},
    lookupFS w.fs L = some n → lookupFS (mkdirAllGo mode l w).2.fs L = some n := by
  intro l
  induction l with
  | nil => intro w L n hL; exact hL
  | cons q rest ih =>
    intro w L n hL
    unfold mkdirAllGo
    split
    · exact ih w hL
    · exact hL
    · rename_i hq
      refine ih _ ?_
      have hqL : q ≠ L := by
        intro hEq
        subst hEq
        rw [hL] at hq
        cases hq
      show lookupFS (setNode w.fs q (FNode.dir mode)) L = some n
      rw [lookupFS_setNode_ne w.fs q L _ (Ne.symm hqL)]
      exact hL

theorem mkdirAllP_preserves (w : World) (p : Path) (mode : Nat) {L : Path}
    {n : FNode} (hL : lookupFS w.fs L = some n) :
    lookupFS (mkdirAllP w p mode).2.fs L = some n :=
  mkdirAllGo_preserves mode (pathInits p) w hL

theorem removeFile_preserves (w : World) (p : Path) {L : Path} {n : FNode}
    (hL : lookupFS w.fs L = some n) (hpL : p ≠ L) :
    lookupFS (removeFile w p).2.fs L = some n := by
  unfold removeFile
  split
  · exact hL
  · split
    · exact hL
    · show lookupFS (removeNode w.fs p) L = some n
      rw [lookupFS_removeNode_ne w.fs p L (Ne.symm hpL)]
      exact hL
  · show lookupFS (removeNode w.fs p) L = some n
    rw [lookupFS_removeNode_ne w.fs p L (Ne.symm hpL)]
    exact hL

theorem symlinkFS_preserves (w : World) (o np : Path) {L : Path} {n : FNode}
    (hL : lookupFS w.fs L = some n) :
    lookupFS (symlinkFS w o np).2.fs L = some n := by
  unfold symlinkFS
  split
  · exact hL
  · rename_i hnp
    have hnpL : np ≠ L := by
      intro hEq
      subst hEq
      rw [hL] at hnp
      cases hnp
    show lookupFS (setNode w.fs np (FNode.symlink o)) L = some n
    rw [lookupFS_setNode_ne w.fs np L _ (Ne.symm hnpL)]
    exact hL

theorem symlinkFS_ok_spec (w : World) (o np : Path) {w5 : World}
    (h : symlinkFS w o np = (.ok (), w5)) :
    w5 = { w with fs := setNode w.fs np (.symlink o), muts := w.muts + 1 } := by
  unfold symlinkFS at h
  split at h
  · cases h
  · exact (Prod.mk.inj h).2.symm

theorem mkdirAllGo_ok_post (mode : Nat) :
    ∀ (l : List Path) (w : World) {w1 : World},
    mkdirAllGo mode l w = (.ok (), w1) → ∀ q ∈ l, isDirAt w1.fs q = true := by
  intro l
  induction l with
  | nil => intro w w1 h q hq; cases hq
  | cons p rest ih =>
    intro w w1 h q hq
    unfold mkdirAllGo at h
    split at h
    · rename_i mm hp
      rcases List.mem_cons.mp hq with rfl | hq2
      · have h2 := mkdirAllGo_preserves mode rest w hp
        rw [h] at h2
        simp [isDirAt, h2]
      · exact ih w h q hq2
    · cases h
    · rename_i hp
      rcases List.mem_cons.mp hq with rfl | hq2
      · have hset : lookupFS (setNode w.fs q (FNode.dir mode)) q = some (.dir mode) :=
          lookupFS_setNode_self w.fs q _
        have h2 := mkdirAllGo_preserves mode rest
          { w with fs := setNode w.fs q (FNode.dir mode), muts := w.muts + 1 } hset
        rw [h] at h2
        simp [isDirAt, h2]
      · exact ih _ h q hq2

theorem mkdirAllP_ok_post (w : World) (p : Path) (mode : Nat) {w1 : World}
    (h : mkdirAllP w p mode = (.ok (), w1)) :
    ∀ q ∈ pathInits p, isDirAt w1.fs q = true :=
  mkdirAllGo_ok_post mode (pathInits p) w h

theorem shape_dir_eq {fs : FS} {p : Path} {m : Nat}
    (h : shapeAt fs p = some (.dirS m)) : lookupFS fs p = some (.dir m) := by
  unfold shapeAt at h
  cases hl : lookupFS fs p with
  | none => rw [hl] at h; cases h
  | some n =>
    rw [hl] at h
    cases n with
    | file c m2 => simp [shapeOf] at h
    | dir m2 =>
      have h2 : NShape.dirS m2 = NShape.dirS m := by simpa [shapeOf] using h
      rw [NShape.dirS.inj h2]
    | symlink t => simp [shapeOf] at h

theorem isDirAt_iff (fs : FS) (p : Path) :
    isDirAt fs p = true ↔ ∃ m, lookupFS fs p = some (.dir m) := by
  unfold isDirAt
  cases hl : lookupFS fs p with
  | none => simp
  | some n => cases n <;> simp

theorem appendLast_append (h : Path) :
    ∀ (rel : Path) (s : String), rel ≠ [] →
    appendLast (h ++ rel) s = h ++ appendLast rel s := by
  induction h with
  | nil => intro rel s _; simp
  | cons a as ih =>
    intro rel s hne
    cases as with
    | nil =>
      cases rel with
      | nil => cases hne rfl
      | cons r rs => simp [appendLast]
    | cons b bs =>
      have h2 := ih rel s hne
      cases rel with
      | nil => cases hne rfl
      | cons r rs =>
        show a :: appendLast (b :: bs ++ r :: rs) s = a :: (b :: bs ++ appendLast (r :: rs) s)
        exact congrArg (fun l => a :: l) h2

theorem promptYesNo_fs (w : World) : (promptYesNo w).2.fs = w.fs := rfl

theorem promptYesNo_home (w : World) : (promptYesNo w).2.home = w.home := rfl

theorem promptYesNo_hostname (w : World) : (promptYesNo w).2.hostname = w.hostname := rfl


/-! ## Case equations for the apply walk callback -/

theorem relFrom_some {cfg p r : Path} (h : relFrom cfg p = some r) :
    pfx cfg p = true ∧ r = p.drop cfg.length := by
  unfold relFrom at h
  split at h
  · rename_i hp
    exact ⟨hp, (Option.some.inj h).symm⟩
  · cases h

theorem relFrom_of_pfx {cfg p : Path} (h : pfx cfg p = true) :
    relFrom cfg p = some (p.drop cfg.length) := by
  unfold relFrom
  rw [if_pos h]

theorem applyEntry_eq_root (cfg : Path) (b d : Bool) (w : World)
    (e : Path × FNode) (h : e.1 = cfg) : applyEntry cfg b d w e = (.ok (), w) := by
  unfold applyEntry
  simp [h]

theorem applyEntry_eq_relnone (cfg : Path) (b d : Bool) (w : World)
    (e : Path × FNode) (hne : e.1 ≠ cfg) (hrel : relFrom cfg e.1 = none) :
    applyEntry cfg b d w e = (.error (.ioError "rel"), w) := by
  unfold applyEntry
  simp [hne, hrel]

theorem applyEntry_eq_skipped (cfg : Path) (b d : Bool) (w : World)
    (e : Path × FNode) (rel : Path) (hne : e.1 ≠ cfg)
    (hrel : relFrom cfg e.1 = some rel) (hskip : skipRel rel = true) :
    applyEntry cfg b d w e = (.ok (), w) := by
  unfold applyEntry
  simp [hne, hrel, hskip]

theorem applyEntry_eq_dir (cfg : Path) (b d : Bool) (w : World)
    (e : Path × FNode) (rel : Path) (hne : e.1 ≠ cfg)
    (hrel : relFrom cfg e.1 = some rel) (hskip : skipRel rel = false)
    (hdir : nodeIsDir e.2 = true) :
    applyEntry cfg b d w e = mkdirAllP w (w.home ++ rel) (nodeMode e.2) := by
  unfold applyEntry
  simp [hne, hrel, hskip, hdir]

theorem applyEntry_eq_linked (cfg : Path) (b d : Bool) (w : World)
    (e : Path × FNode) (rel : Path) (hne : e.1 ≠ cfg)
    (hrel : relFrom cfg e.1 = some rel) (hskip : skipRel rel = false)
    (hnd : nodeIsDir e.2 = false)
    (hL : lookupFS w.fs (w.home ++ rel) = some (.symlink e.1)) :
    applyEntry cfg b d w e = (.ok (), w) := by
  unfold applyEntry
  simp [hne, hrel, hskip, hnd, hL]

theorem applyEntry_eq_fresh (cfg : Path) (b d : Bool) (w : World)
    (e : Path × FNode) (rel : Path) (hne : e.1 ≠ cfg)
    (hrel : relFrom cfg e.1 = some rel) (hskip : skipRel rel = false)
    (hnd : nodeIsDir e.2 = false)
    (hL : lookupFS w.fs (w.home ++ rel) = none) :
    applyEntry cfg b d w e =
      andThen (symlinkFS w e.1 (w.home ++ rel)) (fun w5 =>
        (.ok (), trackTarget w5 (w.home ++ rel))) := by
  unfold applyEntry
  simp [hne, hrel, hskip, hnd, hL]

theorem applyEntry_eq_chain (cfg : Path) (b : Bool) (w : World)
    (e : Path × FNode) (rel : Path) (tinfo : FNode) (hne : e.1 ≠ cfg)
    (hrel : relFrom cfg e.1 = some rel) (hskip : skipRel rel = false)
    (hnd : nodeIsDir e.2 = false)
    (hL : lookupFS w.fs (w.home ++ rel) = some tinfo)
    (hnl : ∀ t, tinfo = FNode.symlink t → t ≠ e.1) :
    applyEntry cfg b false w e =
      andThen (removeFile (if b then (BackupFile w (w.home ++ rel)).2 else w)
          (w.home ++ rel)) (fun w4 =>
        andThen (symlinkFS w4 e.1 (w.home ++ rel)) (fun w5 =>
          (.ok (), trackTarget w5 (w.home ++ rel)))) := by
  cases tinfo with
  | symlink t =>
    have hte : t ≠ e.1 := hnl t rfl
    unfold applyEntry
    simp [hne, hrel, hskip, hnd, hL, hte]
  | file c m =>
    unfold applyEntry
    simp [hne, hrel, hskip, hnd, hL]
  | dir m =>
    unfold applyEntry
    simp [hne, hrel, hskip, hnd, hL]

/-- Exhaustive case analysis on the walk callback (non-interactive mode). -/
theorem applyEntry_main {motive : Except Err Unit × World → Prop}
    (cfg : Path) (b : Bool) (w : World) (e : Path × FNode)
    (hroot : e.1 = cfg → motive (.ok (), w))
    (hskipped : e.1 ≠ cfg → pfx cfg e.1 = true →
      skipRel (e.1.drop cfg.length) = true → motive (.ok (), w))
    (hlinked : nodeIsDir e.2 = false → e.1 ≠ cfg → pfx cfg e.1 = true →
      skipRel (e.1.drop cfg.length) = false →
      lookupFS w.fs (w.home ++ e.1.drop cfg.length) = some (.symlink e.1) →
      motive (.ok (), w))
    (herr : e.1 ≠ cfg → relFrom cfg e.1 = none →
      motive (.error (.ioError "rel"), w))
    (hdir : nodeIsDir e.2 = true → e.1 ≠ cfg → pfx cfg e.1 = true →
      skipRel (e.1.drop cfg.length) = false →
      motive (mkdirAllP w (w.home ++ e.1.drop cfg.length) (nodeMode e.2)))
    (hfresh : nodeIsDir e.2 = false → e.1 ≠ cfg → pfx cfg e.1 = true →
      skipRel (e.1.drop cfg.length) = false →
      lookupFS w.fs (w.home ++ e.1.drop cfg.length) = none →
      motive (andThen (symlinkFS w e.1 (w.home ++ e.1.drop cfg.length)) (fun w5 =>
        (.ok (), trackTarget w5 (w.home ++ e.1.drop cfg.length)))))
    (hchain : ∀ tinfo, nodeIsDir e.2 = false → e.1 ≠ cfg → pfx cfg e.1 = true →
      skipRel (e.1.drop cfg.length) = false →
      lookupFS w.fs (w.home ++ e.1.drop cfg.length) = some tinfo →
      (∀ t, tinfo = FNode.symlink t → t ≠ e.1) →
      motive (andThen (removeFile
          (if b then (BackupFile w (w.home ++ e.1.drop cfg.length)).2 else w)
          (w.home ++ e.1.drop cfg.length)) (fun w4 =>
        andThen (symlinkFS w4 e.1 (w.home ++ e.1.drop cfg.length)) (fun w5 =>
          (.ok (), trackTarget w5 (w.home ++ e.1.drop cfg.length)))))) :
    motive (applyEntry cfg b false w e) := by
  by_cases hr0 : e.1 = cfg
  · rw [applyEntry_eq_root cfg b false w e hr0]
    exact hroot hr0
  · cases hrl : relFrom cfg e.1 with
    | none =>
      rw [applyEntry_eq_relnone cfg b false w e hr0 hrl]
      exact herr hr0 hrl
    | some rel =>
      obtain ⟨hpfx, hre⟩ := relFrom_some hrl
      subst hre
      by_cases hskip : skipRel (e.1.drop cfg.length) = true
      · rw [applyEntry_eq_skipped cfg b false w e _ hr0 hrl hskip]
        exact hskipped hr0 hpfx hskip
      · rw [Bool.not_eq_true] at hskip
        by_cases hnd : nodeIsDir e.2 = true
        · rw [applyEntry_eq_dir cfg b false w e _ hr0 hrl hskip hnd]
          exact hdir hnd hr0 hpfx hskip
        · rw [Bool.not_eq_true] at hnd
          cases hL : lookupFS w.fs (w.home ++ e.1.drop cfg.length) with
          | none =>
            rw [applyEntry_eq_fresh cfg b false w e _ hr0 hrl hskip hnd hL]
            exact hfresh hnd hr0 hpfx hskip hL
          | some tinfo =>
            by_cases hcl : (match tinfo with
                | FNode.symlink t => decide (t = e.1)
                | _ => false) = true
            · have htl : tinfo = FNode.symlink e.1 := by
                cases tinfo with
                | symlink t =>
                  simp only [decide_eq_true_eq] at hcl
                  rw [hcl]
                | file c m => cases hcl
                | dir m => cases hcl
              rw [htl] at hL
              rw [applyEntry_eq_linked cfg b false w e _ hr0 hrl hskip hnd hL]
              exact hlinked hnd hr0 hpfx hskip hL
            · rw [Bool.not_eq_true] at hcl
              have hnl : ∀ t, tinfo = FNode.symlink t → t ≠ e.1 := by
                intro t ht hte
                subst ht
                subst hte
                simp at hcl
              rw [applyEntry_eq_chain cfg b w e _ tinfo hr0 hrl hskip hnd hL hnl]
              exact hchain tinfo hnd hr0 hpfx hskip hL hnl


theorem copyFile_hostname (w : World) (s d : Path) (m : Nat) :
    (copyFile w s d m).2.hostname = w.hostname := by
  unfold copyFile
  split
  · rfl
  · split <;> rfl

theorem BackupFile_hostname (w : World) (p : Path) :
    (BackupFile w p).2.hostname = w.hostname := by
  unfold BackupFile
  split
  · rfl
  · rename_i info _
    split
    · rename_i w2 heq
      have h2 := copyFile_hostname { w with clock := w.clock + 1 } p
        (appendLast p (".dotpilot.bak." ++ toString w.clock)) (nodeMode info.2)
      rw [heq] at h2
      exact h2
    · rename_i e w2 heq
      have h2 := copyFile_hostname { w with clock := w.clock + 1 } p
        (appendLast p (".dotpilot.bak." ++ toString w.clock)) (nodeMode info.2)
      rw [heq] at h2
      exact h2

theorem removeFile_hostname (w : World) (p : Path) :
    (removeFile w p).2.hostname = w.hostname := by
  unfold removeFile
  split
  · rfl
  · split <;> rfl
  · rfl

theorem symlinkFS_hostname (w : World) (o np : Path) :
    (symlinkFS w o np).2.hostname = w.hostname := by
  unfold symlinkFS
  split <;> rfl

theorem mkdirAllGo_hostname (mode : Nat) :
    ∀ (l : List Path) (w : World), (mkdirAllGo mode l w).2.hostname = w.hostname := by
  intro l
  induction l with
  | nil => intro w; rfl
  | cons q rest ih =>
    intro w
    unfold mkdirAllGo
    split
    · exact ih w
    · rfl
    · exact ih _

theorem mkdirAllP_hostname (w : World) (p : Path) (mode : Nat) :
    (mkdirAllP w p mode).2.hostname = w.hostname :=
  mkdirAllGo_hostname mode (pathInits p) w

theorem trackTarget_hostname (w : World) (p : Path) :
    (trackTarget w p).hostname = w.hostname := by
  unfold trackTarget
  split
  · unfold AddTrackingPath
    split <;> rfl
  · rfl


/-! ## Per-entry apply lemmas -/

theorem applyEntry_home (cfg : Path) (b : Bool) (w : World) (e : Path × FNode) :
    (applyEntry cfg b false w e).2.home = w.home := by
  refine applyEntry_main (motive := fun r => r.2.home = w.home) cfg b w e
    (fun _ => rfl) (fun _ _ _ => rfl) (fun _ _ _ _ _ => rfl) (fun _ _ => rfl) ?_ ?_ ?_
  · intro _ _ _ _
    exact mkdirAllP_home w _ _
  · intro _ _ _ _ _
    refine andThen_pres (P := fun u => u.home = w.home) _ _ ?_ ?_
    · exact symlinkFS_home w _ _
    · intro u hu
      show (trackTarget u _).home = w.home
      rw [trackTarget_home]
      exact hu
  · intro tinfo _ _ _ _ _ _
    refine andThen_pres (P := fun u => u.home = w.home) _ _ ?_ ?_
    · dsimp only
      rw [removeFile_home]
      cases b
      · rfl
      · show (BackupFile w _).2.home = w.home
        exact BackupFile_home w _
    · intro u hu
      refine andThen_pres (P := fun v => v.home = w.home) _ _ ?_ ?_
      · dsimp only
        rw [symlinkFS_home]
        exact hu
      · intro v hv
        show (trackTarget v _).home = w.home
        rw [trackTarget_home]
        exact hv

theorem applyEntry_hostname (cfg : Path) (b : Bool) (w : World) (e : Path × FNode) :
    (applyEntry cfg b false w e).2.hostname = w.hostname := by
  refine applyEntry_main (motive := fun r => r.2.hostname = w.hostname) cfg b w e
    (fun _ => rfl) (fun _ _ _ => rfl) (fun _ _ _ _ _ => rfl) (fun _ _ => rfl) ?_ ?_ ?_
  · intro _ _ _ _
    exact mkdirAllP_hostname w _ _
  · intro _ _ _ _ _
    refine andThen_pres (P := fun u => u.hostname = w.hostname) _ _ ?_ ?_
    · exact symlinkFS_hostname w _ _
    · intro u hu
      show (trackTarget u _).hostname = w.hostname
      rw [trackTarget_hostname]
      exact hu
  · intro tinfo _ _ _ _ _ _
    refine andThen_pres (P := fun u => u.hostname = w.hostname) _ _ ?_ ?_
    · dsimp only
      rw [removeFile_hostname]
      cases b
      · rfl
      · show (BackupFile w _).2.hostname = w.hostname
        exact BackupFile_hostname w _
    · intro u hu
      refine andThen_pres (P := fun v => v.hostname = w.hostname) _ _ ?_ ?_
      · dsimp only
        rw [symlinkFS_hostname]
        exact hu
      · intro v hv
        show (trackTarget v _).hostname = w.hostname
        rw [trackTarget_hostname]
        exact hv

theorem applyEntry_inv {dp : Path} {fs0 : FS} (cfg : Path) (b : Bool) (w : World)
    (e : Path × FNode) (inv : ApplyInv dp fs0 w.fs)
    (hdj1 : pfx dp w.home = false) (hdj2 : pfx w.home dp = false)
    (hfileE : nodeIsDir e.2 = false → pfx dp e.1 = true → isFileAt fs0 e.1 = true) :
    ApplyInv dp fs0 (applyEntry cfg b false w e).2.fs := by
  refine applyEntry_main (motive := fun r => ApplyInv dp fs0 r.2.fs) cfg b w e
    (fun _ => inv) (fun _ _ _ => inv) (fun _ _ _ _ _ => inv) (fun _ _ => inv) ?_ ?_ ?_
  · intro _ _ _ _
    refine ApplyInv.mkdirAllPInv w _ _ inv ?_
    intro q hq
    exact not_pfx_of_disj hdj1 hdj2 (pathInits_spec hq).1
  · intro hnd _ _ _ _
    refine andThen_pres (P := fun u => ApplyInv dp fs0 u.fs) _ _ ?_ ?_
    · refine ApplyInv.symlinkFSInv w e.1 _ inv
        (not_pfx_of_disj hdj1 hdj2 (pfx_refl _)) ?_
      intro hdt
      exact hfileE hnd hdt
    · intro u hu
      show ApplyInv dp fs0 (trackTarget u _).fs
      rw [trackTarget_fs_eq]
      exact hu
  · intro tinfo hnd hne hpfx _ _ _
    have hrelne : e.1.drop cfg.length ≠ [] := drop_ne_nil hpfx hne
    refine andThen_pres (P := fun u => ApplyInv dp fs0 u.fs) _ _ ?_ ?_
    · refine ApplyInv.removeFileInv _ _ ?_
        (not_pfx_of_disj hdj1 hdj2 (pfx_refl _))
      cases b
      · exact inv
      · show ApplyInv dp fs0 (BackupFile w (w.home ++ e.1.drop cfg.length)).2.fs
        refine ApplyInv.backupFileInv w _ inv ?_
        rw [appendLast_append w.home _ _ hrelne]
        exact not_pfx_of_disj hdj1 hdj2 (pfx_refl _)
    · intro u hu
      refine andThen_pres (P := fun v => ApplyInv dp fs0 v.fs) _ _ ?_ ?_
      · refine ApplyInv.symlinkFSInv u e.1 _ hu
          (not_pfx_of_disj hdj1 hdj2 (pfx_refl _)) ?_
        intro hdt
        exact hfileE hnd hdt
      · intro v hv
        show ApplyInv dp fs0 (trackTarget v _).fs
        rw [trackTarget_fs_eq]
        exact hv

theorem applyEntry_preserves_link (cfg : Path) (b : Bool) (w : World)
    (e : Path × FNode) {L T : Path}
    (hL : lookupFS w.fs L = some (.symlink T))
    (hno : nodeIsDir e.2 = true ∨ w.home ++ e.1.drop cfg.length ≠ L ∨ T = e.1) :
    lookupFS (applyEntry cfg b false w e).2.fs L = some (.symlink T) := by
  have hnotf : ∀ c0 m0, FNode.symlink T ≠ FNode.file c0 m0 := by
    intro c0 m0 h
    cases h
  refine applyEntry_main
    (motive := fun r => lookupFS r.2.fs L = some (.symlink T)) cfg b w e
    (fun _ => hL) (fun _ _ _ => hL) (fun _ _ _ _ _ => hL) (fun _ _ => hL) ?_ ?_ ?_
  · intro _ _ _ _
    exact mkdirAllP_preserves w _ _ hL
  · intro _ _ _ _ hlook
    have htpL : w.home ++ e.1.drop cfg.length ≠ L := by
      intro hEq
      rw [hEq, hL] at hlook
      cases hlook
    refine andThen_pres (P := fun u => lookupFS u.fs L = some (.symlink T)) _ _ ?_ ?_
    · exact symlinkFS_preserves w _ _ hL
    · intro u hu
      show lookupFS (trackTarget u _).fs L = some (.symlink T)
      rw [trackTarget_fs_eq]
      exact hu
  · intro tinfo hnd _ _ _ hlook hnl
    have htpL : w.home ++ e.1.drop cfg.length ≠ L := by
      rcases hno with hno | hno | hno
      · rw [hnd] at hno
        cases hno
      · exact hno
      · intro hEq
        rw [hEq, hL] at hlook
        exact hnl T (Option.some.inj hlook).symm hno
    refine andThen_pres (P := fun u => lookupFS u.fs L = some (.symlink T)) _ _ ?_ ?_
    · refine removeFile_preserves _ _ ?_ htpL
      cases b
      · exact hL
      · show lookupFS (BackupFile w _).2.fs L = some (.symlink T)
        exact BackupFile_preserves w _ hL hnotf
    · intro u hu
      refine andThen_pres (P := fun v => lookupFS v.fs L = some (.symlink T)) _ _ ?_ ?_
      · exact symlinkFS_preserves u _ _ hu
      · intro v hv
        show lookupFS (trackTarget v _).fs L = some (.symlink T)
        rw [trackTarget_fs_eq]
        exact hv

theorem applyEntry_preserves_dir (cfg : Path) (b : Bool) (w : World)
    (e : Path × FNode) {D : Path} {mD : Nat}
    (hD : lookupFS w.fs D = some (.dir mD))
    (hno : nodeIsDir e.2 = true ∨ w.home ++ e.1.drop cfg.length ≠ D) :
    lookupFS (applyEntry cfg b false w e).2.fs D = some (.dir mD) := by
  have hnotf : ∀ c0 m0, FNode.dir mD ≠ FNode.file c0 m0 := by
    intro c0 m0 h
    cases h
  refine applyEntry_main
    (motive := fun r => lookupFS r.2.fs D = some (.dir mD)) cfg b w e
    (fun _ => hD) (fun _ _ _ => hD) (fun _ _ _ _ _ => hD) (fun _ _ => hD) ?_ ?_ ?_
  · intro _ _ _ _
    exact mkdirAllP_preserves w _ _ hD
  · intro _ _ _ _ hlook
    refine andThen_pres (P := fun u => lookupFS u.fs D = some (.dir mD)) _ _ ?_ ?_
    · exact symlinkFS_preserves w _ _ hD
    · intro u hu
      show lookupFS (trackTarget u _).fs D = some (.dir mD)
      rw [trackTarget_fs_eq]
      exact hu
  · intro tinfo hnd _ _ _ hlook hnl
    have htpD : w.home ++ e.1.drop cfg.length ≠ D := by
      rcases hno with hno | hno
      · rw [hnd] at hno
        cases hno
      · exact hno
    refine andThen_pres (P := fun u => lookupFS u.fs D = some (.dir mD)) _ _ ?_ ?_
    · refine removeFile_preserves _ _ ?_ htpD
      cases b
      · exact hD
      · show lookupFS (BackupFile w _).2.fs D = some (.dir mD)
        exact BackupFile_preserves w _ hD hnotf
    · intro u hu
      refine andThen_pres (P := fun v => lookupFS v.fs D = some (.dir mD)) _ _ ?_ ?_
      · exact symlinkFS_preserves u _ _ hu
      · intro v hv
        show lookupFS (trackTarget v _).fs D = some (.dir mD)
        rw [trackTarget_fs_eq]
        exact hv

theorem andThen_ok_elim {r : Except Err Unit × World}
    {k : World → Except Err Unit × World} {w1 : World}
    (h : andThen r k = (.ok (), w1)) :
    ∃ u, r = (.ok (), u) ∧ k u = (.ok (), w1) := by
  obtain ⟨a, u⟩ := r
  cases a with
  | ok x => exact ⟨u, rfl, h⟩
  | error e => cases h

theorem applyEntry_linked_ok (cfg : Path) (b : Bool) (w : World)
    (e : Path × FNode) {w1 : World}
    (hok : applyEntry cfg b false w e = (.ok (), w1))
    (hne : e.1 ≠ cfg) (hpfx : pfx cfg e.1 = true)
    (hskip : skipRel (e.1.drop cfg.length) = false)
    (hnd : nodeIsDir e.2 = false) :
    lookupFS w1.fs (w.home ++ e.1.drop cfg.length) = some (.symlink e.1) := by
  revert hok
  refine applyEntry_main
    (motive := fun r => r = (.ok (), w1) →
      lookupFS w1.fs (w.home ++ e.1.drop cfg.length) = some (.symlink e.1))
    cfg b w e ?_ ?_ ?_ ?_ ?_ ?_ ?_
  · intro h0
    exact absurd h0 hne
  · intro _ _ hsk
    rw [hskip] at hsk
    cases hsk
  · intro _ _ _ _ hL h
    obtain rfl : w = w1 := (Prod.mk.inj h).2
    exact hL
  · intro _ hrl
    rw [relFrom_of_pfx hpfx] at hrl
    cases hrl
  · intro hd
    rw [hd] at hnd
    cases hnd
  · intro _ _ _ _ hL h
    obtain ⟨u, hsl, htr⟩ := andThen_ok_elim h
    obtain rfl : trackTarget u (w.home ++ e.1.drop cfg.length) = w1 :=
      (Prod.mk.inj htr).2
    rw [trackTarget_fs_eq]
    rw [symlinkFS_ok_spec w e.1 _ hsl]
    exact lookupFS_setNode_self w.fs _ _
  · intro tinfo _ _ _ _ hlook hnl h
    obtain ⟨u4, hrm, h2⟩ := andThen_ok_elim h
    obtain ⟨u5, hsl, htr⟩ := andThen_ok_elim h2
    obtain rfl : trackTarget u5 (w.home ++ e.1.drop cfg.length) = w1 :=
      (Prod.mk.inj htr).2
    rw [trackTarget_fs_eq]
    rw [symlinkFS_ok_spec u4 e.1 _ hsl]
    exact lookupFS_setNode_self u4.fs _ _

theorem applyEntry_noop (cfg : Path) (b : Bool) (w : World) (e : Path × FNode)
    (hpfx : pfx cfg e.1 = true)
    (hdirs : nodeIsDir e.2 = true → e.1 ≠ cfg →
      skipRel (e.1.drop cfg.length) = false →
      ∀ q ∈ pathInits (w.home ++ e.1.drop cfg.length), isDirAt w.fs q = true)
    (hlink : nodeIsDir e.2 = false → e.1 ≠ cfg →
      skipRel (e.1.drop cfg.length) = false →
      lookupFS w.fs (w.home ++ e.1.drop cfg.length) = some (.symlink e.1)) :
    applyEntry cfg b false w e = (.ok (), w) := by
  refine applyEntry_main (motive := fun r => r = (.ok (), w)) cfg b w e
    (fun _ => rfl) (fun _ _ _ => rfl) (fun _ _ _ _ _ => rfl) ?_ ?_ ?_ ?_
  · intro hne hrl
    rw [relFrom_of_pfx hpfx] at hrl
    cases hrl
  · intro hd hne _ hsk
    exact mkdirAllP_noop w _ _ (hdirs hd hne hsk)
  · intro hnd hne _ hsk hlook
    rw [hlink hnd hne hsk] at hlook
    cases hlook
  · intro tinfo hnd hne _ hsk hlook hnl
    rw [hlink hnd hne hsk] at hlook
    exact absurd rfl (hnl e.1 (Option.some.inj hlook).symm)


/-! ## Walk-level lemmas -/

theorem applyWalk_home (cfg : Path) (b : Bool) :
    ∀ (l : FS) (w : World), (applyWalk cfg b false l w).2.home = w.home := by
  intro l
  induction l with
  | nil => intro w; rfl
  | cons e rest ih =>
    intro w
    unfold applyWalk
    split
    · rename_i w1 heq
      have h1 := applyEntry_home cfg b w e
      rw [heq] at h1
      rw [ih w1, h1]
    · rename_i err w1 heq
      have h1 := applyEntry_home cfg b w e
      rw [heq] at h1
      exact h1

theorem applyWalk_hostname (cfg : Path) (b : Bool) :
    ∀ (l : FS) (w : World), (applyWalk cfg b false l w).2.hostname = w.hostname := by
  intro l
  induction l with
  | nil => intro w; rfl
  | cons e rest ih =>
    intro w
    unfold applyWalk
    split
    · rename_i w1 heq
      have h1 := applyEntry_hostname cfg b w e
      rw [heq] at h1
      rw [ih w1, h1]
    · rename_i err w1 heq
      have h1 := applyEntry_hostname cfg b w e
      rw [heq] at h1
      exact h1

theorem applyWalk_inv {dp : Path} {fs0 : FS} (cfg : Path) (b : Bool) (H : Path)
    (hdj1 : pfx dp H = false) (hdj2 : pfx H dp = false) :
    ∀ (l : FS) (w : World), w.home = H → ApplyInv dp fs0 w.fs →
    (∀ e ∈ l, nodeIsDir e.2 = false → pfx dp e.1 = true →
      isFileAt fs0 e.1 = true) →
    ApplyInv dp fs0 (applyWalk cfg b false l w).2.fs := by
  intro l
  induction l with
  | nil => intro w _ inv _; exact inv
  | cons e rest ih =>
    intro w hh inv hfiles
    have inv1 := applyEntry_inv cfg b w e inv (hh ▸ hdj1) (hh ▸ hdj2)
      (fun hnd hdp => hfiles e (List.mem_cons_self e rest) hnd hdp)
    have hh1 := applyEntry_home cfg b w e
    unfold applyWalk
    split
    · rename_i w1 heq
      rw [heq] at inv1 hh1
      exact ih w1 (hh1.trans hh) inv1
        (fun f hf => hfiles f (List.mem_cons_of_mem e hf))
    · rename_i err w1 heq
      rw [heq] at inv1
      exact inv1

theorem applyWalk_preserves_link (cfg : Path) (b : Bool) (H : Path)
    {L T : Path} :
    ∀ (l : FS) (w : World), w.home = H →
    lookupFS w.fs L = some (.symlink T) →
    (∀ f ∈ l, nodeIsDir f.2 = true ∨ H ++ f.1.drop cfg.length ≠ L ∨ T = f.1) →
    lookupFS (applyWalk cfg b false l w).2.fs L = some (.symlink T) := by
  intro l
  induction l with
  | nil => intro w _ hL _; exact hL
  | cons e rest ih =>
    intro w hh hL hall
    have h1 := applyEntry_preserves_link cfg b w e hL
      (by rw [hh]; exact hall e (List.mem_cons_self e rest))
    have hh1 := applyEntry_home cfg b w e
    unfold applyWalk
    split
    · rename_i w1 heq
      rw [heq] at h1 hh1
      exact ih w1 (hh1.trans hh) h1
        (fun f hf => hall f (List.mem_cons_of_mem e hf))
    · rename_i err w1 heq
      rw [heq] at h1
      exact h1

theorem applyWalk_preserves_dir (cfg : Path) (b : Bool) (H : Path)
    {D : Path} {mD : Nat} :
    ∀ (l : FS) (w : World), w.home = H →
    lookupFS w.fs D = some (.dir mD) →
    (∀ f ∈ l, nodeIsDir f.2 = true ∨ H ++ f.1.drop cfg.length ≠ D) →
    lookupFS (applyWalk cfg b false l w).2.fs D = some (.dir mD) := by
  intro l
  induction l with
  | nil => intro w _ hD _; exact hD
  | cons e rest ih =>
    intro w hh hD hall
    have h1 := applyEntry_preserves_dir cfg b w e hD
      (by rw [hh]; exact hall e (List.mem_cons_self e rest))
    have hh1 := applyEntry_home cfg b w e
    unfold applyWalk
    split
    · rename_i w1 heq
      rw [heq] at h1 hh1
      exact ih w1 (hh1.trans hh) h1
        (fun f hf => hall f (List.mem_cons_of_mem e hf))
    · rename_i err w1 heq
      rw [heq] at h1
      exact h1

theorem applyWalk_linked (cfg : Path) (b : Bool) (H : Path)
    (e0 : Path × FNode) :
    ∀ (l : FS) (w : World) {w1 : World}, w.home = H →
    applyWalk cfg b false l w = (.ok (), w1) →
    e0 ∈ l → nodeIsDir e0.2 = false → e0.1 ≠ cfg → pfx cfg e0.1 = true →
    skipRel (e0.1.drop cfg.length) = false →
    (∀ f ∈ l, pfx cfg f.1 = true) →
    lookupFS w1.fs (H ++ e0.1.drop cfg.length) = some (.symlink e0.1) := by
  intro l
  induction l with
  | nil => intro w w1 _ _ hmem; cases hmem
  | cons e rest ih =>
    intro w w1 hh hok hmem hnd hne hpfx hskip hall
    unfold applyWalk at hok
    split at hok
    · rename_i wm heq
      rcases List.mem_cons.mp hmem with rfl | hmem2
      · have hlink := applyEntry_linked_ok cfg b w e0 heq hne hpfx hskip hnd
        rw [hh] at hlink
        have h2 := applyWalk_preserves_link cfg b H rest wm (by
            have hh1 := applyEntry_home cfg b w e0
            rw [heq] at hh1
            exact hh1.trans hh) hlink ?_
        · rw [hok] at h2
          exact h2
        · intro f hf
          by_cases hfe : f.1 = e0.1
          · exact Or.inr (Or.inr hfe.symm)
          · refine Or.inr (Or.inl ?_)
            intro hEq
            have h2 := List.append_cancel_left hEq
            exact hfe (append_drop_inj (hall f (List.mem_cons_of_mem e0 hf)) hpfx h2)
      · exact ih wm (by
            have hh1 := applyEntry_home cfg b w e
            rw [heq] at hh1
            exact hh1.trans hh) hok hmem2 hnd hne hpfx hskip
          (fun f hf => hall f (List.mem_cons_of_mem e hf))
    · cases hok

theorem applyWalk_dirs (cfg : Path) (b : Bool) (H : Path)
    (e0 : Path × FNode) :
    ∀ (l : FS) (w : World) {w1 : World}, w.home = H →
    applyWalk cfg b false l w = (.ok (), w1) →
    e0 ∈ l → nodeIsDir e0.2 = true → e0.1 ≠ cfg → pfx cfg e0.1 = true →
    skipRel (e0.1.drop cfg.length) = false →
    (∀ f ∈ l, nodeIsDir f.2 = true ∨
      ∀ q ∈ pathInits (H ++ e0.1.drop cfg.length), H ++ f.1.drop cfg.length ≠ q) →
    ∀ q ∈ pathInits (H ++ e0.1.drop cfg.length), isDirAt w1.fs q = true := by
  intro l
  induction l with
  | nil => intro w w1 _ _ hmem; cases hmem
  | cons e rest ih =>
    intro w w1 hh hok hmem hnd hne hpfx hskip hall q hq
    unfold applyWalk at hok
    split at hok
    · rename_i wm heq
      rcases List.mem_cons.mp hmem with rfl | hmem2
      · rw [applyEntry_eq_dir cfg b false w e0 _ hne (relFrom_of_pfx hpfx)
          hskip hnd] at heq
        have hdirs := mkdirAllP_ok_post w _ _ heq
        rw [hh] at hdirs
        have hdq := hdirs q hq
        obtain ⟨m, hm⟩ := (isDirAt_iff wm.fs q).mp hdq
        have h2 := applyWalk_preserves_dir cfg b H rest wm (by
            have hh1 := applyEntry_home cfg b w e0
            rw [applyEntry_eq_dir cfg b false w e0 _ hne (relFrom_of_pfx hpfx)
              hskip hnd] at hh1
            rw [heq] at hh1
            exact hh1.trans hh) hm ?_
        · rw [hok] at h2
          simp [isDirAt, h2]
        · intro f hf
          rcases hall f (List.mem_cons_of_mem e0 hf) with hd | hne2
          · exact Or.inl hd
          · exact Or.inr (hne2 q hq)
      · exact ih wm (by
            have hh1 := applyEntry_home cfg b w e
            rw [heq] at hh1
            exact hh1.trans hh) hok hmem2 hnd hne hpfx hskip
          (fun f hf => hall f (List.mem_cons_of_mem e hf)) q hq
    · cases hok

theorem applyWalk_noop (cfg : Path) (b : Bool) :
    ∀ (l : FS) (w : World),
    (∀ e ∈ l, pfx cfg e.1 = true) →
    (∀ e ∈ l, nodeIsDir e.2 = true → e.1 ≠ cfg →
      skipRel (e.1.drop cfg.length) = false →
      ∀ q ∈ pathInits (w.home ++ e.1.drop cfg.length), isDirAt w.fs q = true) →
    (∀ e ∈ l, nodeIsDir e.2 = false → e.1 ≠ cfg →
      skipRel (e.1.drop cfg.length) = false →
      lookupFS w.fs (w.home ++ e.1.drop cfg.length) = some (.symlink e.1)) →
    applyWalk cfg b false l w = (.ok (), w) := by
  intro l
  induction l with
  | nil => intro w _ _ _; rfl
  | cons e rest ih =>
    intro w hall hdirs hlinks
    have h1 := applyEntry_noop cfg b w e (hall e (List.mem_cons_self e rest))
      (fun hd hne hsk => hdirs e (List.mem_cons_self e rest) hd hne hsk)
      (fun hnd hne hsk => hlinks e (List.mem_cons_self e rest) hnd hne hsk)
    unfold applyWalk
    rw [h1]
    exact ih w (fun f hf => hall f (List.mem_cons_of_mem e hf))
      (fun f hf => hdirs f (List.mem_cons_of_mem e hf))
      (fun f hf => hlinks f (List.mem_cons_of_mem e hf))


/-! ## Entry-list membership and initial-state lemmas -/

theorem mem_insertByPath {f e : Path × FNode} :
    ∀ {l : FS}, f ∈ insertByPath e l ↔ f = e ∨ f ∈ l := by
  intro l
  induction l with
  | nil => simp [insertByPath]
  | cons g rest ih =>
    unfold insertByPath
    split
    · rw [List.mem_cons, ih, List.mem_cons]
      tauto
    · rw [List.mem_cons]

theorem mem_sortByPath {f : Path × FNode} :
    ∀ {l : FS}, f ∈ sortByPath l ↔ f ∈ l := by
  intro l
  induction l with
  | nil => simp [sortByPath]
  | cons e rest ih =>
    unfold sortByPath
    rw [mem_insertByPath]
    simp [ih]

theorem mem_entriesUnder {f : Path × FNode} {fs : FS} {root : Path} :
    f ∈ entriesUnder fs root ↔
      f ∈ fs ∧ pfx root f.1 = true ∧ f.1 ≠ root := by
  unfold entriesUnder filterUnder
  rw [mem_sortByPath, List.mem_filter]
  simp

theorem shapeAt_some_exists {fs : FS} {p : Path} {s : NShape}
    (h : shapeAt fs p = some s) :
    ∃ n, lookupFS fs p = some n ∧ shapeOf n = s := by
  unfold shapeAt at h
  cases hl : lookupFS fs p with
  | none => rw [hl] at h; cases h
  | some n =>
    rw [hl] at h
    exact ⟨n, rfl, Option.some.inj h⟩

theorem nodeIsDir_of_shape {a b : FNode} (h : shapeOf a = shapeOf b) :
    nodeIsDir a = nodeIsDir b := by
  cases a <;> cases b <;> simp [shapeOf, nodeIsDir] at h ⊢

theorem shape_sym_eq {fs : FS} {p : Path} {t : Path}
    (h : shapeAt fs p = some (.symS t)) :
    lookupFS fs p = some (.symlink t) := by
  obtain ⟨n, hl, hs⟩ := shapeAt_some_exists h
  cases n with
  | file c m => cases hs
  | dir m => cases hs
  | symlink u =>
    rw [hl, NShape.symS.inj hs]

theorem tmplPlain_no_symlink {dp : Path} {fs : FS} (htp : tmplPlain dp fs = true)
    {p t : Path} (hdp : pfx dp p = true)
    (hl : lookupFS fs p = some (.symlink t)) : False := by
  have hmem := lookupFS_mem hl
  unfold tmplPlain at htp
  rw [List.all_eq_true] at htp
  have h2 := htp _ hmem
  simp [hdp] at h2

theorem linksValid_init {dp : Path} {fs : FS} (hlv : linksValidB dp fs = true) :
    ∀ p t, lookupFS fs p = some (.symlink t) → pfx dp t = true →
    isFileAt fs t = true := by
  intro p t hl hdt
  have hmem := lookupFS_mem hl
  unfold linksValidB at hlv
  rw [List.all_eq_true] at hlv
  have h2 := hlv _ hmem
  simp only [Bool.or_eq_true, Bool.not_eq_true'] at h2
  rcases h2 with h2 | h2
  · rw [hdt] at h2
    cases h2
  · exact h2

theorem ApplyInv.init {dp : Path} {fs : FS} (hnodup : keysNodupB fs = true)
    (hlv : linksValidB dp fs = true) : ApplyInv dp fs fs :=
  ⟨rfl, linksValid_init hlv, hnodup⟩

theorem inv_entry_file {dp : Path} {fs0 fs : FS} (inv : ApplyInv dp fs0 fs)
    (htp : tmplPlain dp fs0 = true) {e : Path × FNode} (hmem : e ∈ fs)
    (hdp : pfx dp e.1 = true) (hnd : nodeIsDir e.2 = false) :
    isFileAt fs0 e.1 = true := by
  have hl : lookupFS fs e.1 = some e.2 := by
    obtain ⟨p, n⟩ := e
    exact keysNodupB_mem_lookup inv.nodup hmem
  have hsh : shapeAt fs0 e.1 = some (shapeOf e.2) := by
    rw [inv.shape.shapeAt_eq hdp]
    simp [shapeAt, hl]
  cases he : e.2 with
  | dir m => rw [he] at hnd; cases hnd
  | symlink t =>
    rw [he] at hsh
    exact absurd (shape_sym_eq hsh) (fun h => tmplPlain_no_symlink htp hdp h)
  | file c m =>
    rw [he] at hsh
    obtain ⟨c2, hc2⟩ := shape_file_exists hsh
    simp [isFileAt, hc2]

theorem pfx_length {a b : Path} (h : pfx a b = true) : a.length ≤ b.length := by
  have h2 := eq_append_drop h
  have h3 := congrArg List.length h2
  rw [List.length_append] at h3
  omega

theorem pfx_append_left_cancel (h : Path) :
    ∀ (a b : Path), pfx (h ++ a) (h ++ b) = pfx a b := by
  induction h with
  | nil => intro a b; rfl
  | cons x xs ih =>
    intro a b
    simp [pfx, ih]

theorem mem_pathInits_of_pfx {a b : Path} (h : pfx a b = true) (hne : a ≠ [])
    (hab : a ≠ b) : a ∈ pathInits b := by
  unfold pathInits
  rw [List.mem_map]
  refine ⟨a.length - 1, ?_, ?_⟩
  · rw [List.mem_range]
    have h1 := pfx_length h
    have h2 : a.length ≠ b.length := by
      intro hl
      apply hab
      have h3 := eq_append_drop h
      have h4 : b.drop a.length = [] := by
        rw [hl]
        exact List.drop_length b
      rw [h4, List.append_nil] at h3
      exact h3
    have h5 : 0 < a.length := List.length_pos.mpr hne
    omega
  · have h5 : 0 < a.length := List.length_pos.mpr hne
    have h6 : a.length - 1 + 1 = a.length := by omega
    rw [h6]
    have h3 := eq_append_drop h
    calc b.take a.length = ((a ++ b.drop a.length).take a.length) := by rw [h3]
    _ = a := List.take_left a _

theorem relsClash_spec {fs : FS} {r1 r2 : Path}
    (h : relsClash fs r1 r2 = false) :
    ∀ e ∈ fs, ∀ f ∈ fs, pfx r1 e.1 = true → e.1 ≠ r1 →
    pfx r2 f.1 = true → f.1 ≠ r2 →
    pfx (e.1.drop r1.length) (f.1.drop r2.length) = false ∧
    pfx (f.1.drop r2.length) (e.1.drop r1.length) = false := by
  intro e he f hf h1 h2 h3 h4
  unfold relsClash at h
  rw [List.any_eq_false] at h
  have h5 : (pfx r1 e.1 && !(decide (e.1 = r1)) &&
      fs.any (fun f => pfx r2 f.1 && !(decide (f.1 = r2)) &&
        (pfx (e.1.drop r1.length) (f.1.drop r2.length) ||
         pfx (f.1.drop r2.length) (e.1.drop r1.length)))) = false :=
    Bool.eq_false_iff.mpr (h e he)
  rw [Bool.and_eq_false_iff] at h5
  rcases h5 with h5 | h5
  · rw [Bool.and_eq_false_iff] at h5
    rcases h5 with h5 | h5
    · rw [h1] at h5; cases h5
    · rw [Bool.not_eq_false', decide_eq_true_eq] at h5
      exact absurd h5 h2
  · rw [List.any_eq_false] at h5
    have h6 : (pfx r2 f.1 && !(decide (f.1 = r2)) &&
        (pfx (e.1.drop r1.length) (f.1.drop r2.length) ||
         pfx (f.1.drop r2.length) (e.1.drop r1.length))) = false :=
      Bool.eq_false_iff.mpr (h5 f hf)
    rw [Bool.and_eq_false_iff] at h6
    rcases h6 with h6 | h6
    · rw [Bool.and_eq_false_iff] at h6
      rcases h6 with h6 | h6
      · rw [h3] at h6; cases h6
      · rw [Bool.not_eq_false', decide_eq_true_eq] at h6
        exact absurd h6 h4
    · rw [Bool.or_eq_false_iff] at h6
      exact h6

theorem treeWFB_spec {fs : FS} {root : Path} (h : treeWFB fs root = true)
    {e : Path × FNode} (he : e ∈ fs) (h1 : pfx root e.1 = true)
    (h2 : e.1 ≠ root) {q : Path} (hq : q ∈ pathInits e.1)
    (h3 : pfx root q = true) (h4 : q ≠ root) (h5 : q ≠ e.1) :
    isDirAt fs q = true := by
  unfold treeWFB at h
  rw [List.all_eq_true] at h
  have h6 := h e he
  rw [Bool.or_eq_true] at h6
  rcases h6 with h6 | h6
  · rw [Bool.not_eq_true', Bool.and_eq_false_iff] at h6
    rcases h6 with h6 | h6
    · rw [h1] at h6; cases h6
    · rw [Bool.not_eq_false', decide_eq_true_eq] at h6
      exact absurd h6 h2
  · rw [List.all_eq_true] at h6
    have h7 := h6 q hq
    rw [Bool.or_eq_true] at h7
    rcases h7 with h7 | h7
    · rw [Bool.not_eq_true', Bool.and_eq_false_iff] at h7
      rcases h7 with h7 | h7
      · rw [Bool.and_eq_false_iff] at h7
        rcases h7 with h7 | h7
        · rw [h3] at h7; cases h7
        · rw [Bool.not_eq_false', decide_eq_true_eq] at h7
          exact absurd h7 h4
      · rw [Bool.not_eq_false', decide_eq_true_eq] at h7
        exact absurd h7 h5
    · exact h7

theorem rootOkB_cases {fs : FS} {r : Path} (h : rootOkB fs r = true) :
    lookupFS fs r = none ∨ ∃ m, lookupFS fs r = some (.dir m) := by
  unfold rootOkB at h
  cases hl : lookupFS fs r with
  | none => exact Or.inl rfl
  | some n =>
    rw [hl] at h
    cases n with
    | dir m => exact Or.inr ⟨m, rfl⟩
    | file c m => cases h
    | symlink t => cases h

theorem statFS_of_none2 {fs : FS} {p : Path} (h : lookupFS fs p = none) :
    statFS fs p = none := by
  unfold statFS
  have hres : resolveLink fs 40 p = some p := by
    simp only [resolveLink, h]
  simp [hres, h]

theorem statFS_of_dir2 {fs : FS} {p : Path} {m : Nat}
    (h : lookupFS fs p = some (.dir m)) : statFS fs p = some (p, .dir m) := by
  unfold statFS
  have hres : resolveLink fs 40 p = some p := by
    simp only [resolveLink, h]
  simp [hres, h]


/-! ## Tier-level lemmas -/

theorem applyConfigDir_home (w : World) (cfg : Path) (b : Bool) :
    (applyConfigDir w cfg b false).2.home = w.home := by
  unfold applyConfigDir
  split
  · rfl
  · exact applyWalk_home cfg b _ w

theorem applyConfigDir_hostname (w : World) (cfg : Path) (b : Bool) :
    (applyConfigDir w cfg b false).2.hostname = w.hostname := by
  unfold applyConfigDir
  split
  · rfl
  · exact applyWalk_hostname cfg b _ w

theorem applyConfigDir_inv {dp : Path} {fs0 : FS} (w : World) (cfg : Path)
    (b : Bool) (inv : ApplyInv dp fs0 w.fs) (hdj1 : pfx dp w.home = false)
    (hdj2 : pfx w.home dp = false) (htp : tmplPlain dp fs0 = true) :
    ApplyInv dp fs0 (applyConfigDir w cfg b false).2.fs := by
  unfold applyConfigDir
  split
  · exact inv
  · refine applyWalk_inv cfg b w.home hdj1 hdj2 _ w rfl inv ?_
    intro e he hnd hdp
    exact inv_entry_file inv htp (mem_entriesUnder.mp he).1 hdp hnd

theorem applyConfigDir_preserves_link (w : World) (cfg : Path) (b : Bool)
    {L T : Path} (hL : lookupFS w.fs L = some (.symlink T))
    (hno : ∀ f ∈ entriesUnder w.fs cfg, nodeIsDir f.2 = true ∨
      w.home ++ f.1.drop cfg.length ≠ L ∨ T = f.1) :
    lookupFS (applyConfigDir w cfg b false).2.fs L = some (.symlink T) := by
  unfold applyConfigDir
  split
  · exact hL
  · exact applyWalk_preserves_link cfg b w.home _ w rfl hL hno

theorem applyConfigDir_preserves_dir (w : World) (cfg : Path) (b : Bool)
    {D : Path} {mD : Nat} (hD : lookupFS w.fs D = some (.dir mD))
    (hno : ∀ f ∈ entriesUnder w.fs cfg, nodeIsDir f.2 = true ∨
      w.home ++ f.1.drop cfg.length ≠ D) :
    lookupFS (applyConfigDir w cfg b false).2.fs D = some (.dir mD) := by
  unfold applyConfigDir
  split
  · exact hD
  · exact applyWalk_preserves_dir cfg b w.home _ w rfl hD hno

theorem applyConfigDir_linked (w : World) (cfg : Path) (b : Bool) {w1 : World}
    {m : Nat} (hroot : lookupFS w.fs cfg = some (.dir m))
    (hok : applyConfigDir w cfg b false = (.ok (), w1))
    {e0 : Path × FNode} (hmem : e0 ∈ entriesUnder w.fs cfg)
    (hnd : nodeIsDir e0.2 = false)
    (hskip : skipRel (e0.1.drop cfg.length) = false) :
    lookupFS w1.fs (w.home ++ e0.1.drop cfg.length) = some (.symlink e0.1) := by
  unfold applyConfigDir at hok
  split at hok
  · rename_i heq
    rw [statFS_of_dir2 hroot] at heq
    cases heq
  · obtain ⟨h1, h2, h3⟩ := mem_entriesUnder.mp hmem
    exact applyWalk_linked cfg b w.home e0 _ w rfl hok hmem hnd h3 h2 hskip
      (fun f hf => (mem_entriesUnder.mp hf).2.1)

theorem applyConfigDir_dirs (w : World) (cfg : Path) (b : Bool) {w1 : World}
    {m : Nat} (hroot : lookupFS w.fs cfg = some (.dir m))
    (hok : applyConfigDir w cfg b false = (.ok (), w1))
    {e0 : Path × FNode} (hmem : e0 ∈ entriesUnder w.fs cfg)
    (hnd : nodeIsDir e0.2 = true)
    (hskip : skipRel (e0.1.drop cfg.length) = false)
    (hall : ∀ f ∈ entriesUnder w.fs cfg, nodeIsDir f.2 = true ∨
      ∀ q ∈ pathInits (w.home ++ e0.1.drop cfg.length),
        w.home ++ f.1.drop cfg.length ≠ q) :
    ∀ q ∈ pathInits (w.home ++ e0.1.drop cfg.length), isDirAt w1.fs q = true := by
  unfold applyConfigDir at hok
  split at hok
  · rename_i heq
    rw [statFS_of_dir2 hroot] at heq
    cases heq
  · obtain ⟨h1, h2, h3⟩ := mem_entriesUnder.mp hmem
    exact applyWalk_dirs cfg b w.home e0 _ w rfl hok hmem hnd h3 h2 hskip hall

theorem applyConfigDir_noop (w : World) (cfg : Path) (b : Bool)
    (hcase : lookupFS w.fs cfg = none ∨
      ((∀ e ∈ entriesUnder w.fs cfg, nodeIsDir e.2 = true → e.1 ≠ cfg →
          skipRel (e.1.drop cfg.length) = false →
          ∀ q ∈ pathInits (w.home ++ e.1.drop cfg.length),
            isDirAt w.fs q = true) ∧
        (∀ e ∈ entriesUnder w.fs cfg, nodeIsDir e.2 = false → e.1 ≠ cfg →
          skipRel (e.1.drop cfg.length) = false →
          lookupFS w.fs (w.home ++ e.1.drop cfg.length) =
            some (.symlink e.1)))) :
    applyConfigDir w cfg b false = (.ok (), w) := by
  unfold applyConfigDir
  split
  · rfl
  · rename_i info heq
    rcases hcase with hnone | ⟨hdirs, hlinks⟩
    · rw [statFS_of_none2 hnone] at heq
      cases heq
    · exact applyWalk_noop cfg b _ w
        (fun e he => (mem_entriesUnder.mp he).2.1) hdirs hlinks


/-- C4: tier precedence is last-wins.  If the machine tier holds a regular
file at `machine/<hostname>/relX` (and the common tier maps the same
home-relative path `relX`, so both tiers claim the same live path), then after
a completed non-interactive Apply the live path `home ++ relX` is a symlink to
the machine-tier template file — which is a different path from the common-tier
template file, so the live path is never left linked to `common/relX`. -/
theorem C4_machine_tier_wins (w0 : World) (dp : Path) (env : String) (b : Bool)
    (relX : Path) (mX mC mR : Nat) {w1 : World}
    (hnodup : keysNodupB w0.fs = true)
    (hdj1 : pfx dp w0.home = false) (hdj2 : pfx w0.home dp = false)
    (htp : tmplPlain dp w0.fs = true) (hlv : linksValidB dp w0.fs = true)
    (hroot : lookupFS w0.fs (dp ++ ["machine", w0.hostname]) = some (.dir mR))
    (hX : shapeAt w0.fs (dp ++ ["machine", w0.hostname] ++ relX) =
      some (.fileS mX))
    (hC : shapeAt w0.fs (dp ++ ["common"] ++ relX) = some (.fileS mC))
    (hrelne : relX ≠ []) (hskipX : skipRel relX = false)
    (hrun : ApplyConfigurationsWithOptions w0 dp env b false = (.ok (), w1)) :
    lookupFS w1.fs (w0.home ++ relX) =
      some (.symlink (dp ++ ["machine", w0.hostname] ++ relX)) ∧
    dp ++ ["machine", w0.hostname] ++ relX ≠ dp ++ ["common"] ++ relX := by
  unfold ApplyConfigurationsWithOptions at hrun
  obtain ⟨u1, h1, hrun2⟩ := andThen_ok_elim hrun
  obtain ⟨u2, h2, h3⟩ := andThen_ok_elim hrun2
  have inv0 : ApplyInv dp w0.fs w0.fs := ApplyInv.init hnodup hlv
  have inv1 : ApplyInv dp w0.fs u1.fs := by
    have i1 := applyConfigDir_inv w0 (dp ++ ["common"]) b inv0 hdj1 hdj2 htp
    rw [h1] at i1
    exact i1
  have home1 : u1.home = w0.home := by
    have hh := applyConfigDir_home w0 (dp ++ ["common"]) b
    rw [h1] at hh
    exact hh
  have step2 : ApplyInv dp w0.fs u2.fs ∧ u2.home = w0.home := by
    by_cases henv : env = ""
    · simp only [henv, ne_eq, not_true_eq_false, if_false] at h2
      obtain rfl : u1 = u2 := (Prod.mk.inj h2).2
      exact ⟨inv1, home1⟩
    · simp only [ne_eq, henv, not_false_eq_true, if_true] at h2
      constructor
      · have i2 := applyConfigDir_inv u1 (dp ++ ["envs", env]) b inv1
          (home1 ▸ hdj1) (home1 ▸ hdj2) htp
        rw [h2] at i2
        exact i2
      · have hh := applyConfigDir_home u1 (dp ++ ["envs", env]) b
        rw [h2] at hh
        exact hh.trans home1
  obtain ⟨inv2, home2⟩ := step2
  have hdpc3 : pfx dp (dp ++ ["machine", w0.hostname]) = true := pfx_append dp _
  have hdpc3X : pfx dp (dp ++ ["machine", w0.hostname] ++ relX) = true := by
    rw [List.append_assoc]
    exact pfx_append dp _
  have hroot2 : lookupFS u2.fs (dp ++ ["machine", w0.hostname]) =
      some (.dir mR) := by
    refine shape_dir_eq ?_
    rw [← inv2.shape.shapeAt_eq hdpc3]
    simp [shapeAt, hroot, shapeOf]
  have hX2 : shapeAt u2.fs (dp ++ ["machine", w0.hostname] ++ relX) =
      some (.fileS mX) := by
    rw [← inv2.shape.shapeAt_eq hdpc3X]
    exact hX
  obtain ⟨cX, hlook⟩ := shape_file_exists hX2
  have hne3 : dp ++ ["machine", w0.hostname] ++ relX ≠
      dp ++ ["machine", w0.hostname] := by
    intro hEq
    have h4 : dp ++ ["machine", w0.hostname] ++ relX =
        dp ++ ["machine", w0.hostname] ++ [] := by
      rw [hEq, List.append_nil]
    exact hrelne (List.append_cancel_left h4)
  have hmemX : (dp ++ ["machine", w0.hostname] ++ relX, FNode.file cX mX) ∈
      entriesUnder u2.fs (dp ++ ["machine", w0.hostname]) :=
    mem_entriesUnder.mpr ⟨lookupFS_mem hlook, pfx_append _ relX, hne3⟩
  have hdrop : (dp ++ ["machine", w0.hostname] ++ relX).drop
      (dp ++ ["machine", w0.hostname]).length = relX :=
    List.drop_left _ relX
  have hfin := applyConfigDir_linked u2 (dp ++ ["machine", w0.hostname]) b
    hroot2 h3 hmemX rfl (by rw [hdrop]; exact hskipX)
  rw [hdrop, home2] at hfin
  refine ⟨hfin, ?_⟩
  intro hEq
  rw [List.append_assoc, List.append_assoc] at hEq
  have h5 := List.append_cancel_left hEq
  simp at h5

/-- C4 witness: the overlap scenario `common/X` vs `machine/h/X`. -/
theorem C4_witness :
    lookupFS (ApplyConfigurationsWithOptions wOverlap ["dp"] "" true false).2.fs
        (wOverlap.home ++ ["X"]) =
      some (.symlink (["dp"] ++ ["machine", wOverlap.hostname] ++ ["X"])) ∧
    ["dp"] ++ ["machine", wOverlap.hostname] ++ ["X"] ≠
      ["dp"] ++ ["common"] ++ ["X"] :=
  C4_machine_tier_wins wOverlap ["dp"] "" true ["X"] 420 420 493
    (by decide) (by decide) (by decide) (by decide) (by decide)
    (by decide) (by decide) (by decide) (by decide) (by decide) rfl


/-! ## Cross-tier transport lemmas -/

theorem shapeAt_none_iff (fs : FS) (p : Path) :
    shapeAt fs p = none ↔ lookupFS fs p = none := by
  unfold shapeAt
  cases lookupFS fs p <;> simp

theorem entry_transfer {dp : Path} {fs0 fsA fsB : FS} (invA : ApplyInv dp fs0 fsA)
    (invB : ApplyInv dp fs0 fsB) {cfg : Path} (hdpc : pfx dp cfg = true)
    {e : Path × FNode} (hmem : e ∈ entriesUnder fsA cfg) :
    ∃ n, (e.1, n) ∈ entriesUnder fsB cfg ∧ shapeOf n = shapeOf e.2 := by
  obtain ⟨hfs, hpfx, hne⟩ := mem_entriesUnder.mp hmem
  have hdpf : pfx dp e.1 = true := pfx_trans hdpc hpfx
  have hl : lookupFS fsA e.1 = some e.2 := by
    obtain ⟨p, n⟩ := e
    exact keysNodupB_mem_lookup invA.nodup hfs
  have hshB : shapeAt fsB e.1 = some (shapeOf e.2) := by
    rw [← invB.shape.shapeAt_eq hdpf, invA.shape.shapeAt_eq hdpf]
    simp [shapeAt, hl]
  obtain ⟨n, hlB, hsn⟩ := shapeAt_some_exists hshB
  exact ⟨n, mem_entriesUnder.mpr ⟨lookupFS_mem hlB, hpfx, hne⟩, hsn⟩

theorem cross_drop_not_pfx {dp : Path} {fs0 fsA fsB : FS}
    (invA : ApplyInv dp fs0 fsA) (invB : ApplyInv dp fs0 fsB)
    {cfgA cfgB : Path} (hdpA : pfx dp cfgA = true) (hdpB : pfx dp cfgB = true)
    (inv0 : ApplyInv dp fs0 fs0)
    (hclash : relsClash fs0 cfgA cfgB = false)
    {e0 f : Path × FNode} (hmemA : e0 ∈ entriesUnder fsA cfgA)
    (hmemB : f ∈ entriesUnder fsB cfgB) :
    pfx (f.1.drop cfgB.length) (e0.1.drop cfgA.length) = false := by
  obtain ⟨ne0, hne0, _⟩ := entry_transfer invA inv0 hdpA hmemA
  obtain ⟨nf, hnf, _⟩ := entry_transfer invB inv0 hdpB hmemB
  obtain ⟨he0fs, he0p, he0r⟩ := mem_entriesUnder.mp hne0
  obtain ⟨hffs, hfp, hfr⟩ := mem_entriesUnder.mp hnf
  exact (relsClash_spec hclash (e0.1, ne0) he0fs (f.1, nf) hffs
    he0p he0r hfp hfr).2

theorem hno_link {dp : Path} {fs0 fsA fsB : FS}
    (invA : ApplyInv dp fs0 fsA) (invB : ApplyInv dp fs0 fsB)
    {cfgA cfgB : Path} (hdpA : pfx dp cfgA = true) (hdpB : pfx dp cfgB = true)
    (inv0 : ApplyInv dp fs0 fs0)
    (hclash : relsClash fs0 cfgA cfgB = false)
    {e0 : Path × FNode} (hmemA : e0 ∈ entriesUnder fsA cfgA) (H : Path) :
    ∀ f ∈ entriesUnder fsB cfgB, nodeIsDir f.2 = true ∨
      H ++ f.1.drop cfgB.length ≠ H ++ e0.1.drop cfgA.length ∨ e0.1 = f.1 := by
  intro f hf
  by_cases hd : nodeIsDir f.2 = true
  · exact Or.inl hd
  refine Or.inr (Or.inl ?_)
  intro hEq
  have h2 := List.append_cancel_left hEq
  have h3 := cross_drop_not_pfx invA invB hdpA hdpB inv0 hclash hmemA hf
  rw [h2, pfx_refl] at h3
  cases h3

theorem hno_dir {dp : Path} {fs0 fsA fsB : FS}
    (invA : ApplyInv dp fs0 fsA) (invB : ApplyInv dp fs0 fsB)
    {cfgA cfgB : Path} (hdpA : pfx dp cfgA = true) (hdpB : pfx dp cfgB = true)
    (inv0 : ApplyInv dp fs0 fs0)
    (hclash : relsClash fs0 cfgA cfgB = false)
    {e0 : Path × FNode} (hmemA : e0 ∈ entriesUnder fsA cfgA) (H : Path)
    {q : Path} (hq : q ∈ pathInits (H ++ e0.1.drop cfgA.length)) :
    ∀ f ∈ entriesUnder fsB cfgB, nodeIsDir f.2 = true ∨
      H ++ f.1.drop cfgB.length ≠ q := by
  intro f hf
  by_cases hd : nodeIsDir f.2 = true
  · exact Or.inl hd
  refine Or.inr ?_
  intro hEq
  have hpq := (pathInits_spec hq).1
  rw [← hEq] at hpq
  rw [pfx_append_left_cancel H] at hpq
  have h3 := cross_drop_not_pfx invA invB hdpA hdpB inv0 hclash hmemA hf
  rw [hpq] at h3
  cases h3

theorem tier_dirs_hall {dp : Path} {fs0 fs : FS} (inv : ApplyInv dp fs0 fs)
    (inv0 : ApplyInv dp fs0 fs0) {cfg : Path}
    (hdpc : pfx dp cfg = true) (hcfgne : cfg ≠ [])
    (hwf : treeWFB fs0 cfg = true) (htp : tmplPlain dp fs0 = true)
    (H : Path) {e0 : Path × FNode} (hmem0 : e0 ∈ entriesUnder fs cfg)
    (hd0 : nodeIsDir e0.2 = true) :
    ∀ f ∈ entriesUnder fs cfg, nodeIsDir f.2 = true ∨
      ∀ q ∈ pathInits (H ++ e0.1.drop cfg.length),
        H ++ f.1.drop cfg.length ≠ q := by
  intro f hf
  by_cases hd : nodeIsDir f.2 = true
  · exact Or.inl hd
  rw [Bool.not_eq_true] at hd
  refine Or.inr ?_
  intro q hq hEq
  have hpq := (pathInits_spec hq).1
  rw [← hEq] at hpq
  rw [pfx_append_left_cancel H] at hpq
  obtain ⟨he0fs, he0p, he0r⟩ := mem_entriesUnder.mp hmem0
  obtain ⟨hffs, hfp, hfr⟩ := mem_entriesUnder.mp hf
  by_cases heq2 : f.1.drop cfg.length = e0.1.drop cfg.length
  · -- same live path within the tier: same key, hence same node, contradiction
    have hk : f.1 = e0.1 := append_drop_inj hfp he0p heq2
    have hl1 : lookupFS fs f.1 = some f.2 := by
      obtain ⟨p, n⟩ := f
      exact keysNodupB_mem_lookup inv.nodup hffs
    have hl2 : lookupFS fs e0.1 = some e0.2 := by
      obtain ⟨p, n⟩ := e0
      exact keysNodupB_mem_lookup inv.nodup he0fs
    rw [hk, hl2] at hl1
    have hff : e0.2 = f.2 := Option.some.inj hl1
    rw [← hff, hd0] at hd
    cases hd
  · -- f.1 is a proper ancestor of e0.1, so the template makes it a directory
    have hfp1 : pfx f.1 e0.1 = true := by
      have h4 := eq_append_drop hfp
      have h5 := eq_append_drop he0p
      rw [← h4, ← h5, pfx_append_left_cancel cfg]
      exact hpq
    have hfne : f.1 ≠ e0.1 := by
      intro hk
      exact heq2 (by rw [hk])
    have hf1ne : f.1 ≠ [] := by
      intro h0
      rw [h0] at hfp
      cases cfg with
      | nil => exact hcfgne rfl
      | cons a as => cases hfp
    obtain ⟨ne0, hne0, _⟩ := entry_transfer inv inv0 hdpc hmem0
    obtain ⟨nf, hnf, hsf⟩ := entry_transfer inv inv0 hdpc hf
    obtain ⟨he0fs0, he0p0, he0r0⟩ := mem_entriesUnder.mp hne0
    obtain ⟨hffs0, hfp0, hfr0⟩ := mem_entriesUnder.mp hnf
    have hdirf := treeWFB_spec hwf he0fs0 he0p0 he0r0
      (mem_pathInits_of_pfx hfp1 hf1ne hfne) hfp0 hfr0 hfne
    obtain ⟨mdir, hmdir⟩ := (isDirAt_iff fs0 f.1).mp hdirf
    have hlf0 : lookupFS fs0 f.1 = some nf := keysNodupB_mem_lookup inv0.nodup hffs0
    rw [hmdir] at hlf0
    have hnd2 : nodeIsDir nf = nodeIsDir f.2 := nodeIsDir_of_shape hsf
    rw [← Option.some.inj hlf0] at hnd2
    rw [hd] at hnd2
    cases hnd2


/-- C3 (amended): non-interactive Apply is idempotent provided no two template
entries (within or across tiers) map to the same live path or to nested live
paths.  Under the standard well-formedness of the initial state (keys distinct,
home and template roots disjoint, template region symlink-free, existing
symlinks into the template valid, each tier root absent or a directory, each
tier a well-formed tree, tiers pairwise non-overlapping), a second run
immediately after a successful first run returns success with the world
unchanged: zero mutations, zero new backups. -/
theorem C3_idempotent_when_disjoint (w0 : World) (dp : Path) (env : String)
    (b : Bool) {w1 : World}
    (hnodup : keysNodupB w0.fs = true)
    (hdj1 : pfx dp w0.home = false) (hdj2 : pfx w0.home dp = false)
    (htp : tmplPlain dp w0.fs = true) (hlv : linksValidB dp w0.fs = true)
    (hr1 : rootOkB w0.fs (dp ++ ["common"]) = true)
    (hr2 : rootOkB w0.fs (dp ++ ["envs", env]) = true)
    (hr3 : rootOkB w0.fs (dp ++ ["machine", w0.hostname]) = true)
    (hwf1 : treeWFB w0.fs (dp ++ ["common"]) = true)
    (hwf2 : treeWFB w0.fs (dp ++ ["envs", env]) = true)
    (hwf3 : treeWFB w0.fs (dp ++ ["machine", w0.hostname]) = true)
    (hc12 : relsClash w0.fs (dp ++ ["common"]) (dp ++ ["envs", env]) = false)
    (hc13 : relsClash w0.fs (dp ++ ["common"])
      (dp ++ ["machine", w0.hostname]) = false)
    (hc23 : relsClash w0.fs (dp ++ ["envs", env])
      (dp ++ ["machine", w0.hostname]) = false)
    (hrun : ApplyConfigurationsWithOptions w0 dp env b false = (.ok (), w1)) :
    ApplyConfigurationsWithOptions w1 dp env b false = (.ok (), w1) := by
  have hdpc1 : pfx dp (dp ++ ["common"]) = true := pfx_append dp _
  have hdpc2 : pfx dp (dp ++ ["envs", env]) = true := pfx_append dp _
  have hdpc3 : pfx dp (dp ++ ["machine", w0.hostname]) = true := pfx_append dp _
  have hcne1 : dp ++ ["common"] ≠ [] := by simp
  have hcne2 : dp ++ ["envs", env] ≠ [] := by simp
  have hcne3 : dp ++ ["machine", w0.hostname] ≠ [] := by simp
  unfold ApplyConfigurationsWithOptions at hrun
  obtain ⟨u1, h1, hrun2⟩ := andThen_ok_elim hrun
  obtain ⟨u2, h2, h3⟩ := andThen_ok_elim hrun2
  have h2a : env ≠ "" → applyConfigDir u1 (dp ++ ["envs", env]) b false =
      (.ok (), u2) := by
    intro henv
    rw [if_pos henv] at h2
    exact h2
  have h2b : env = "" → u2 = u1 := by
    intro henv
    rw [if_neg (fun hc => hc henv)] at h2
    exact ((Prod.mk.inj h2).2).symm
  have inv0 : ApplyInv dp w0.fs w0.fs := ApplyInv.init hnodup hlv
  have inv1 : ApplyInv dp w0.fs u1.fs := by
    have i1 := applyConfigDir_inv w0 (dp ++ ["common"]) b inv0 hdj1 hdj2 htp
    rw [h1] at i1
    exact i1
  have home1 : u1.home = w0.home := by
    have hh := applyConfigDir_home w0 (dp ++ ["common"]) b
    rw [h1] at hh
    exact hh
  have host1 : u1.hostname = w0.hostname := by
    have hh := applyConfigDir_hostname w0 (dp ++ ["common"]) b
    rw [h1] at hh
    exact hh
  have inv2 : ApplyInv dp w0.fs u2.fs := by
    by_cases henv : env = ""
    · rw [h2b henv]
      exact inv1
    · have i2 := applyConfigDir_inv u1 (dp ++ ["envs", env]) b inv1
        (home1 ▸ hdj1) (home1 ▸ hdj2) htp
      rw [h2a henv] at i2
      exact i2
  have home2 : u2.home = w0.home := by
    by_cases henv : env = ""
    · rw [h2b henv]
      exact home1
    · have hh := applyConfigDir_home u1 (dp ++ ["envs", env]) b
      rw [h2a henv] at hh
      exact hh.trans home1
  have host2 : u2.hostname = w0.hostname := by
    by_cases henv : env = ""
    · rw [h2b henv]
      exact host1
    · have hh := applyConfigDir_hostname u1 (dp ++ ["envs", env]) b
      rw [h2a henv] at hh
      exact hh.trans host1
  have invF : ApplyInv dp w0.fs w1.fs := by
    have i3 := applyConfigDir_inv u2 (dp ++ ["machine", w0.hostname]) b inv2
      (home2 ▸ hdj1) (home2 ▸ hdj2) htp
    rw [h3] at i3
    exact i3
  have homeF : w1.home = w0.home := by
    have hh := applyConfigDir_home u2 (dp ++ ["machine", w0.hostname]) b
    rw [h3] at hh
    exact hh.trans home2
  have hostF : w1.hostname = w0.hostname := by
    have hh := applyConfigDir_hostname u2 (dp ++ ["machine", w0.hostname]) b
    rw [h3] at hh
    exact hh.trans host2
  -- facts established by the first run, per tier, pushed through to w1
  have facts1 : ∀ mR, lookupFS w0.fs (dp ++ ["common"]) = some (.dir mR) →
      ∀ e ∈ entriesUnder w0.fs (dp ++ ["common"]),
      (nodeIsDir e.2 = false →
        skipRel (e.1.drop (dp ++ ["common"]).length) = false →
        lookupFS w1.fs (w0.home ++ e.1.drop (dp ++ ["common"]).length) =
          some (.symlink e.1)) ∧
      (nodeIsDir e.2 = true →
        skipRel (e.1.drop (dp ++ ["common"]).length) = false →
        ∀ q ∈ pathInits (w0.home ++ e.1.drop (dp ++ ["common"]).length),
          isDirAt w1.fs q = true) := by
    intro mR hroot e hmem
    constructor
    · intro hnd hskip
      have l1 := applyConfigDir_linked w0 (dp ++ ["common"]) b hroot h1
        hmem hnd hskip
      have l2 : lookupFS u2.fs
          (w0.home ++ e.1.drop (dp ++ ["common"]).length) =
          some (.symlink e.1) := by
        by_cases henv : env = ""
        · rw [h2b henv]
          exact l1
        · have p2 := applyConfigDir_preserves_link u1 (dp ++ ["envs", env]) b l1
            (by rw [home1]
                exact hno_link inv0 inv1 hdpc1 hdpc2 inv0 hc12 hmem w0.home)
          rw [h2a henv] at p2
          exact p2
      have p3 := applyConfigDir_preserves_link u2
        (dp ++ ["machine", w0.hostname]) b l2
        (by rw [home2]
            exact hno_link inv0 inv2 hdpc1 hdpc3 inv0 hc13 hmem w0.home)
      rw [h3] at p3
      exact p3
    · intro hd hskip q hq
      have d1 := applyConfigDir_dirs w0 (dp ++ ["common"]) b hroot h1
        hmem hd hskip
        (tier_dirs_hall inv0 inv0 hdpc1 hcne1 hwf1 htp w0.home hmem hd) q hq
      obtain ⟨mq, hmq⟩ := (isDirAt_iff u1.fs q).mp d1
      have d2 : lookupFS u2.fs q = some (.dir mq) := by
        by_cases henv : env = ""
        · rw [h2b henv]
          exact hmq
        · have p2 := applyConfigDir_preserves_dir u1 (dp ++ ["envs", env]) b hmq
            (by rw [home1]
                exact hno_dir inv0 inv1 hdpc1 hdpc2 inv0 hc12 hmem w0.home hq)
          rw [h2a henv] at p2
          exact p2
      have p3 := applyConfigDir_preserves_dir u2
        (dp ++ ["machine", w0.hostname]) b d2
        (by rw [home2]
            exact hno_dir inv0 inv2 hdpc1 hdpc3 inv0 hc13 hmem w0.home hq)
      rw [h3] at p3
      rw [isDirAt_iff]
      exact ⟨mq, p3⟩
  have facts2 : env ≠ "" → ∀ mR,
      lookupFS u1.fs (dp ++ ["envs", env]) = some (.dir mR) →
      ∀ e ∈ entriesUnder u1.fs (dp ++ ["envs", env]),
      (nodeIsDir e.2 = false →
        skipRel (e.1.drop (dp ++ ["envs", env]).length) = false →
        lookupFS w1.fs (w0.home ++ e.1.drop (dp ++ ["envs", env]).length) =
          some (.symlink e.1)) ∧
      (nodeIsDir e.2 = true →
        skipRel (e.1.drop (dp ++ ["envs", env]).length) = false →
        ∀ q ∈ pathInits (w0.home ++ e.1.drop (dp ++ ["envs", env]).length),
          isDirAt w1.fs q = true) := by
    intro henv mR hroot e hmem
    constructor
    · intro hnd hskip
      have l2 := applyConfigDir_linked u1 (dp ++ ["envs", env]) b hroot
        (h2a henv) hmem hnd hskip
      rw [home1] at l2
      have p3 := applyConfigDir_preserves_link u2
        (dp ++ ["machine", w0.hostname]) b l2
        (by rw [home2]
            exact hno_link inv1 inv2 hdpc2 hdpc3 inv0 hc23 hmem w0.home)
      rw [h3] at p3
      exact p3
    · intro hd hskip q hq
      have d2 := applyConfigDir_dirs u1 (dp ++ ["envs", env]) b hroot
        (h2a henv) hmem hd hskip
        (tier_dirs_hall inv1 inv0 hdpc2 hcne2 hwf2 htp u1.home hmem hd)
      rw [home1] at d2
      have d2q := d2 q hq
      obtain ⟨mq, hmq⟩ := (isDirAt_iff u2.fs q).mp d2q
      have p3 := applyConfigDir_preserves_dir u2
        (dp ++ ["machine", w0.hostname]) b hmq
        (by rw [home2]
            exact hno_dir inv1 inv2 hdpc2 hdpc3 inv0 hc23 hmem w0.home hq)
      rw [h3] at p3
      rw [isDirAt_iff]
      exact ⟨mq, p3⟩
  have facts3 : ∀ mR,
      lookupFS u2.fs (dp ++ ["machine", w0.hostname]) = some (.dir mR) →
      ∀ e ∈ entriesUnder u2.fs (dp ++ ["machine", w0.hostname]),
      (nodeIsDir e.2 = false →
        skipRel (e.1.drop (dp ++ ["machine", w0.hostname]).length) = false →
        lookupFS w1.fs
          (w0.home ++ e.1.drop (dp ++ ["machine", w0.hostname]).length) =
          some (.symlink e.1)) ∧
      (nodeIsDir e.2 = true →
        skipRel (e.1.drop (dp ++ ["machine", w0.hostname]).length) = false →
        ∀ q ∈ pathInits
          (w0.home ++ e.1.drop (dp ++ ["machine", w0.hostname]).length),
          isDirAt w1.fs q = true) := by
    intro mR hroot e hmem
    constructor
    · intro hnd hskip
      have l3 := applyConfigDir_linked u2 (dp ++ ["machine", w0.hostname]) b
        hroot h3 hmem hnd hskip
      rw [home2] at l3
      exact l3
    · intro hd hskip
      have d3 := applyConfigDir_dirs u2 (dp ++ ["machine", w0.hostname]) b
        hroot h3 hmem hd hskip
        (tier_dirs_hall inv2 inv0 hdpc3 hcne3 hwf3 htp u2.home hmem hd)
      rw [home2] at d3
      exact d3
  -- run 2 is the identity
  have noop1 : applyConfigDir w1 (dp ++ ["common"]) b false = (.ok (), w1) := by
    refine applyConfigDir_noop w1 _ b ?_
    rcases rootOkB_cases hr1 with hnone | ⟨mR, hdir⟩
    · refine Or.inl ?_
      rw [← shapeAt_none_iff, ← invF.shape.shapeAt_eq hdpc1, shapeAt_none_iff]
      exact hnone
    · refine Or.inr ⟨?_, ?_⟩
      · intro e hmem hd hne hskip q hq
        obtain ⟨n, hmem0, hsn⟩ := entry_transfer invF inv0 hdpc1 hmem
        have hd0 : nodeIsDir n = true := by
          rw [nodeIsDir_of_shape hsn, hd]
        rw [homeF] at hq
        exact (facts1 mR hdir (e.1, n) hmem0).2 hd0 hskip q hq
      · intro e hmem hnd hne hskip
        obtain ⟨n, hmem0, hsn⟩ := entry_transfer invF inv0 hdpc1 hmem
        have hnd0 : nodeIsDir n = false := by
          rw [nodeIsDir_of_shape hsn, hnd]
        rw [homeF]
        exact (facts1 mR hdir (e.1, n) hmem0).1 hnd0 hskip
  have noop2 : (if env ≠ "" then
        applyConfigDir w1 (dp ++ ["envs", env]) b false
      else (.ok (), w1)) = (.ok (), w1) := by
    by_cases henv : env = ""
    · rw [if_neg (fun hc => hc henv)]
    · rw [if_pos henv]
      refine applyConfigDir_noop w1 _ b ?_
      rcases rootOkB_cases hr2 with hnone | ⟨mR, hdir⟩
      · refine Or.inl ?_
        rw [← shapeAt_none_iff, ← invF.shape.shapeAt_eq hdpc2, shapeAt_none_iff]
        exact hnone
      · have hdirU1 : lookupFS u1.fs (dp ++ ["envs", env]) =
            some (.dir mR) := by
          refine shape_dir_eq ?_
          rw [← inv1.shape.shapeAt_eq hdpc2]
          simp [shapeAt, hdir, shapeOf]
        refine Or.inr ⟨?_, ?_⟩
        · intro e hmem hd hne hskip q hq
          obtain ⟨n, hmem0, hsn⟩ := entry_transfer invF inv1 hdpc2 hmem
          have hd0 : nodeIsDir n = true := by
            rw [nodeIsDir_of_shape hsn, hd]
          rw [homeF] at hq
          exact (facts2 henv mR hdirU1 (e.1, n) hmem0).2 hd0 hskip q hq
        · intro e hmem hnd hne hskip
          obtain ⟨n, hmem0, hsn⟩ := entry_transfer invF inv1 hdpc2 hmem
          have hnd0 : nodeIsDir n = false := by
            rw [nodeIsDir_of_shape hsn, hnd]
          rw [homeF]
          exact (facts2 henv mR hdirU1 (e.1, n) hmem0).1 hnd0 hskip
  have noop3 : applyConfigDir w1 (dp ++ ["machine", w0.hostname]) b false =
      (.ok (), w1) := by
    refine applyConfigDir_noop w1 _ b ?_
    rcases rootOkB_cases hr3 with hnone | ⟨mR, hdir⟩
    · refine Or.inl ?_
      rw [← shapeAt_none_iff, ← invF.shape.shapeAt_eq hdpc3, shapeAt_none_iff]
      exact hnone
    · have hdirU2 : lookupFS u2.fs (dp ++ ["machine", w0.hostname]) =
          some (.dir mR) := by
        refine shape_dir_eq ?_
        rw [← inv2.shape.shapeAt_eq hdpc3]
        simp [shapeAt, hdir, shapeOf]
      refine Or.inr ⟨?_, ?_⟩
      · intro e hmem hd hne hskip q hq
        obtain ⟨n, hmem0, hsn⟩ := entry_transfer invF inv2 hdpc3 hmem
        have hd0 : nodeIsDir n = true := by
          rw [nodeIsDir_of_shape hsn, hd]
        rw [homeF] at hq
        exact (facts3 mR hdirU2 (e.1, n) hmem0).2 hd0 hskip q hq
      · intro e hmem hnd hne hskip
        obtain ⟨n, hmem0, hsn⟩ := entry_transfer invF inv2 hdpc3 hmem
        have hnd0 : nodeIsDir n = false := by
          rw [nodeIsDir_of_shape hsn, hnd]
        rw [homeF]
        exact (facts3 mR hdirU2 (e.1, n) hmem0).1 hnd0 hskip
  unfold ApplyConfigurationsWithOptions
  rw [hostF, noop1]
  simp only [andThen_ok]
  rw [noop2]
  simp only [andThen_ok]
  exact noop3

/-- C3 witness: one plain template file, apply twice, second run is a no-op. -/
theorem C3_witness :
    ApplyConfigurationsWithOptions
        (ApplyConfigurationsWithOptions wPlain ["dp"] "" true false).2
        ["dp"] "" true false =
      (.ok (), (ApplyConfigurationsWithOptions wPlain ["dp"] "" true false).2) :=
  C3_idempotent_when_disjoint wPlain ["dp"] "" true
    (by decide) (by decide) (by decide) (by decide) (by decide)
    (by decide) (by decide) (by decide) (by decide) (by decide) (by decide)
    (by decide) (by decide) (by decide) rfl


/-- C4 counterexample: with the default options (backup and diff prompt on)
and a user who answers no to the machine-tier overwrite prompt, Apply
completes successfully yet leaves the live path linked to the common-tier
template file. -/
theorem C4_counterexample :
    (ApplyConfigurations { wOverlap with stdin := ["n"] } ["dp"] "").1 =
      .ok () ∧
    lookupFS
        (ApplyConfigurations { wOverlap with stdin := ["n"] } ["dp"] "").2.fs
        (exHome ++ ["X"]) =
      some (.symlink (exDp ++ ["common", "X"])) :=
  ⟨rfl, rfl⟩


end Dotpilot
